import Mathlib

/-!
# Devil's Dice — verification of the scoring kernel and game state machine

A shallow embedding of the server-side game engine of the `devilsdice`
repository, together with proofs of the specification claims.

Conventions of the embedding:
* TypeScript numbers that can become fractional (scores, points) are `ℚ`;
  counters and indices are `ℕ`.
* Player ids, die ids and room lookups use `ℕ` in place of the opaque
  uuid / room-code strings of the source; nothing in the verified code
  inspects the string structure of an id, only equality.
* Fallible code (TypeScript `throw`) returns `Except`/`Option`.
* `Math.random`-driven rolls and `uuidv4` id generation are threaded through
  an explicit generator state `Gen`: a pre-sampled stream of naturals for the
  rolls and a fresh-id counter for the uuids.
-/

namespace DevilsDice

/-- `DieColor` from `packages/shared` game types. -/
inductive DieColor where
  | white
  | red
  | blue
deriving DecidableEq, Repr

/-- `Die` from `packages/shared` game types. -/
structure Die where
  id : Nat
  color : DieColor
  value : Nat
  isSpent : Bool
  isRevealed : Bool
deriving DecidableEq, Repr

/-- `PredictionType` from `packages/shared` game types. -/
inductive PredictionType where
  | ZERO
  | MIN
  | MORE
  | MAX
deriving DecidableEq, Repr, Fintype


/-- `HandRank` from `packages/shared` game types; a numeric enum. -/
inductive HandRank where
  | SINGLE
  | DOUBLE
  | STRAIGHT
  | TRIPLE
deriving DecidableEq, Repr, Fintype

/-- The numeric value of the `HandRank` enum (SINGLE = 1 … TRIPLE = 4). -/
def HandRank.val : HandRank → Int
  | .SINGLE => 1
  | .DOUBLE => 2
  | .STRAIGHT => 3
  | .TRIPLE => 4

/-- `EvaluatedHand` from `packages/shared` game types. -/
structure EvaluatedHand where
  rank : HandRank
  primaryValue : Nat
  secondaryValue : Nat
  tertiaryValue : Nat
  description : String
deriving DecidableEq, Repr

/-- Decidable equality of `Except` results, for evaluating claims on
concrete inputs. -/
instance {ε : Type u} {α : Type v} [DecidableEq ε] [DecidableEq α] :
    DecidableEq (Except ε α) := fun x y =>
  match x, y with
  | .error a, .error b =>
    if h : a = b then .isTrue (by rw [h])
    else .isFalse (by intro hc; injection hc; exact h (by assumption))
  | .error _, .ok _ => .isFalse (fun hc => Except.noConfusion hc)
  | .ok _, .error _ => .isFalse (fun hc => Except.noConfusion hc)
  | .ok a, .ok b =>
    if h : a = b then .isTrue (by rw [h])
    else .isFalse (by intro hc; injection hc; exact h (by assumption))

/-- `evaluateHand` from `apps/server/src/game/scoring/hand-evaluator.ts`.
Throws (here: `Except.error`) unless exactly 3 dice are supplied; sorts the
face values ascending and classifies the hand. -/
def evaluateHand (dice : List Die) : Except String EvaluatedHand :=
  if dice.length ≠ 3 then
    .error "Hand must contain exactly 3 dice"
  else
    match List.insertionSort (fun a b => a ≤ b) (dice.map Die.value) with
    | [low, mid, high] =>
      if low = mid ∧ mid = high then
        .ok ⟨.TRIPLE, high, 0, 0, "Triple " ++ toString high ++ "s"⟩
      else if mid = low + 1 ∧ high = mid + 1 then
        .ok ⟨.STRAIGHT, high, 0, 0,
          "Straight " ++ toString low ++ "-" ++ toString mid ++ "-" ++ toString high⟩
      else if low = mid then
        .ok ⟨.DOUBLE, low, high, 0,
          "Pair of " ++ toString low ++ "s, " ++ toString high ++ " kicker"⟩
      else if mid = high then
        .ok ⟨.DOUBLE, high, low, 0,
          "Pair of " ++ toString high ++ "s, " ++ toString low ++ " kicker"⟩
      else
        .ok ⟨.SINGLE, high, mid, low,
          "High " ++ toString high ++ ", " ++ toString mid ++ ", " ++ toString low⟩
    | _ => .error "Hand must contain exactly 3 dice"

/-- `compareHands` from `hand-evaluator.ts`: positive when `a` beats `b`,
negative when `b` beats `a`, zero on a tie.  Comparison order:
rank, then primary, secondary, tertiary value. -/
def compareHands (a b : EvaluatedHand) : Int :=
  if a.rank ≠ b.rank then a.rank.val - b.rank.val
  else if a.primaryValue ≠ b.primaryValue then
    (a.primaryValue : Int) - (b.primaryValue : Int)
  else if a.secondaryValue ≠ b.secondaryValue then
    (a.secondaryValue : Int) - (b.secondaryValue : Int)
  else (a.tertiaryValue : Int) - (b.tertiaryValue : Int)

/-- `PLACEMENT_POINTS_BY_PLAYER_COUNT` from the shared scoring constants:
the per-placement points table for each player count 2–6; `none` for any
other player count (absent record key). -/
def PLACEMENT_POINTS_BY_PLAYER_COUNT (playerCount : Nat) :
    Option (List (Nat × ℚ)) :=
  match playerCount with
  | 2 => some [(1, 6), (2, 0)]
  | 3 => some [(1, 6), (2, 3), (3, 0)]
  | 4 => some [(1, 6), (2, 3), (3, 1), (4, 0)]
  | 5 => some [(1, 6), (2, 4), (3, 2), (4, 1), (5, 0)]
  | 6 => some [(1, 6), (2, 4), (3, 3), (4, 2), (5, 1), (6, 0)]
  | _ => none

/-- `getPlacementPoints` from the shared scoring constants: table lookup with
fallback to the 4-player table for unknown player counts, and 0 for a
placement outside the table. -/
def getPlacementPoints (placement playerCount : Nat) : ℚ :=
  match PLACEMENT_POINTS_BY_PLAYER_COUNT playerCount with
  | none =>
    (((PLACEMENT_POINTS_BY_PLAYER_COUNT 4).getD []).lookup placement).getD 0
  | some t => (t.lookup placement).getD 0

/-- `PREDICTION_RANGES_BY_PLAYER_COUNT` from the shared scoring constants:
closed `[min, max]` ranges over the round total for each prediction type and
player count 2–6.  For 2 players MIN maps to the invalid range `[-1, -1]`. -/
def PREDICTION_RANGES_BY_PLAYER_COUNT (playerCount : Nat) :
    Option (PredictionType → Int × Int) :=
  match playerCount with
  | 2 => some fun p => match p with
      | .ZERO => (0, 0)
      | .MIN => (-1, -1)
      | .MORE => (6, 6)
      | .MAX => (12, 12)
  | 3 => some fun p => match p with
      | .ZERO => (0, 0)
      | .MIN => (3, 3)
      | .MORE => (6, 9)
      | .MAX => (10, 12)
  | 4 => some fun p => match p with
      | .ZERO => (0, 0)
      | .MIN => (1, 4)
      | .MORE => (6, 9)
      | .MAX => (10, 12)
  | 5 => some fun p => match p with
      | .ZERO => (0, 0)
      | .MIN => (1, 4)
      | .MORE => (5, 8)
      | .MAX => (10, 12)
  | 6 => some fun p => match p with
      | .ZERO => (0, 0)
      | .MIN => (1, 4)
      | .MORE => (5, 9)
      | .MAX => (10, 12)
  | _ => none

/-- `getPredictionRange` from the shared scoring constants, with fallback to
the 4-player ranges for unknown player counts. -/
def getPredictionRange (prediction : PredictionType) (playerCount : Nat) :
    Int × Int :=
  match PREDICTION_RANGES_BY_PLAYER_COUNT playerCount with
  | none =>
    ((PREDICTION_RANGES_BY_PLAYER_COUNT 4).getD fun _ => (0, 0)) prediction
  | some ranges => ranges prediction

/-- `getAvailablePredictions` from the shared scoring constants. -/
def getAvailablePredictions (playerCount : Nat) : List PredictionType :=
  if playerCount = 2 then [.ZERO, .MORE, .MAX]
  else [.ZERO, .MIN, .MORE, .MAX]

/-- `SCORING.PREDICTION_ZERO_BONUS` from the shared scoring constants. -/
def PREDICTION_ZERO_BONUS : ℚ := 40

/-- `calculatePredictionBonus` from the scoring kernel: 0 outside the range,
a flat `+40` for a hit ZERO prediction, and the round total itself for a hit
MIN / MORE / MAX prediction. -/
def calculatePredictionBonus (prediction : PredictionType) (roundTotal : ℚ)
    (playerCount : Nat) : ℚ :=
  let range := getPredictionRange prediction playerCount
  if roundTotal < (range.1 : ℚ) ∨ (range.2 : ℚ) < roundTotal then 0
  else if prediction = .ZERO then PREDICTION_ZERO_BONUS
  else roundTotal

/-- The `PlayerSelection` input record of `calculateSetPlacements`. -/
structure PlayerSelection where
  playerId : Nat
  hand : EvaluatedHand
  diceUsed : List Nat
  diceValues : List Die
deriving DecidableEq, Repr

/-- `SetResult` from the shared game types. -/
structure SetResult where
  playerId : Nat
  hand : EvaluatedHand
  diceUsed : List Nat
  diceValues : List Die
  placement : Nat
  pointsEarned : ℚ
deriving DecidableEq, Repr

/-- The descending stable sort of `calculateSetPlacements`:
`[...selections].sort((a, b) => compareHands(b.hand, a.hand))`, modelled by a
stable sort (insertion sort) on the relation "the comparator is ≤ 0". -/
def sortByHandDesc (selections : List PlayerSelection) : List PlayerSelection :=
  List.insertionSort (fun a b => compareHands b.hand a.hand ≤ 0) selections

/-- The tie-group walk of `calculateSetPlacements` (its `while` loop):
the group at the head shares `currentPlacement`, earns the points of the
placements it occupies split evenly, and the walk continues past it. -/
def placeGroups (playerCount : Nat) :
    List PlayerSelection → Nat → List SetResult
  | [], _ => []
  | s :: rest, currentPlacement =>
    let tied := s :: rest.takeWhile (fun x => compareHands s.hand x.hand = 0)
    let remaining := rest.dropWhile (fun x => compareHands s.hand x.hand = 0)
    let totalPoints : ℚ :=
      ((List.range tied.length).map
        (fun o => getPlacementPoints (currentPlacement + o) playerCount)).sum
    let pointsPerPlayer := totalPoints / (tied.length : ℚ)
    tied.map (fun p =>
      { playerId := p.playerId
        hand := p.hand
        diceUsed := p.diceUsed
        diceValues := p.diceValues
        placement := currentPlacement
        pointsEarned := pointsPerPlayer })
      ++ placeGroups playerCount remaining (currentPlacement + tied.length)
termination_by l _ => l.length
decreasing_by
  simp only [List.length_cons]
  have := (List.dropWhile_sublist
    (fun x => decide (compareHands s.hand x.hand = 0)) (l := rest)).length_le
  omega

/-- `calculateSetPlacements` from the scoring kernel: sort the selections by
hand descending, then walk them in tie groups assigning placements and
evenly split points.  The optional `playerCount` defaults to the number of
selections. -/
def calculateSetPlacements (selections : List PlayerSelection)
    (playerCount : Option Nat) : List SetResult :=
  if selections = [] then []
  else
    let actualPlayerCount := playerCount.getD selections.length
    placeGroups actualPlayerCount (sortByHandDesc selections) 1

/-- The per-player roll record used for the initial turn order. -/
structure RollResult where
  playerId : Nat
  roll : Nat
deriving DecidableEq, Repr

/-- `calculateInitialTurnOrder` from `turn-order.ts`: stable sort by roll
ascending (lowest roll first), then project to player ids. -/
def calculateInitialTurnOrder (rollResults : List RollResult) : List Nat :=
  (List.insertionSort (fun a b => a.roll ≤ b.roll) rollResults).map
    RollResult.playerId

/-- `Player` from the shared game types.  The display name and session
handle of the source are not modelled: no verified routine reads them. -/
structure Player where
  id : Nat
  dice : List Die
  cumulativeScore : ℚ
  currentRoundScore : ℚ
  set1Score : ℚ
  set2Score : ℚ
  prediction : Option PredictionType
  isConnected : Bool
  isReady : Bool
  isHost : Bool
deriving DecidableEq, Repr

/-- The index assigned to `pid` by filling a map along the list starting at
index `i`: a later occurrence overwrites an earlier one, as the `forEach`
`Map.set` loop of `calculateTurnOrder` does. -/
def lastIndexFrom (pid : Nat) : List Nat → Nat → Option Nat
  | [], _ => none
  | x :: xs, i =>
    match lastIndexFrom pid xs (i + 1) with
    | some j => some j
    | none => if x = pid then some i else none

/-- The `originalOrderMap` lookup of `calculateTurnOrder`: the index stored
by the `forEach` loop, or `Infinity` (`⊤` in `WithTop ℕ`) for a player
missing from `originalOrder`. -/
def originalOrderIndex (originalOrder : List Nat) (pid : Nat) : WithTop Nat :=
  match lastIndexFrom pid originalOrder 0 with
  | some i => (i : WithTop Nat)
  | none => ⊤

/-- The sign of the `calculateTurnOrder` comparator
`(a, b) => (b.cum - a.cum) or (aIdx - bIdx)` as a sort relation: `a` may stay
before `b` exactly when the comparator is ≤ 0.  Two players both missing from
`originalOrder` compare `Infinity - Infinity = NaN`, which array sort treats
as 0; `⊤ ≤ ⊤` matches that. -/
def turnOrderLe (originalOrder : List Nat) (a b : Player) : Prop :=
  b.cumulativeScore < a.cumulativeScore ∨
    (a.cumulativeScore = b.cumulativeScore ∧
      originalOrderIndex originalOrder a.id ≤ originalOrderIndex originalOrder b.id)

instance (originalOrder : List Nat) (a b : Player) :
    Decidable (turnOrderLe originalOrder a b) := by
  unfold turnOrderLe; infer_instance

/-- `calculateTurnOrder` from `turn-order.ts`: stable sort by cumulative
score descending, ties broken by the earlier position in the round-1 initial
order, players missing from that order last. -/
def calculateTurnOrder (players : List Player) (originalOrder : List Nat) :
    List Nat :=
  (List.insertionSort (turnOrderLe originalOrder) players).map Player.id

/-! ## Spec-side definitions for the scoring-kernel claims -/

/-- The tie-breaking content of a hand: rank and the three tie-break
values, without the human-readable description. -/
structure HandKey where
  rank : HandRank
  primaryValue : Nat
  secondaryValue : Nat
  tertiaryValue : Nat
deriving DecidableEq, Repr

/-- The tie-breaking content of an `EvaluatedHand`. -/
def EvaluatedHand.key (h : EvaluatedHand) : HandKey :=
  ⟨h.rank, h.primaryValue, h.secondaryValue, h.tertiaryValue⟩

/-- Hand classification exactly as the spec words it, as a function of the
ascending-sorted values `(low, mid, high)`.  Values the spec leaves
unmentioned (kickers of triples and straights) are 0. -/
def specHandKey (low mid high : Nat) : HandKey :=
  if low = mid ∧ mid = high then ⟨.TRIPLE, low, 0, 0⟩
  else if mid = low + 1 ∧ high = mid + 1 then ⟨.STRAIGHT, high, 0, 0⟩
  else if low = mid then ⟨.DOUBLE, low, high, 0⟩
  else if mid = high then ⟨.DOUBLE, high, low, 0⟩
  else ⟨.SINGLE, high, mid, low⟩

/-- Strict lexicographic comparison of hand keys: by rank value, then
primary, secondary and tertiary value. -/
def handKeyLt (a b : EvaluatedHand) : Prop :=
  a.rank.val < b.rank.val ∨
    (a.rank = b.rank ∧
      (a.primaryValue < b.primaryValue ∨
        (a.primaryValue = b.primaryValue ∧
          (a.secondaryValue < b.secondaryValue ∨
            (a.secondaryValue = b.secondaryValue ∧
              a.tertiaryValue < b.tertiaryValue)))))

/-- The spec's prediction-range table (claim C4): closed ranges per player
count, `none` where the table says "unused" (MIN for 2 players). -/
def specPredictionRange (prediction : PredictionType) (playerCount : Nat) :
    Option (Nat × Nat) :=
  match playerCount, prediction with
  | 2, .ZERO => some (0, 0)
  | 2, .MIN => none
  | 2, .MORE => some (6, 6)
  | 2, .MAX => some (12, 12)
  | 3, .ZERO => some (0, 0)
  | 3, .MIN => some (3, 3)
  | 3, .MORE => some (6, 9)
  | 3, .MAX => some (10, 12)
  | 4, .ZERO => some (0, 0)
  | 4, .MIN => some (1, 4)
  | 4, .MORE => some (6, 9)
  | 4, .MAX => some (10, 12)
  | 5, .ZERO => some (0, 0)
  | 5, .MIN => some (1, 4)
  | 5, .MORE => some (5, 8)
  | 5, .MAX => some (10, 12)
  | 6, .ZERO => some (0, 0)
  | 6, .MIN => some (1, 4)
  | 6, .MORE => some (5, 9)
  | 6, .MAX => some (10, 12)
  | _, _ => none

/-- Whether a round total lies in the spec's closed range for the given
prediction and player count. -/
def specInRange (prediction : PredictionType) (playerCount t : Nat) : Bool :=
  match specPredictionRange prediction playerCount with
  | none => false
  | some r => decide (r.1 ≤ t ∧ t ≤ r.2)

/-- A die carrying only a face value; used to state that `evaluateHand`
depends on nothing else. -/
def mkValueDie (v : Nat) : Die :=
  { id := 0, color := .white, value := v, isSpent := false, isRevealed := false }

/-! ## Game state data model -/

/-- `GamePhase` from the shared game types. -/
inductive GamePhase where
  | LOBBY
  | INITIAL_ROLL
  | PREDICTION
  | SET_SELECTION
  | SET_REVEAL
  | ROUND_SUMMARY
  | GAME_OVER
deriving DecidableEq, Repr

/-- `GameConfig` from the shared game types. -/
structure GameConfig where
  maxPlayers : Nat
  totalRounds : Nat
  turnTimerSeconds : Nat
deriving DecidableEq, Repr

/-- The per-player prediction outcome stored in a round result. -/
structure PredictionOutcome where
  playerId : Nat
  type : PredictionType
  correct : Bool
  bonus : ℚ
deriving DecidableEq, Repr

/-- `RoundResult` from the shared game types. -/
structure RoundResult where
  roundNumber : Nat
  set1Results : List SetResult
  set2Results : List SetResult
  predictions : List PredictionOutcome
deriving DecidableEq, Repr

/-- The `pendingSelections` record of the source.  The source keys one
string-indexed object both by player id (`pendingSelections[pid] = dieIds`)
and by `"<pid>:confirmed"` marker keys; uuids contain no colon, so the two
key families never collide and are modelled as two association lists.
Object spread overwrites, modelled by prepending (first lookup wins). -/
structure PendingSelections where
  sel : List (Nat × List Nat)
  confirmedKeys : List Nat
deriving DecidableEq, Repr

/-- The empty `pendingSelections` object. -/
def PendingSelections.empty : PendingSelections := ⟨[], []⟩

/-- `pendingSelections[pid]`. -/
def PendingSelections.get (ps : PendingSelections) (pid : Nat) :
    Option (List Nat) :=
  ps.sel.lookup pid

/-- `{...pendingSelections, [pid]: dieIds}`. -/
def PendingSelections.setSel (ps : PendingSelections) (pid : Nat)
    (dieIds : List Nat) : PendingSelections :=
  ⟨(pid, dieIds) :: ps.sel, ps.confirmedKeys⟩

/-- `{...pendingSelections, ["<pid>:confirmed"]: ['confirmed']}`. -/
def PendingSelections.setConfirmed (ps : PendingSelections) (pid : Nat) :
    PendingSelections :=
  ⟨ps.sel, pid :: ps.confirmedKeys⟩

/-- Whether `pendingSelections["<pid>:confirmed"]` is present (truthy). -/
def PendingSelections.isConfirmed (ps : PendingSelections) (pid : Nat) : Bool :=
  ps.confirmedKeys.contains pid

/-- `GameState` from the shared game types.  The room code and creation
timestamp are not modelled: no verified routine reads them. -/
structure GameState where
  phase : GamePhase
  players : List Player
  config : GameConfig
  currentRound : Nat
  currentSet : Nat
  turnOrder : List Nat
  currentTurnIndex : Nat
  pendingSelections : PendingSelections
  setResults : List SetResult
  roundHistory : List RoundResult
  initialRollResults : List RollResult
  hostId : Nat
deriving DecidableEq, Repr

/-- The field names of the shared `GAME_LIMITS` constant record. -/
structure GameLimits where
  MIN_PLAYERS : Nat
  MAX_PLAYERS : Nat
  MIN_ROUNDS : Nat
  MAX_ROUNDS : Nat
  MIN_TIMER : Nat
  MAX_TIMER : Nat
  WHITE_DICE_COUNT : Nat
deriving DecidableEq, Repr

/-- Modelled from the spec: the shared `GAME_LIMITS` constants, whose
defining file of the shared package is not under `src/` (only its uses are).
The spec fixes 2–6 players, 3–10 rounds, a 15–60 s turn timer, and
9 white + 1 red + 1 blue dice per player. -/
def GAME_LIMITS : GameLimits :=
  { MIN_PLAYERS := 2
    MAX_PLAYERS := 6
    MIN_ROUNDS := 3
    MAX_ROUNDS := 10
    MIN_TIMER := 15
    MAX_TIMER := 60
    WHITE_DICE_COUNT := 9 }

/-- `canStartGame` from the room service: the store lookup result is passed
as an `Option GameState`; returns the `{canStart, reason}` pair. -/
def canStartGame (gameState : Option GameState) : Bool × Option String :=
  match gameState with
  | none => (false, some "Room not found")
  | some s =>
    if s.phase ≠ GamePhase.LOBBY then (false, some "Game already in progress")
    else if s.players.length < GAME_LIMITS.MIN_PLAYERS then
      (false, some "Need at least 2 players")
    else if ¬ (s.players.all fun p => p.isReady || p.isHost) then
      (false, some "Not all players are ready")
    else (true, none)

/-- A player record with given id / readiness flags and empty per-round
state, as the room service creates it. -/
def mkLobbyPlayer (pid : Nat) (ready host : Bool) : Player :=
  { id := pid
    dice := []
    cumulativeScore := 0
    currentRoundScore := 0
    set1Score := 0
    set2Score := 0
    prediction := none
    isConnected := true
    isReady := ready
    isHost := host }

/-- The default lobby configuration. -/
def defaultConfig : GameConfig :=
  { maxPlayers := 6, totalRounds := 3, turnTimerSeconds := 30 }

/-- A lobby state for the given player list. -/
def mkLobbyState (players : List Player) (hostId : Nat) : GameState :=
  { phase := .LOBBY
    players := players
    config := defaultConfig
    currentRound := 0
    currentSet := 1
    turnOrder := []
    currentTurnIndex := 0
    pendingSelections := .empty
    setResults := []
    roundHistory := []
    initialRollResults := []
    hostId := hostId }

/-- A 2-player lobby whose host has not pressed ready but whose other
player has. -/
def hostNotReadyLobby : GameState :=
  mkLobbyState [mkLobbyPlayer 0 false true, mkLobbyPlayer 1 true false] 0

/-- Two players both holding Triple 5s, the tied-pair scenario of the
spec. -/
def c3WitnessSelections : List PlayerSelection :=
  [{ playerId := 1, hand := ⟨.TRIPLE, 5, 0, 0, "Triple 5s"⟩,
     diceUsed := [], diceValues := [] },
   { playerId := 2, hand := ⟨.TRIPLE, 5, 0, 0, "Triple 5s"⟩,
     diceUsed := [], diceValues := [] }]

/-- The first index of `pid` in the list, counting from `i`: the spec's
"position in the round-1 initial order". -/
def firstIndexFrom (pid : Nat) : List Nat → Nat → Option Nat
  | [], _ => none
  | x :: xs, i => if x = pid then some i else firstIndexFrom pid xs (i + 1)

/-- The spec's sort key position for a player id: its position in the
round-1 initial order, or `⊤` (sorts last) when missing. -/
def specOrderPos (originalOrder : List Nat) (pid : Nat) : WithTop Nat :=
  match firstIndexFrom pid originalOrder 0 with
  | some i => (i : WithTop Nat)
  | none => ⊤

/-- The spec's order for claim C8: cumulative score descending, ties broken
by the earlier position in the round-1 initial order, missing players
last. -/
def specTurnOrderRel (originalOrder : List Nat) (a b : Player) : Prop :=
  b.cumulativeScore < a.cumulativeScore ∨
    (a.cumulativeScore = b.cumulativeScore ∧
      specOrderPos originalOrder a.id ≤ specOrderPos originalOrder b.id)

/-! ## Randomness and dice generation -/

/-- The random source and uuid supply of the engine: a pre-sampled stream of
naturals read at position `pos` models `Math.random`, and `fresh` is a
counter standing for `uuidv4` (fresh distinct ids). -/
structure Gen where
  rolls : Nat → Nat
  pos : Nat
  fresh : Nat

/-- `rollDie`: a random face value 1–6. -/
def rollDie (g : Gen) : Nat × Gen :=
  (g.rolls g.pos % 6 + 1, { g with pos := g.pos + 1 })

/-- `createDie`: a fresh die of the given color with a random value; white
dice start revealed, red and blue hidden. -/
def createDie (color : DieColor) (g : Gen) : Die × Gen :=
  let i := g.fresh
  let g1 : Gen := { g with fresh := g.fresh + 1 }
  let vg := rollDie g1
  ({ id := i, color := color, value := vg.1, isSpent := false,
     isRevealed := color == DieColor.white }, vg.2)

/-- `n` fresh dice of one color, generated in order. -/
def genDiceN (color : DieColor) : Nat → Gen → List Die × Gen
  | 0, g => ([], g)
  | n + 1, g =>
    let dg := createDie color g
    let rest := genDiceN color n dg.2
    (dg.1 :: rest.1, rest.2)

/-- `generatePlayerDice`: 9 white + 1 red + 1 blue dice, in that order. -/
def generatePlayerDice (g : Gen) : List Die × Gen :=
  let w := genDiceN DieColor.white GAME_LIMITS.WHITE_DICE_COUNT g
  let r := createDie DieColor.red w.2
  let b := createDie DieColor.blue r.2
  (w.1 ++ [r.1, b.1], b.2)

/-- Map a generator-threading function over a list. -/
def mapGen {α β : Type} (f : α → Gen → β × Gen) : List α → Gen → List β × Gen
  | [], g => ([], g)
  | a :: rest, g =>
    let bg := f a g
    let rest2 := mapGen f rest bg.2
    (bg.1 :: rest2.1, rest2.2)

/-! ## State-machine actions (`state-machine/actions.ts`) -/

/-- `rollAllDice`: fresh 11 dice for every player. -/
def rollAllDice (s : GameState) (g : Gen) : GameState × Gen :=
  let pr := mapGen (fun p gg =>
    let dg := generatePlayerDice gg
    ({ p with dice := dg.1 }, dg.2)) s.players g
  ({ s with players := pr.1 }, pr.2)

/-- `rollInitialTurnOrder`: one 2d6 roll per player. -/
def rollInitialTurnOrder (s : GameState) (g : Gen) : GameState × Gen :=
  let rr := mapGen (fun p gg =>
    let r1 := rollDie gg
    let r2 := rollDie r1.2
    (({ playerId := p.id, roll := r1.1 + r2.1 } : RollResult), r2.2)) s.players g
  ({ s with initialRollResults := rr.1 }, rr.2)

/-- `setTurnOrder`: round 1 uses the initial-roll order, later rounds the
cumulative-score order; resets the turn index. -/
def setTurnOrder (s : GameState) : GameState :=
  let s1 :=
    if s.currentRound = 1 ∧ 0 < s.initialRollResults.length then
      { s with turnOrder := calculateInitialTurnOrder s.initialRollResults }
    else
      { s with turnOrder :=
          (calculateTurnOrder s.players
            (calculateInitialTurnOrder s.initialRollResults)) }
  { s1 with currentTurnIndex := 0 }

/-- Sequence a throwing map over a list (`Array.map` whose callback can
throw: the first failure aborts). -/
def mapExcept {α β ε : Type} (f : α → Except ε β) : List α → Except ε (List β)
  | [] => .ok []
  | a :: rest => do
    let b ← f a
    let bs ← mapExcept f rest
    pure (b :: bs)

/-- Sequence a failing map over a list (first failure aborts). -/
def mapOption {α β : Type} (f : α → Option β) : List α → Option (List β)
  | [] => some []
  | a :: rest => do
    let b ← f a
    let bs ← mapOption f rest
    pure (b :: bs)

/-- The selection-building loop of `processSetSelection`: resolve each
player's pending die ids against their dice and evaluate the hand
(`evaluateHand` throws on a hand that is not exactly 3 dice). -/
def buildSelections (s : GameState) : Except String (List PlayerSelection) :=
  mapExcept (fun p => do
    let dieIds := (s.pendingSelections.get p.id).getD []
    let selectedDice := dieIds.filterMap fun i => p.dice.find? (fun d => d.id == i)
    let revealedDice := selectedDice.map fun d => { d with isRevealed := true }
    let hand ← evaluateHand selectedDice
    pure { playerId := p.id, hand := hand, diceUsed := dieIds,
           diceValues := revealedDice }) s.players

/-- `processSetSelection`: evaluate hands, compute placements and points,
mark the selected dice spent and revealed, and credit the current set's
score (`x || 0` on a number only differs from `getD 0` at 0 itself). -/
def processSetSelection (s : GameState) : Option GameState :=
  match buildSelections s with
  | .error _ => none
  | .ok selections =>
    let playerCount := s.players.length
    let setResults := calculateSetPlacements selections (some playerCount)
    let players := s.players.map fun p =>
      let result := setResults.find? (fun r => r.playerId == p.id)
      let pointsEarned := (result.map SetResult.pointsEarned).getD 0
      let dieIds := (s.pendingSelections.get p.id).getD []
      let updatedDice := p.dice.map fun die =>
        { die with
          isSpent := die.isSpent || dieIds.contains die.id
          isRevealed := die.isRevealed || dieIds.contains die.id }
      let set1Score := if s.currentSet = 1 then pointsEarned else p.set1Score
      let set2Score := if s.currentSet = 2 then pointsEarned else p.set2Score
      { p with
        dice := updatedDice
        set1Score := set1Score
        set2Score := set2Score
        currentRoundScore := set1Score + set2Score }
    some { s with players := players, setResults := setResults }

/-- `processPredictions`: on entry to ROUND_SUMMARY, compute each player's
prediction bonus (the non-null assertion on `prediction` fails at runtime
when a prediction is missing, modelled by `none`), add round score plus
bonus to the cumulative score, and append the round's history entry whose
set-1 results are read from the *previous* round's entry. -/
def processPredictions (s : GameState) : Option GameState :=
  let playerCount := s.players.length
  match mapOption (fun p =>
      p.prediction.map fun pred =>
        let roundTotal := p.currentRoundScore
        let bonus := calculatePredictionBonus pred roundTotal playerCount
        ({ playerId := p.id, type := pred, correct := decide (0 < bonus),
           bonus := bonus } : PredictionOutcome)) s.players with
  | none => none
  | some predictions =>
    let players := s.players.map fun p =>
      let bonus :=
        ((predictions.find? (fun q => q.playerId == p.id)).map
          PredictionOutcome.bonus).getD 0
      { p with cumulativeScore := p.cumulativeScore + p.currentRoundScore + bonus }
    let roundResult : RoundResult :=
      { roundNumber := s.currentRound
        set1Results :=
          if 0 < s.roundHistory.length then
            ((s.roundHistory.getLast?).map RoundResult.set1Results).getD []
          else []
        set2Results := s.setResults
        predictions := predictions }
    some { s with players := players,
                  roundHistory := s.roundHistory ++ [roundResult] }

/-- `advanceSet`: stash the set-1 results into the last round-history entry
(when one exists), move to set 2, reset the turn index and clear pending
selections and set results. -/
def advanceSet (s : GameState) : GameState :=
  let set1Results := s.setResults
  let roundHistory :=
    match s.roundHistory.getLast? with
    | some lastRound =>
      s.roundHistory.dropLast ++ [{ lastRound with set1Results := set1Results }]
    | none => s.roundHistory
  { s with
    roundHistory := roundHistory
    currentSet := 2
    currentTurnIndex := 0
    setResults := []
    pendingSelections := .empty }

/-- `advanceRound`: next round, set 1, fresh dice for every player. -/
def advanceRound (s : GameState) (g : Gen) : GameState × Gen :=
  let pr := mapGen (fun p gg =>
    let dg := generatePlayerDice gg
    ({ p with dice := dg.1 }, dg.2)) s.players g
  ({ s with
      currentRound := s.currentRound + 1
      currentSet := 1
      currentTurnIndex := 0
      setResults := []
      pendingSelections := .empty
      players := pr.1 }, pr.2)

/-- `resetPlayerRoundState`: zero the per-round scores and clear
predictions. -/
def resetPlayerRoundState (s : GameState) : GameState :=
  { s with players := s.players.map fun p =>
      { p with set1Score := 0, set2Score := 0, currentRoundScore := 0,
               prediction := none } }

/-- `storePrediction`. -/
def storePrediction (s : GameState) (pid : Nat) (pred : PredictionType) :
    GameState :=
  { s with players := s.players.map fun p =>
      if p.id = pid then { p with prediction := some pred } else p }

/-- `storeDiceSelection`. -/
def storeDiceSelection (s : GameState) (pid : Nat) (dieIds : List Nat) :
    GameState :=
  { s with pendingSelections := s.pendingSelections.setSel pid dieIds }

/-- `confirmSelection`: mark confirmed; advance the turn index only when the
confirming player is the current turn-holder. -/
def confirmSelection (s : GameState) (pid : Nat) : GameState :=
  let s1 := { s with pendingSelections := s.pendingSelections.setConfirmed pid }
  match s1.turnOrder[s1.currentTurnIndex]? with
  | some currentPlayerId =>
    if currentPlayerId = pid then
      { s1 with currentTurnIndex := s1.currentTurnIndex + 1 }
    else s1
  | none => s1

/-- `autoSelectDice`: on turn timeout, select the first 3 unspent dice of
the current turn-holder, mark confirmed, and advance the turn; a missing
turn-holder leaves the context unchanged. -/
def autoSelectDice (s : GameState) : GameState :=
  match s.turnOrder[s.currentTurnIndex]? with
  | none => s
  | some currentPlayerId =>
    match s.players.find? (fun p => p.id == currentPlayerId) with
    | none => s
    | some player =>
      let availableDice := player.dice.filter fun d => !d.isSpent
      let selectedDieIds := (availableDice.take 3).map Die.id
      { s with
        pendingSelections :=
          (s.pendingSelections.setSel currentPlayerId selectedDieIds).setConfirmed
            currentPlayerId
        currentTurnIndex := s.currentTurnIndex + 1 }

/-- A random index below `n` (`Math.floor(Math.random() * n)`). -/
def randIndex (n : Nat) (g : Gen) : Nat × Gen :=
  (g.rolls g.pos % n, { g with pos := g.pos + 1 })

/-- `autoSubmitPredictions`: give every player without a prediction a
uniformly random one from the set available for the player count. -/
def autoSubmitPredictions (s : GameState) (g : Gen) : GameState × Gen :=
  let availablePredictions := getAvailablePredictions s.players.length
  let pr := mapGen (fun p gg =>
    match p.prediction with
    | none =>
      let r := randIndex availablePredictions.length gg
      ({ p with prediction := some (availablePredictions.getD r.1 .ZERO) }, r.2)
    | some _ => (p, gg)) s.players g
  ({ s with players := pr.1 }, pr.2)

/-- `initializeRound1` (the START_GAME transition action). -/
def initializeRound1 (s : GameState) : GameState := { s with currentRound := 1 }

/-- `clearPendingSelections` (the prediction → set-selection action). -/
def clearPendingSelections (s : GameState) : GameState :=
  { s with pendingSelections := .empty }

/-! ## Guards (`state-machine/guards.ts`) -/

/-- `allPlayersRolled`. -/
def allPlayersRolled (s : GameState) : Bool :=
  decide (s.players.length ≤ s.initialRollResults.length) &&
    decide (0 < s.players.length)

/-- `allPredictionsSubmitted`. -/
def allPredictionsSubmitted (s : GameState) : Bool :=
  s.players.all fun p => p.prediction.isSome

/-- `allSelectionsConfirmed`: every player has a stored 3-die selection and
a confirmed marker. -/
def allSelectionsConfirmed (s : GameState) : Bool :=
  s.players.all fun p =>
    match s.pendingSelections.get p.id with
    | some selection =>
      decide (selection.length = 3) && s.pendingSelections.isConfirmed p.id
    | none => false

/-- `hasMoreRounds`. -/
def hasMoreRounds (s : GameState) : Bool :=
  decide (s.currentRound < s.config.totalRounds)

/-- `isGameOver`. -/
def isGameOver (s : GameState) : Bool :=
  decide (s.config.totalRounds ≤ s.currentRound)

/-! ## The state machine (`game.machine.ts`)

The xstate machine is flat; its state value always mirrors
`gameState.phase` because every state's first entry action sets the phase.
Each `enter…` function performs the entry actions of the target state and
then runs its eventless ("always") transition to fixed point, as xstate
does before accepting the next event.  The timer-handle fields of the
machine context are not modelled: `clearTurnTimer` does not touch the game
state. -/

/-- The machine events. -/
inductive GameEvent where
  | START_GAME
  | SUBMIT_PREDICTION (playerId : Nat) (prediction : PredictionType)
  | PREDICTION_TIMEOUT
  | SELECT_DICE (playerId : Nat) (dieIds : List Nat)
  | CONFIRM_SELECTION (playerId : Nat)
  | TURN_TIMEOUT
  | NEXT_SET
  | NEXT_ROUND
  | END_GAME
deriving DecidableEq, Repr

/-- Entry into SET_REVEAL. -/
def enterSetReveal (s : GameState) : GameState := { s with phase := .SET_REVEAL }

/-- The eventless transition of SET_SELECTION: when every selection is
confirmed, run `processSetSelection` and enter SET_REVEAL. -/
def staySetSelection (s : GameState) : Option GameState :=
  if allSelectionsConfirmed s then (processSetSelection s).map enterSetReveal
  else some s

/-- Entry into SET_SELECTION. -/
def enterSetSelection (s : GameState) : Option GameState :=
  staySetSelection { s with phase := .SET_SELECTION }

/-- The eventless transition of PREDICTION: when every prediction is in,
clear pending selections and enter SET_SELECTION. -/
def stayPrediction (s : GameState) : Option GameState :=
  if allPredictionsSubmitted s then enterSetSelection (clearPendingSelections s)
  else some s

/-- Entry into PREDICTION. -/
def enterPrediction (s : GameState) : Option GameState :=
  stayPrediction { s with phase := .PREDICTION }

/-- Entry into INITIAL_ROLL: roll the 2d6s, and when all players rolled,
set the turn order, roll all dice and enter PREDICTION. -/
def enterInitialRoll (s : GameState) (g : Gen) : Option (GameState × Gen) :=
  let r := rollInitialTurnOrder { s with phase := .INITIAL_ROLL } g
  if allPlayersRolled r.1 then
    let r2 := rollAllDice (setTurnOrder r.1) r.2
    (enterPrediction r2.1).map fun x => (x, r2.2)
  else some r

/-- Entry into ROUND_SUMMARY: apply the prediction bonuses. -/
def enterRoundSummary (s : GameState) : Option GameState :=
  processPredictions { s with phase := .ROUND_SUMMARY }

/-- Entry into GAME_OVER (`clearTurnTimer` touches no game state). -/
def enterGameOver (s : GameState) : GameState := { s with phase := .GAME_OVER }

/-- One machine step: apply an event in the current phase and run the
eventless transitions to fixed point.  `none` models a crash of an action
(an uncaught `throw` inside the actor). -/
def step (s : GameState) (g : Gen) (e : GameEvent) : Option (GameState × Gen) :=
  match s.phase, e with
  | .LOBBY, .START_GAME => enterInitialRoll (initializeRound1 s) g
  | .PREDICTION, .SUBMIT_PREDICTION pid pred =>
    (stayPrediction (storePrediction s pid pred)).map fun x => (x, g)
  | .PREDICTION, .PREDICTION_TIMEOUT =>
    let r := autoSubmitPredictions s g
    (stayPrediction r.1).map fun x => (x, r.2)
  | .SET_SELECTION, .SELECT_DICE pid dieIds =>
    (staySetSelection (storeDiceSelection s pid dieIds)).map fun x => (x, g)
  | .SET_SELECTION, .CONFIRM_SELECTION pid =>
    (staySetSelection (confirmSelection s pid)).map fun x => (x, g)
  | .SET_SELECTION, .TURN_TIMEOUT =>
    (staySetSelection (autoSelectDice s)).map fun x => (x, g)
  | .SET_REVEAL, .NEXT_SET =>
    if s.currentSet = 1 then
      (enterSetSelection (advanceSet s)).map fun x => (x, g)
    else if s.currentSet = 2 then
      (enterRoundSummary s).map fun x => (x, g)
    else some (s, g)
  | .ROUND_SUMMARY, .NEXT_ROUND =>
    if hasMoreRounds s then
      let r := advanceRound s g
      let s2 := setTurnOrder (resetPlayerRoundState r.1)
      (enterPrediction s2).map fun x => (x, r.2)
    else if isGameOver s then some (enterGameOver s, g)
    else some (s, g)
  | .ROUND_SUMMARY, .END_GAME => some (enterGameOver s, g)
  | _, _ => some (s, g)

/-! ## The scripted full game of claim C1 -/

/-- The first 3 unspent die ids of a player, the selection the claim's
script submits. -/
def autoPickDieIds (s : GameState) (pid : Nat) : List Nat :=
  match s.players.find? (fun p => p.id == pid) with
  | none => []
  | some player => ((player.dice.filter fun d => !d.isSpent).take 3).map Die.id

/-- One set of the script: each player, in turn order, selects 3 unspent
dice and confirms. -/
def setScript (s : GameState) : List GameEvent :=
  s.turnOrder.flatMap fun pid =>
    [GameEvent.SELECT_DICE pid (autoPickDieIds s pid),
     GameEvent.CONFIRM_SELECTION pid]

/-- All players submit a prediction (in player-list order). -/
def predictionScript (s : GameState) : List GameEvent :=
  s.players.map fun p => GameEvent.SUBMIT_PREDICTION p.id PredictionType.ZERO

/-- Feed a list of events to the machine. -/
def runEvents : GameState → Gen → List GameEvent → Option (GameState × Gen)
  | s, g, [] => some (s, g)
  | s, g, e :: es => do
    let (s1, g1) ← step s g e
    runEvents s1 g1 es

/-- One round of the claim's script: all predictions; set 1; NEXT_SET;
set 2; NEXT_SET; NEXT_ROUND. -/
def runRound (s : GameState) (g : Gen) : Option (GameState × Gen) := do
  let (s1, g1) ← runEvents s g (predictionScript s)
  let (s2, g2) ← runEvents s1 g1 (setScript s1)
  let (s3, g3) ← step s2 g2 .NEXT_SET
  let (s4, g4) ← runEvents s3 g3 (setScript s3)
  let (s5, g5) ← step s4 g4 .NEXT_SET
  step s5 g5 .NEXT_ROUND

/-- Iterate the round script. -/
def runRounds : Nat → GameState → Gen → Option (GameState × Gen)
  | 0, s, g => some (s, g)
  | n + 1, s, g => do
    let (s1, g1) ← runRound s g
    runRounds n s1 g1

/-- The whole scripted game: START_GAME, then `totalRounds` rounds. -/
def playGame (s : GameState) (g : Gen) : Option (GameState × Gen) := do
  let (s1, g1) ← step s g .START_GAME
  runRounds s1.config.totalRounds s1 g1

/-! ## Service and gateway slices (claims C7, C9) -/

/-- The named error codes of `GameError` that the verified slice of
`game.service.ts` can raise. -/
inductive GameErrorCode where
  | GAME_NOT_FOUND
  | INVALID_PHASE
  | PLAYER_NOT_FOUND
  | PREDICTION_ALREADY_SUBMITTED
  | NOT_IN_ROOM
deriving DecidableEq, Repr

/-- `GameService.submitPrediction`: validate the phase, the player and that
no prediction was already submitted, and only then send the event to the
actor.  The room's actor is passed as its state `s`. -/
def submitPredictionService (s : GameState) (g : Gen) (pid : Nat)
    (prediction : PredictionType) :
    Except GameErrorCode (Option (GameState × Gen)) :=
  if s.phase ≠ GamePhase.PREDICTION then .error .INVALID_PHASE
  else
    match s.players.find? (fun p => p.id == pid) with
    | none => .error .PLAYER_NOT_FOUND
    | some player =>
      if player.prediction ≠ none then .error .PREDICTION_ALREADY_SUBMITTED
      else .ok (step s g (.SUBMIT_PREDICTION pid prediction))

/-- The gateway messages relevant to `prediction:submit`. -/
inductive GatewayMsg where
  | roomError (code : GameErrorCode)
  | predictionSubmitted (playerId : Nat)
  | predictionAllSubmitted
deriving DecidableEq, Repr

/-- The gateway handler for `prediction:submit`: on a `GameError` it emits
`room:error` to the initiating client only; on success it broadcasts
`prediction:submitted` (and `prediction:allSubmitted` when complete) to the
room.  Returns (updated state or `none` when unchanged/crashed, messages to
the caller, messages broadcast to the room). -/
def handlePredictionSubmit (s : GameState) (g : Gen) (pid : Nat)
    (prediction : PredictionType) :
    Option (GameState × Gen) × List GatewayMsg × List GatewayMsg :=
  match submitPredictionService s g pid prediction with
  | .error e => (none, [.roomError e], [])
  | .ok none => (none, [], [])
  | .ok (some (s1, g1)) =>
    ((some (s1, g1)), [],
      [GatewayMsg.predictionSubmitted pid] ++
        (if s1.players.all (fun p => p.prediction.isSome) then
          [GatewayMsg.predictionAllSubmitted]
        else []))

/-- Reachable engine states: a lobby state as the room registry hands it to
`startGame` (all per-round scores zero, as `createRoom`/`joinRoom` create
players), closed under machine steps. -/
inductive Reachable : GameState → Prop where
  | init (s : GameState) :
      s.phase = GamePhase.LOBBY →
      (∀ p ∈ s.players,
        p.set1Score = 0 ∧ p.set2Score = 0 ∧ p.currentRoundScore = 0) →
      Reachable s
  | step (s : GameState) (g : Gen) (e : GameEvent) (s1 : GameState) (g1 : Gen) :
      Reachable s → step s g e = some (s1, g1) → Reachable s1

/-- A concrete generator (all random draws 0). -/
def gen0 : Gen := ⟨fun _ => 0, 0, 0⟩

/-- Claim C5 as stated: from SET_REVEAL in set 1 (of a non-empty room),
NEXT_SET stores the just-computed set results into the `set1Results` of the
last round-history entry, moves to set 2, resets the turn index, clears
pending selections and enters SET_SELECTION. -/
def claimC5Stated (s : GameState) : Prop :=
  ∀ g : Gen, s.phase = GamePhase.SET_REVEAL → s.currentSet = 1 →
    s.players ≠ [] →
    ∃ s1 g1, step s g .NEXT_SET = some (s1, g1) ∧
      (∃ lastEntry, s1.roundHistory.getLast? = some lastEntry ∧
        lastEntry.set1Results = s.setResults) ∧
      s1.currentSet = 2 ∧ s1.currentTurnIndex = 0 ∧
      s1.pendingSelections = PendingSelections.empty ∧
      s1.phase = GamePhase.SET_SELECTION

/-- A set-reveal state in round 1: one set result computed, but the round
history is still empty (history entries are only appended at round
summary). -/
def c5CexState : GameState :=
  { phase := .SET_REVEAL
    players := [mkLobbyPlayer 0 true true]
    config := defaultConfig
    currentRound := 1
    currentSet := 1
    turnOrder := [0]
    currentTurnIndex := 1
    pendingSelections := ⟨[(0, [1, 2, 3])], [0]⟩
    setResults := [{ playerId := 0, hand := ⟨.TRIPLE, 5, 0, 0, "Triple 5s"⟩,
                     diceUsed := [1, 2, 3], diceValues := [],
                     placement := 1, pointsEarned := 6 }]
    roundHistory := []
    initialRollResults := [⟨0, 7⟩]
    hostId := 0 }

/-- The per-round scores of every player are non-negative; established at
room creation and preserved by every engine step. -/
def ScoreInv (s : GameState) : Prop :=
  ∀ p ∈ s.players,
    0 ≤ p.set1Score ∧ 0 ≤ p.set2Score ∧ 0 ≤ p.currentRoundScore

/-- Pointwise cumulative-score growth between two player lists. -/
def CumLe (l1 l2 : List Player) : Prop :=
  List.Forall₂ (fun p q => p.cumulativeScore ≤ q.cumulativeScore) l1 l2

/-- The turn-holder of the C6 witness: three unspent white 5s. -/
def c6WitnessPlayer : Player :=
  { mkLobbyPlayer 0 true true with dice :=
      [⟨1, .white, 5, false, false⟩, ⟨2, .white, 5, false, false⟩,
       ⟨3, .white, 5, false, false⟩] }

/-- A SET_SELECTION state whose single player holds three unspent dice. -/
def c6WitnessState : GameState :=
  { phase := .SET_SELECTION
    players := [c6WitnessPlayer]
    config := defaultConfig
    currentRound := 1
    currentSet := 1
    turnOrder := [0]
    currentTurnIndex := 0
    pendingSelections := .empty
    setResults := []
    roundHistory := []
    initialRollResults := [⟨0, 7⟩]
    hostId := 0 }

/-- The state after the C6 witness timeout (total by the `getD` default). -/
def c6StepState : GameState :=
  ((step c6WitnessState gen0 GameEvent.TURN_TIMEOUT).getD
    (c6WitnessState, gen0)).1

/-- The state at the start of a round of the scripted game of claim C1:
PREDICTION phase, set 1, turn index 0, a turn order that is a permutation
of the duplicate-free player ids, no predictions yet, and every player
holding duplicate-free-id dice with at least 6 unspent. -/
def RoundReady (T r : Nat) (s : GameState) : Prop :=
  s.phase = GamePhase.PREDICTION ∧
  s.currentRound = r ∧
  s.currentSet = 1 ∧
  s.currentTurnIndex = 0 ∧
  s.config.totalRounds = T ∧
  s.players ≠ [] ∧
  (s.players.map Player.id).Nodup ∧
  s.turnOrder.Perm (s.players.map Player.id) ∧
  (∀ p ∈ s.players, p.prediction = none) ∧
  (∀ p ∈ s.players, (p.dice.map Die.id).Nodup ∧
    6 ≤ (p.dice.filter fun d => !d.isSpent).length)

/-! ## Theorems -/

/-- `HandRank.val` is injective: the numeric enum determines the rank. -/
theorem HandRank.val_injective {a b : HandRank} (h : a.val = b.val) : a = b := by
  revert h
  cases a <;> cases b <;> decide

/-- A hand ties with itself. -/
theorem compareHands_self (a : EvaluatedHand) : compareHands a a = 0 := by
  simp [compareHands]

/-- Swapping the arguments of `compareHands` negates the result. -/
theorem compareHands_swap (a b : EvaluatedHand) :
    compareHands b a = -compareHands a b := by
  unfold compareHands
  rcases eq_or_ne a.rank b.rank with h1 | h1
  · rcases eq_or_ne a.primaryValue b.primaryValue with h2 | h2
    · rcases eq_or_ne a.secondaryValue b.secondaryValue with h3 | h3
      · simp [h1, h2, h3]
      · simp [h1, h2, h3, Ne.symm h3]
    · simp [h1, h2, Ne.symm h2]
  · simp [h1, Ne.symm h1]

/-- `compareHands` returns 0 exactly on hands with equal keys. -/
theorem compareHands_eq_zero_iff (a b : EvaluatedHand) :
    compareHands a b = 0 ↔
      (a.rank = b.rank ∧ a.primaryValue = b.primaryValue ∧
        a.secondaryValue = b.secondaryValue ∧
        a.tertiaryValue = b.tertiaryValue) := by
  unfold compareHands
  rcases eq_or_ne a.rank b.rank with h1 | h1
  · rcases eq_or_ne a.primaryValue b.primaryValue with h2 | h2
    · rcases eq_or_ne a.secondaryValue b.secondaryValue with h3 | h3
      · simp [h1, h2, h3]
        omega
      · simp [h1, h2, h3]
        omega
    · simp [h1, h2]
      omega
  · have hv : a.rank.val ≠ b.rank.val := fun h => h1 (HandRank.val_injective h)
    simp [h1]
    omega

/-- `compareHands` is negative exactly when the first key is
lexicographically smaller. -/
theorem compareHands_neg_iff (a b : EvaluatedHand) :
    compareHands a b < 0 ↔ handKeyLt a b := by
  unfold compareHands handKeyLt
  rcases eq_or_ne a.rank b.rank with h1 | h1
  · rcases eq_or_ne a.primaryValue b.primaryValue with h2 | h2
    · rcases eq_or_ne a.secondaryValue b.secondaryValue with h3 | h3
      · simp [h1, h2, h3]
      · simp [h1, h2, h3]
    · simp [h1, h2]
  · have hv : a.rank.val ≠ b.rank.val := fun h => h1 (HandRank.val_injective h)
    simp [h1]

/-- `compareHands` is positive exactly when the second key is
lexicographically smaller. -/
theorem compareHands_pos_iff (a b : EvaluatedHand) :
    0 < compareHands a b ↔ handKeyLt b a := by
  have hs := compareHands_swap a b
  constructor
  · intro h
    exact (compareHands_neg_iff b a).mp (by omega)
  · intro h
    have := (compareHands_neg_iff b a).mpr h
    omega

/-- A tied hand can replace the left argument of any comparison. -/
theorem compareHands_congr_left {a b : EvaluatedHand} (c : EvaluatedHand)
    (h : compareHands a b = 0) : compareHands a c = compareHands b c := by
  obtain ⟨h1, h2, h3, h4⟩ := (compareHands_eq_zero_iff a b).mp h
  unfold compareHands
  rw [h1, h2, h3, h4]

/-- A tied hand can replace the right argument of any comparison. -/
theorem compareHands_congr_right {a b : EvaluatedHand} (c : EvaluatedHand)
    (h : compareHands a b = 0) : compareHands c a = compareHands c b := by
  obtain ⟨h1, h2, h3, h4⟩ := (compareHands_eq_zero_iff a b).mp h
  unfold compareHands
  rw [h1, h2, h3, h4]

/-- Lexicographic key comparison is transitive. -/
theorem handKeyLt_trans {a b c : EvaluatedHand}
    (h1 : handKeyLt a b) (h2 : handKeyLt b c) : handKeyLt a c := by
  unfold handKeyLt at *
  rcases h1 with h1 | ⟨hr1, h1⟩
  · rcases h2 with h2 | ⟨hr2, h2⟩
    · exact Or.inl (lt_trans h1 h2)
    · left
      rw [← hr2]
      exact h1
  · rcases h2 with h2 | ⟨hr2, h2⟩
    · left
      rw [hr1]
      exact h2
    · right
      refine ⟨hr1.trans hr2, ?_⟩
      rcases h1 with h1 | ⟨hp1, h1⟩
      · rcases h2 with h2 | ⟨hp2, h2⟩
        · exact Or.inl (lt_trans h1 h2)
        · left
          rw [← hp2]
          exact h1
      · rcases h2 with h2 | ⟨hp2, h2⟩
        · left
          rw [hp1]
          exact h2
        · right
          refine ⟨hp1.trans hp2, ?_⟩
          rcases h1 with h1 | ⟨hs1, h1⟩
          · rcases h2 with h2 | ⟨hs2, h2⟩
            · exact Or.inl (lt_trans h1 h2)
            · left
              rw [← hs2]
              exact h1
          · rcases h2 with h2 | ⟨hs2, h2⟩
            · left
              rw [hs1]
              exact h2
            · right
              exact ⟨hs1.trans hs2, by omega⟩

/-- The comparator sign relation `compareHands · · ≤ 0` is transitive. -/
theorem compareHands_le_trans {a b c : EvaluatedHand}
    (h1 : compareHands a b ≤ 0) (h2 : compareHands b c ≤ 0) :
    compareHands a c ≤ 0 := by
  rcases lt_or_eq_of_le h1 with h1' | h1'
  · rcases lt_or_eq_of_le h2 with h2' | h2'
    · have := handKeyLt_trans ((compareHands_neg_iff a b).mp h1')
        ((compareHands_neg_iff b c).mp h2')
      have := (compareHands_neg_iff a c).mpr this
      omega
    · have := compareHands_congr_right (c := a) h2'
      omega
  · have := compareHands_congr_left (c := c) h1'
    omega

/-- `evaluateHand` reads only the face values of its dice. -/
theorem evaluateHand_congr (l1 l2 : List Die)
    (h : l1.map Die.value = l2.map Die.value) :
    evaluateHand l1 = evaluateHand l2 := by
  have hlen : l1.length = l2.length := by
    rw [← List.length_map l1 Die.value, h, List.length_map]
  unfold evaluateHand
  rw [h, hlen]

/-- C2: for any 3 dice with face values 1–6, `evaluateHand` classifies the
ascending-sorted values `(low, mid, high)` exactly as the spec says: a
triple when all equal; a straight (no wrap-around) when consecutive, with
primary `high`; a double on the pair with the kicker secondary; otherwise a
single ordered `high, mid, low`. -/
theorem claim_C2_hand_evaluation (d1 d2 d3 : Die)
    (h11 : 1 ≤ d1.value) (h12 : d1.value ≤ 6)
    (h21 : 1 ≤ d2.value) (h22 : d2.value ≤ 6)
    (h31 : 1 ≤ d3.value) (h32 : d3.value ≤ 6) :
    (evaluateHand [d1, d2, d3]).map EvaluatedHand.key =
      Except.ok (specHandKey
        (min d1.value (min d2.value d3.value))
        (d1.value + d2.value + d3.value
          - min d1.value (min d2.value d3.value)
          - max d1.value (max d2.value d3.value))
        (max d1.value (max d2.value d3.value))) := by
  have hcongr := evaluateHand_congr [d1, d2, d3]
    [mkValueDie d1.value, mkValueDie d2.value, mkValueDie d3.value]
    (by simp [mkValueDie])
  rw [hcongr]
  have key : ∀ a : ℕ, a < 6 → ∀ b : ℕ, b < 6 → ∀ c : ℕ, c < 6 →
      (evaluateHand [mkValueDie (a + 1), mkValueDie (b + 1),
        mkValueDie (c + 1)]).map EvaluatedHand.key =
      Except.ok (specHandKey
        (min (a + 1) (min (b + 1) (c + 1)))
        ((a + 1) + (b + 1) + (c + 1)
          - min (a + 1) (min (b + 1) (c + 1))
          - max (a + 1) (max (b + 1) (c + 1)))
        (max (a + 1) (max (b + 1) (c + 1)))) := by decide
  have e1 : d1.value = d1.value - 1 + 1 := by omega
  have e2 : d2.value = d2.value - 1 + 1 := by omega
  have e3 : d3.value = d3.value - 1 + 1 := by omega
  rw [e1, e2, e3]
  exact key _ (by omega) _ (by omega) _ (by omega)

/-- A closed instance of C2: the wrap-around candidate 5-6-1 is a SINGLE
ordered 6-5-1, not a straight. -/
theorem claim_C2_hand_evaluation_witness :
    (evaluateHand [mkValueDie 5, mkValueDie 6, mkValueDie 1]).map
        EvaluatedHand.key =
      Except.ok (specHandKey
        (min (mkValueDie 5).value
          (min (mkValueDie 6).value (mkValueDie 1).value))
        ((mkValueDie 5).value + (mkValueDie 6).value + (mkValueDie 1).value
          - min (mkValueDie 5).value
              (min (mkValueDie 6).value (mkValueDie 1).value)
          - max (mkValueDie 5).value
              (max (mkValueDie 6).value (mkValueDie 1).value))
        (max (mkValueDie 5).value
          (max (mkValueDie 6).value (mkValueDie 1).value))) :=
  claim_C2_hand_evaluation (mkValueDie 5) (mkValueDie 6) (mkValueDie 1)
    (by decide) (by decide) (by decide) (by decide) (by decide) (by decide)

/-- C4: for every prediction type, integer round total 0–12 and player count
2–6, the prediction bonus is 40 for a hit ZERO, the round total itself for a
hit MIN/MORE/MAX, and 0 otherwise, with hits judged by the spec's
per-player-count closed ranges. -/
theorem claim_C4_prediction_bonus (pred : PredictionType) (t N : Nat)
    (ht : t ≤ 12) (hN2 : 2 ≤ N) (hN6 : N ≤ 6) :
    calculatePredictionBonus pred (t : ℚ) N =
      if specInRange pred N t then
        (if pred = .ZERO then 40 else (t : ℚ))
      else 0 := by
  have key : ∀ (p : PredictionType), ∀ i : ℕ, i < 13 → ∀ j : ℕ, j < 5 →
      calculatePredictionBonus p (i : ℚ) (j + 2) =
        if specInRange p (j + 2) i then
          (if p = .ZERO then 40 else (i : ℚ))
        else 0 := by decide
  have board := key pred t (by omega) (N - 2) (by omega)
  rw [show N - 2 + 2 = N from by omega] at board
  exact board

/-- A closed instance of C4: with 4 players, a round total of 7 and a MORE
prediction (range [6, 9]) the bonus equals the round total, 7. -/
theorem claim_C4_prediction_bonus_witness :
    calculatePredictionBonus .MORE ((7 : ℕ) : ℚ) 4 =
      if specInRange .MORE 4 7 then
        (if PredictionType.MORE = .ZERO then 40 else ((7 : ℕ) : ℚ))
      else 0 :=
  claim_C4_prediction_bonus .MORE 7 4 (by decide) (by decide) (by decide)

/-- C10: `canStartGame` reports `canStart = true` exactly when the room
exists, is in LOBBY, has at least 2 players, and every player is ready or is
the host; in particular the host's own ready flag is exempt, witnessed by a
lobby whose host is not ready. -/
theorem claim_C10_canStartGame :
    (∀ gs : Option GameState,
      (canStartGame gs).1 = true ↔
        ∃ s, gs = some s ∧ s.phase = GamePhase.LOBBY ∧
          2 ≤ s.players.length ∧
          ∀ p ∈ s.players, p.isReady = true ∨ p.isHost = true) ∧
    (canStartGame (some hostNotReadyLobby)).1 = true ∧
    (hostNotReadyLobby.players.filter Player.isHost).all
      (fun p => !p.isReady) = true := by
  refine ⟨?_, by decide, by decide⟩
  intro gs
  match gs with
  | none => simp [canStartGame]
  | some s =>
    simp only [canStartGame, GAME_LIMITS]
    split_ifs with h1 h2 h3 <;>
      simp_all [List.all_eq_true, Bool.or_eq_true, Nat.lt_iff_add_one_le,
        Nat.not_lt]

/-- Every element of the head tie group (head plus `takeWhile` ties) ties
with the head. -/
theorem mem_tied_tie (s : PlayerSelection) (rest : List PlayerSelection) :
    ∀ x ∈ s :: rest.takeWhile (fun x => decide (compareHands s.hand x.hand = 0)),
      compareHands x.hand s.hand = 0 := by
  intro x hx
  rcases List.mem_cons.mp hx with h | h
  · rw [h]
    exact compareHands_self s.hand
  · have := List.mem_takeWhile_imp h
    have h0 : compareHands s.hand x.hand = 0 := by
      simpa using this
    have := compareHands_swap s.hand x.hand
    omega

/-- In a descending-sorted tail, everything past the head's tie group is
strictly worse than the head. -/
theorem mem_dropWhile_lt (s : PlayerSelection) (rest : List PlayerSelection)
    (hp : rest.Pairwise (fun a b => compareHands b.hand a.hand ≤ 0))
    (hh : ∀ y ∈ rest, compareHands y.hand s.hand ≤ 0) :
    ∀ y ∈ rest.dropWhile (fun x => decide (compareHands s.hand x.hand = 0)),
      compareHands y.hand s.hand < 0 := by
  induction rest with
  | nil => simp
  | cons w rest' ih =>
    rw [List.dropWhile_cons]
    obtain ⟨hw_rest, hp'⟩ := List.pairwise_cons.mp hp
    by_cases hw : compareHands s.hand w.hand = 0
    · simp only [hw, decide_eq_true_eq, if_pos]
      exact ih hp' (fun y hy => hh y (List.mem_cons_of_mem _ hy))
    · rw [if_neg (by simpa using hw)]
      intro y hy
      have hws : compareHands w.hand s.hand < 0 := by
        have h1 := hh w (List.mem_cons_self _ _)
        have h2 := compareHands_swap s.hand w.hand
        omega
      rcases List.mem_cons.mp hy with h | h
      · rw [h]
        exact hws
      · have hys : compareHands y.hand s.hand ≤ 0 :=
          hh y (List.mem_cons_of_mem _ h)
        rcases lt_or_eq_of_le hys with h' | h'
        · exact h'
        · exfalso
          have hyw : compareHands y.hand w.hand ≤ 0 := hw_rest y h
          have hcongr := compareHands_congr_left (c := w.hand) h'
          have hswp := compareHands_swap w.hand s.hand
          omega

/-- Projecting player id and hand out of the head-group relabelling of
`placeGroups` recovers the group itself. -/
theorem map_proj_of_mk (l : List PlayerSelection) (k : Nat) (q : ℚ) :
    ((l.map (fun p =>
      ({ playerId := p.playerId, hand := p.hand, diceUsed := p.diceUsed,
         diceValues := p.diceValues, placement := k,
         pointsEarned := q } : SetResult))).map
        (fun r => (r.playerId, r.hand)))
      = l.map (fun p => (p.playerId, p.hand)) := by
  induction l with
  | nil => rfl
  | cons a t ih => simp [ih]

/-- `placeGroups` only relabels the sorted selections: player ids and hands
pass through unchanged, as a permutation. -/
theorem placeGroups_map_perm (N : Nat) (l : List PlayerSelection) (k : Nat) :
    ((placeGroups N l k).map (fun r => (r.playerId, r.hand))).Perm
      (l.map (fun s => (s.playerId, s.hand))) := by
  induction l, k using placeGroups.induct N with
  | case1 k => simp [placeGroups]
  | case2 s rest k tied remaining ih =>
    have hsplit :
        (s :: rest.takeWhile (fun x => decide (compareHands s.hand x.hand = 0)))
          ++ rest.dropWhile (fun x => decide (compareHands s.hand x.hand = 0))
          = s :: rest := by
      rw [List.cons_append, List.takeWhile_append_dropWhile]
    rw [placeGroups, List.map_append, map_proj_of_mk, ← hsplit, List.map_append]
    exact List.Perm.append_left _ ih

/-- The tie-group characterization of `placeGroups` on a descending-sorted
list: every produced result is placed `k` plus the number of strictly
better hands, and earns the evenly split points of the placements its tie
group occupies. -/
theorem placeGroups_spec (N : Nat) (l : List PlayerSelection) (k : Nat) :
    l.Pairwise (fun a b => compareHands b.hand a.hand ≤ 0) →
    ∀ r ∈ placeGroups N l k,
      (∃ x ∈ l, x.hand = r.hand) ∧
      r.placement =
        k + l.countP (fun x => decide (0 < compareHands x.hand r.hand)) ∧
      r.pointsEarned =
        ((List.range
            (l.countP (fun x => decide (compareHands x.hand r.hand = 0)))).map
          (fun o => getPlacementPoints (r.placement + o) N)).sum /
          ((l.countP (fun x => decide (compareHands x.hand r.hand = 0))) : ℚ) := by
  induction l, k using placeGroups.induct N with
  | case1 k =>
    intro _ r hr
    simp [placeGroups] at hr
  | case2 s rest k tied remaining ih =>
    intro hsort r hr
    obtain ⟨hh, hp'⟩ := List.pairwise_cons.mp hsort
    have htied := mem_tied_tie s rest
    have hrem := mem_dropWhile_lt s rest hp' hh
    have hsplit :
        (s :: rest.takeWhile (fun x => decide (compareHands s.hand x.hand = 0)))
          ++ rest.dropWhile (fun x => decide (compareHands s.hand x.hand = 0))
          = s :: rest := by
      rw [List.cons_append, List.takeWhile_append_dropWhile]
    rw [placeGroups] at hr
    rcases List.mem_append.mp hr with hrA | hrB
    · obtain ⟨x, hxmem, rfl⟩ := List.mem_map.mp hrA
      dsimp only
      have hxs : compareHands x.hand s.hand = 0 := htied x hxmem
      have hgt_congr : ∀ z : PlayerSelection,
          compareHands z.hand x.hand = compareHands z.hand s.hand :=
        fun z => compareHands_congr_right z.hand hxs
      have hcount_gt :
          (s :: rest).countP
            (fun z => decide (0 < compareHands z.hand x.hand)) = 0 := by
        rw [List.countP_eq_zero]
        intro z hz
        rw [← hsplit] at hz
        rcases List.mem_append.mp hz with hz | hz
        · have := htied z hz
          have := hgt_congr z
          simp only [decide_eq_true_eq]
          omega
        · have := hrem z hz
          have := hgt_congr z
          simp only [decide_eq_true_eq]
          omega
      have hcount_tie :
          (s :: rest).countP
            (fun z => decide (compareHands z.hand x.hand = 0)) =
            (s :: rest.takeWhile
              (fun x => decide (compareHands s.hand x.hand = 0))).length := by
        rw [← hsplit, List.countP_append]
        have h1 : (s :: rest.takeWhile
            (fun x => decide (compareHands s.hand x.hand = 0))).countP
            (fun z => decide (compareHands z.hand x.hand = 0)) =
            (s :: rest.takeWhile
              (fun x => decide (compareHands s.hand x.hand = 0))).length := by
          rw [List.countP_eq_length]
          intro z hz
          have := htied z hz
          have := hgt_congr z
          simp only [decide_eq_true_eq]
          omega
        have h2 : (rest.dropWhile
            (fun x => decide (compareHands s.hand x.hand = 0))).countP
            (fun z => decide (compareHands z.hand x.hand = 0)) = 0 := by
          rw [List.countP_eq_zero]
          intro z hz
          have := hrem z hz
          have := hgt_congr z
          simp only [decide_eq_true_eq]
          omega
        omega
      refine ⟨⟨x, ?_, rfl⟩, ?_, ?_⟩
      · rw [← hsplit]
        exact List.mem_append_left _ hxmem
      · rw [hcount_gt]
        omega
      · rw [hcount_tie]
    · have hsort_rem : (rest.dropWhile
          (fun x => decide (compareHands s.hand x.hand = 0))).Pairwise
          (fun a b => compareHands b.hand a.hand ≤ 0) :=
        List.Pairwise.sublist (List.dropWhile_sublist _) hp'
      have htl : tied =
          s :: rest.takeWhile (fun x => decide (compareHands s.hand x.hand = 0)) :=
        rfl
      have hrm : remaining =
          rest.dropWhile (fun x => decide (compareHands s.hand x.hand = 0)) :=
        rfl
      rw [htl, hrm] at ih
      obtain ⟨⟨y, hymem, hyhand⟩, hplace, hpoints⟩ := ih hsort_rem r hrB
      have hys : compareHands y.hand s.hand < 0 := hrem y hymem
      have hrs : compareHands r.hand s.hand < 0 := by
        rw [← hyhand]
        exact hys
      have hsr : 0 < compareHands s.hand r.hand := by
        have := compareHands_swap r.hand s.hand
        omega
      have hgt_tied : (s :: rest.takeWhile
          (fun x => decide (compareHands s.hand x.hand = 0))).countP
          (fun z => decide (0 < compareHands z.hand r.hand)) =
          (s :: rest.takeWhile
            (fun x => decide (compareHands s.hand x.hand = 0))).length := by
        rw [List.countP_eq_length]
        intro z hz
        have hzs := htied z hz
        have := compareHands_congr_left (c := r.hand) hzs
        simp only [decide_eq_true_eq]
        omega
      have htie_tied : (s :: rest.takeWhile
          (fun x => decide (compareHands s.hand x.hand = 0))).countP
          (fun z => decide (compareHands z.hand r.hand = 0)) = 0 := by
        rw [List.countP_eq_zero]
        intro z hz
        have hzs := htied z hz
        have := compareHands_congr_left (c := r.hand) hzs
        simp only [decide_eq_true_eq]
        omega
      have hcgt : (s :: rest).countP
          (fun x => decide (0 < compareHands x.hand r.hand)) =
          (s :: rest.takeWhile
            (fun x => decide (compareHands s.hand x.hand = 0))).length +
          (rest.dropWhile
            (fun x => decide (compareHands s.hand x.hand = 0))).countP
            (fun x => decide (0 < compareHands x.hand r.hand)) := by
        rw [← hsplit, List.countP_append, hgt_tied]
      have hctie : (s :: rest).countP
          (fun x => decide (compareHands x.hand r.hand = 0)) =
          (rest.dropWhile
            (fun x => decide (compareHands s.hand x.hand = 0))).countP
            (fun x => decide (compareHands x.hand r.hand = 0)) := by
        rw [← hsplit, List.countP_append, htie_tied]
        omega
      refine ⟨⟨y, ?_, hyhand⟩, ?_, ?_⟩
      · rw [← hsplit]
        exact List.mem_append_right _ hymem
      · rw [hcgt, hplace]
        omega
      · rw [hctie]
        exact hpoints

/-- C3: for every non-empty selection list and player count 2–6,
`calculateSetPlacements` returns one result per selection (ids and hands a
permutation of the input), places each result at 1 plus the number of
strictly better hands, and awards it the points of the `t` placements its
tie group occupies, split evenly (`t` = number of tied hands), which may be
fractional. -/
theorem claim_C3_set_placements (selections : List PlayerSelection) (N : Nat)
    (hne : selections ≠ []) (_hN2 : 2 ≤ N) (_hN6 : N ≤ 6) :
    ((calculateSetPlacements selections (some N)).map
        (fun r => (r.playerId, r.hand))).Perm
      (selections.map (fun s => (s.playerId, s.hand))) ∧
    ∀ r ∈ calculateSetPlacements selections (some N),
      r.placement =
        1 + selections.countP
          (fun x => decide (0 < compareHands x.hand r.hand)) ∧
      r.pointsEarned =
        ((List.range (selections.countP
            (fun x => decide (compareHands x.hand r.hand = 0)))).map
          (fun o => getPlacementPoints (r.placement + o) N)).sum /
          ((selections.countP
            (fun x => decide (compareHands x.hand r.hand = 0))) : ℚ) := by
  have hunfold : calculateSetPlacements selections (some N) =
      placeGroups N (sortByHandDesc selections) 1 := by
    unfold calculateSetPlacements
    rw [if_neg hne]
    rfl
  haveI : IsTotal PlayerSelection
      (fun a b => compareHands b.hand a.hand ≤ 0) :=
    ⟨fun a b => by
      have := compareHands_swap a.hand b.hand
      omega⟩
  haveI : IsTrans PlayerSelection
      (fun a b => compareHands b.hand a.hand ≤ 0) :=
    ⟨fun _ _ _ h1 h2 => compareHands_le_trans h2 h1⟩
  have hsorted : (sortByHandDesc selections).Pairwise
      (fun a b => compareHands b.hand a.hand ≤ 0) := by
    unfold sortByHandDesc
    exact List.sorted_insertionSort _ _
  have hperm : (sortByHandDesc selections).Perm selections := by
    unfold sortByHandDesc
    exact List.perm_insertionSort _ _
  constructor
  · rw [hunfold]
    exact (placeGroups_map_perm N _ 1).trans (hperm.map _)
  · intro r hr
    rw [hunfold] at hr
    obtain ⟨_, hplace, hpoints⟩ := placeGroups_spec N _ 1 hsorted r hr
    constructor
    · rw [hplace, List.Perm.countP_eq _ hperm]
    · rw [hpoints, List.Perm.countP_eq _ hperm]

/-- A closed instance of C3: two players tied with Triple 5s in a 2-player
set both share placement 1 and split `6 + 0` evenly. -/
theorem claim_C3_set_placements_witness :
    ((calculateSetPlacements c3WitnessSelections (some 2)).map
        (fun r => (r.playerId, r.hand))).Perm
      (c3WitnessSelections.map (fun s => (s.playerId, s.hand))) ∧
    ∀ r ∈ calculateSetPlacements c3WitnessSelections (some 2),
      r.placement =
        1 + c3WitnessSelections.countP
          (fun x => decide (0 < compareHands x.hand r.hand)) ∧
      r.pointsEarned =
        ((List.range (c3WitnessSelections.countP
            (fun x => decide (compareHands x.hand r.hand = 0)))).map
          (fun o => getPlacementPoints (r.placement + o) 2)).sum /
          ((c3WitnessSelections.countP
            (fun x => decide (compareHands x.hand r.hand = 0))) : ℚ) :=
  claim_C3_set_placements c3WitnessSelections 2 (by decide) (by decide)
    (by decide)

/-- `lastIndexFrom` finds nothing for an absent id. -/
theorem lastIndexFrom_eq_none {pid : Nat} {l : List Nat} (h : pid ∉ l) :
    ∀ i, lastIndexFrom pid l i = none := by
  induction l with
  | nil => intro i; rfl
  | cons x xs ih =>
    intro i
    rw [List.mem_cons] at h
    push_neg at h
    unfold lastIndexFrom
    rw [ih h.2 (i + 1)]
    simp [Ne.symm h.1]

/-- On a duplicate-free list the last-write index equals the first index. -/
theorem lastIndexFrom_eq_firstIndexFrom {pid : Nat} {l : List Nat}
    (h : l.Nodup) : ∀ i, lastIndexFrom pid l i = firstIndexFrom pid l i := by
  induction l with
  | nil => intro i; rfl
  | cons x xs ih =>
    intro i
    obtain ⟨hx, hnd⟩ := List.nodup_cons.mp h
    unfold lastIndexFrom firstIndexFrom
    by_cases hxp : x = pid
    · subst hxp
      rw [lastIndexFrom_eq_none hx (i + 1)]
      simp
    · rw [ih hnd (i + 1), if_neg hxp]
      cases hf : firstIndexFrom pid xs (i + 1) with
      | some j => rw [if_neg hxp]
      | none => rw [if_neg hxp]

/-- On a duplicate-free initial order, the source's map lookup equals the
spec's position. -/
theorem originalOrderIndex_eq_specOrderPos {ord : List Nat} (h : ord.Nodup)
    (pid : Nat) : originalOrderIndex ord pid = specOrderPos ord pid := by
  unfold originalOrderIndex specOrderPos
  rw [lastIndexFrom_eq_firstIndexFrom h 0]

/-- The `calculateTurnOrder` comparator relation is total. -/
theorem turnOrderLe_total (ord : List Nat) (a b : Player) :
    turnOrderLe ord a b ∨ turnOrderLe ord b a := by
  unfold turnOrderLe
  rcases lt_trichotomy a.cumulativeScore b.cumulativeScore with h | h | h
  · right; left; exact h
  · rcases le_total (originalOrderIndex ord a.id)
      (originalOrderIndex ord b.id) with h2 | h2
    · left; right; exact ⟨h, h2⟩
    · right; right; exact ⟨h.symm, h2⟩
  · left; left; exact h

/-- The `calculateTurnOrder` comparator relation is transitive. -/
theorem turnOrderLe_trans (ord : List Nat) (a b c : Player)
    (hab : turnOrderLe ord a b) (hbc : turnOrderLe ord b c) :
    turnOrderLe ord a c := by
  unfold turnOrderLe at *
  rcases hab with h1 | ⟨h1, h1i⟩
  · rcases hbc with h2 | ⟨h2, h2i⟩
    · left; exact lt_trans h2 h1
    · left; rw [← h2]; exact h1
  · rcases hbc with h2 | ⟨h2, h2i⟩
    · left; rw [h1]; exact h2
    · right; exact ⟨h1.trans h2, h1i.trans h2i⟩

/-- C8: `calculateTurnOrder` returns the player ids of a permutation of the
player list sorted by cumulative score descending, ties broken by the
earlier position in the (duplicate-free) round-1 initial order, with
missing players last.  The embedding is pure, so neither it nor
`calculateInitialTurnOrder` can mutate its inputs. -/
theorem claim_C8_turn_order (players : List Player) (originalOrder : List Nat)
    (hnd : originalOrder.Nodup) :
    ∃ sorted : List Player,
      sorted.Perm players ∧
      sorted.Pairwise (specTurnOrderRel originalOrder) ∧
      calculateTurnOrder players originalOrder = sorted.map Player.id := by
  haveI : IsTotal Player (turnOrderLe originalOrder) :=
    ⟨turnOrderLe_total originalOrder⟩
  haveI : IsTrans Player (turnOrderLe originalOrder) :=
    ⟨turnOrderLe_trans originalOrder⟩
  refine ⟨List.insertionSort (turnOrderLe originalOrder) players,
    List.perm_insertionSort _ _, ?_, rfl⟩
  have hs := List.sorted_insertionSort (turnOrderLe originalOrder) players
  refine hs.imp ?_
  intro a b hab
  unfold turnOrderLe at hab
  unfold specTurnOrderRel
  rcases hab with h | ⟨h, hi⟩
  · left; exact h
  · right
    refine ⟨h, ?_⟩
    rw [← originalOrderIndex_eq_specOrderPos hnd,
      ← originalOrderIndex_eq_specOrderPos hnd]
    exact hi

/-- A closed instance of C8: two tied players are ordered by their position
in the initial order. -/
theorem claim_C8_turn_order_witness :
    ∃ sorted : List Player,
      sorted.Perm [mkLobbyPlayer 3 true false, mkLobbyPlayer 7 true true] ∧
      sorted.Pairwise (specTurnOrderRel [7, 3]) ∧
      calculateTurnOrder [mkLobbyPlayer 3 true false,
        mkLobbyPlayer 7 true true] [7, 3] = sorted.map Player.id :=
  claim_C8_turn_order [mkLobbyPlayer 3 true false, mkLobbyPlayer 7 true true]
    [7, 3] (by decide)

/-- C9: in the PREDICTION phase, `prediction:submit` by a player whose
prediction is already non-null is rejected before the event reaches the
actor: the state is not updated, the initiating caller alone receives the
named error PREDICTION_ALREADY_SUBMITTED, and nothing is broadcast to the
room. -/
theorem claim_C9_prediction_already_submitted (s : GameState) (g : Gen)
    (pid : Nat) (newPred : PredictionType) (player : Player)
    (hphase : s.phase = GamePhase.PREDICTION)
    (hfind : s.players.find? (fun p => p.id == pid) = some player)
    (hpred : player.prediction ≠ none) :
    handlePredictionSubmit s g pid newPred =
      (none, [GatewayMsg.roomError .PREDICTION_ALREADY_SUBMITTED], []) := by
  unfold handlePredictionSubmit submitPredictionService
  rw [if_neg (by simp [hphase]), hfind]
  simp [hpred]

/-- A closed instance of C9: a second prediction by player 1 is rejected. -/
theorem claim_C9_prediction_already_submitted_witness :
    handlePredictionSubmit
      { mkLobbyState [{ mkLobbyPlayer 1 true true with
          prediction := some PredictionType.MAX }] 1 with
        phase := GamePhase.PREDICTION } gen0 1 PredictionType.ZERO =
      (none, [GatewayMsg.roomError .PREDICTION_ALREADY_SUBMITTED], []) :=
  claim_C9_prediction_already_submitted _ gen0 1 PredictionType.ZERO
    { mkLobbyPlayer 1 true true with prediction := some PredictionType.MAX }
    rfl (by decide) (by decide)

/-- A lookup with default 0 in a table of non-negative values is
non-negative. -/
theorem lookup_nonneg (t : List (Nat × ℚ)) (h : ∀ q ∈ t, 0 ≤ q.2)
    (pl : Nat) : 0 ≤ (t.lookup pl).getD 0 := by
  induction t with
  | nil => norm_num [List.lookup]
  | cons a t ih =>
    obtain ⟨k, v⟩ := a
    rw [List.lookup_cons]
    cases hk : (pl == k) with
    | true =>
      simp only [Option.getD_some]
      exact h (k, v) (List.mem_cons_self _ _)
    | false =>
      exact ih fun q hq => h q (List.mem_cons_of_mem _ hq)

/-- The placement-points table is non-negative everywhere. -/
theorem getPlacementPoints_nonneg (placement playerCount : Nat) :
    0 ≤ getPlacementPoints placement playerCount := by
  rcases playerCount with _ | _ | _ | _ | _ | _ | _ | m <;>
    (simp only [getPlacementPoints, PLACEMENT_POINTS_BY_PLAYER_COUNT,
      Option.getD_some]
     exact lookup_nonneg _ (by decide) _)

/-- Every result of `placeGroups` earns non-negative points. -/
theorem placeGroups_points_nonneg (N : Nat) (l : List PlayerSelection)
    (k : Nat) : ∀ r ∈ placeGroups N l k, 0 ≤ r.pointsEarned := by
  induction l, k using placeGroups.induct N with
  | case1 k => simp [placeGroups]
  | case2 s rest k tied remaining ih =>
    intro r hr
    rw [placeGroups] at hr
    rcases List.mem_append.mp hr with hrA | hrB
    · obtain ⟨x, _, rfl⟩ := List.mem_map.mp hrA
      dsimp only
      apply div_nonneg
      · apply List.sum_nonneg
        intro q hq
        obtain ⟨o, _, rfl⟩ := List.mem_map.mp hq
        exact getPlacementPoints_nonneg _ _
      · positivity
    · exact ih r hrB

/-- Every result of `calculateSetPlacements` earns non-negative points. -/
theorem calculateSetPlacements_points_nonneg (selections : List PlayerSelection)
    (playerCount : Option Nat) :
    ∀ r ∈ calculateSetPlacements selections playerCount, 0 ≤ r.pointsEarned := by
  unfold calculateSetPlacements
  split_ifs with h
  · simp
  · exact placeGroups_points_nonneg _ _ _

/-- The prediction bonus of a non-negative round total is non-negative. -/
theorem calculatePredictionBonus_nonneg (pred : PredictionType)
    (roundTotal : ℚ) (playerCount : Nat) (h : 0 ≤ roundTotal) :
    0 ≤ calculatePredictionBonus pred roundTotal playerCount := by
  by_cases h1 : roundTotal < ((getPredictionRange pred playerCount).1 : ℚ) ∨
      ((getPredictionRange pred playerCount).2 : ℚ) < roundTotal
  · simp [calculatePredictionBonus, h1]
  · by_cases h2 : pred = .ZERO
    · subst h2
      simp only [calculatePredictionBonus, if_neg h1, if_pos rfl]
      norm_num [PREDICTION_ZERO_BONUS]
    · simp only [calculatePredictionBonus, if_neg h1, if_neg h2]
      exact h

/-- Members of a successful `Option` traversal come from the input. -/
theorem mapOption_mem {α β : Type} (f : α → Option β) :
    ∀ (l : List α) (bs : List β), mapOption f l = some bs →
      ∀ b ∈ bs, ∃ a ∈ l, f a = some b := by
  intro l
  induction l with
  | nil =>
    intro bs h b hb
    simp only [mapOption, Option.some.injEq] at h
    subst h
    simp at hb
  | cons a t ih =>
    intro bs h b hb
    unfold mapOption at h
    cases hfa : f a with
    | none => rw [hfa] at h; simp at h
    | some b0 =>
      rw [hfa] at h
      cases hmt : mapOption f t with
      | none => rw [hmt] at h; simp at h
      | some bs0 =>
        rw [hmt] at h
        simp only [Option.bind_eq_bind, Option.some_bind, Option.pure_def,
          Option.some.injEq] at h
        subst h
        rcases List.mem_cons.mp hb with rfl | hb0
        · exact ⟨a, List.mem_cons_self _ _, hfa⟩
        · obtain ⟨a1, ha1, hfa1⟩ := ih bs0 hmt b hb0
          exact ⟨a1, List.mem_cons_of_mem _ ha1, hfa1⟩

/-- `CumLe` is reflexive. -/
theorem cumLe_refl (l : List Player) : CumLe l l := by
  induction l with
  | nil => exact List.Forall₂.nil
  | cons a t ih => exact List.Forall₂.cons (le_refl _) ih

/-- `CumLe` is transitive. -/
theorem cumLe_trans {l1 l2 l3 : List Player} (h1 : CumLe l1 l2)
    (h2 : CumLe l2 l3) : CumLe l1 l3 := by
  induction h1 generalizing l3 with
  | nil =>
    cases h2
    exact List.Forall₂.nil
  | cons hab h1' ih =>
    cases h2 with
    | cons hbc h2' => exact List.Forall₂.cons (le_trans hab hbc) (ih h2')

/-- Mapping a cumulative-score-non-decreasing function grows `CumLe`. -/
theorem cumLe_map (l : List Player) (f : Player → Player)
    (h : ∀ p ∈ l, p.cumulativeScore ≤ (f p).cumulativeScore) :
    CumLe l (l.map f) := by
  induction l with
  | nil => exact List.Forall₂.nil
  | cons a t ih =>
    exact List.Forall₂.cons (h a (List.mem_cons_self _ _))
      (ih fun p hp => h p (List.mem_cons_of_mem _ hp))

/-- Threading a generator through a cumulative-score-non-decreasing map
grows `CumLe`. -/
theorem cumLe_mapGen (f : Player → Gen → Player × Gen)
    (h : ∀ p g, p.cumulativeScore ≤ ((f p g).1).cumulativeScore) :
    ∀ (l : List Player) (g : Gen), CumLe l (mapGen f l g).1 := by
  intro l
  induction l with
  | nil => intro g; exact List.Forall₂.nil
  | cons a t ih =>
    intro g
    simp only [mapGen]
    exact List.Forall₂.cons (h a g) (ih _)

/-- Members of a generator-threading map come from applying the function. -/
theorem mapGen_mem {α β : Type} (f : α → Gen → β × Gen) :
    ∀ (l : List α) (g : Gen), ∀ b ∈ (mapGen f l g).1,
      ∃ a ∈ l, ∃ g1, b = (f a g1).1 := by
  intro l
  induction l with
  | nil => intro g b hb; simp [mapGen] at hb
  | cons a t ih =>
    intro g b hb
    simp only [mapGen] at hb
    rcases List.mem_cons.mp hb with rfl | hb0
    · exact ⟨a, List.mem_cons_self _ _, g, rfl⟩
    · obtain ⟨a1, ha1, g1, rfl⟩ := ih _ b hb0
      exact ⟨a1, List.mem_cons_of_mem _ ha1, g1, rfl⟩

/-- `processSetSelection` keeps scores non-negative and never decreases a
cumulative score. -/
theorem processSetSelection_scores {s s1 : GameState} (hinv : ScoreInv s)
    (h : processSetSelection s = some s1) :
    ScoreInv s1 ∧ CumLe s.players s1.players := by
  unfold processSetSelection at h
  cases hb : buildSelections s with
  | error e =>
    rw [hb] at h
    simp at h
  | ok selections =>
    rw [hb] at h
    simp only [Option.some.injEq] at h
    subst h
    constructor
    · intro q hq
      obtain ⟨p, hp, rfl⟩ := List.mem_map.mp hq
      obtain ⟨h1, h2, _⟩ := hinv p hp
      have hpe : 0 ≤ ((((calculateSetPlacements selections
          (some s.players.length)).find?
            (fun r => r.playerId == p.id)).map SetResult.pointsEarned).getD 0) := by
        cases hr : (calculateSetPlacements selections
            (some s.players.length)).find? (fun r => r.playerId == p.id) with
        | none => simp
        | some r =>
          simpa using calculateSetPlacements_points_nonneg selections _ r
            (List.mem_of_find?_eq_some hr)
      refine ⟨?_, ?_, ?_⟩ <;> dsimp only
      · split_ifs
        · exact hpe
        · exact h1
      · split_ifs
        · exact hpe
        · exact h2
      · apply add_nonneg <;> split_ifs <;> first | exact hpe | exact h1 | exact h2
    · apply cumLe_map
      intro p _
      exact le_refl _

/-- `processPredictions` keeps scores non-negative and never decreases a
cumulative score (the added round score and bonus are non-negative). -/
theorem processPredictions_scores {s s1 : GameState} (hinv : ScoreInv s)
    (h : processPredictions s = some s1) :
    ScoreInv s1 ∧ CumLe s.players s1.players := by
  unfold processPredictions at h
  dsimp only at h
  cases hm : mapOption (fun p =>
      p.prediction.map fun pred =>
        ({ playerId := p.id, type := pred,
           correct := decide (0 < calculatePredictionBonus pred
             p.currentRoundScore s.players.length),
           bonus := calculatePredictionBonus pred p.currentRoundScore
             s.players.length } : PredictionOutcome)) s.players with
  | none =>
    rw [hm] at h
    simp at h
  | some predictions =>
    rw [hm] at h
    simp only [Option.some.injEq] at h
    subst h
    have hbonus : ∀ q ∈ predictions, 0 ≤ q.bonus := by
      intro q hq
      obtain ⟨a, ha, hfa⟩ := mapOption_mem _ _ _ hm q hq
      cases hpred : a.prediction with
      | none => rw [hpred] at hfa; simp at hfa
      | some pr =>
        rw [hpred] at hfa
        simp only [Option.map_some', Option.some.injEq] at hfa
        rw [← hfa]
        exact calculatePredictionBonus_nonneg pr a.currentRoundScore
          s.players.length (hinv a ha).2.2
    constructor
    · intro q hq
      obtain ⟨p, hp, rfl⟩ := List.mem_map.mp hq
      exact hinv p hp
    · apply cumLe_map
      intro p hp
      dsimp only
      have hrs := (hinv p hp).2.2
      have hb : 0 ≤ (((predictions.find? (fun q => q.playerId == p.id)).map
          PredictionOutcome.bonus).getD 0) := by
        cases hr : predictions.find? (fun q => q.playerId == p.id) with
        | none => simp
        | some q =>
          simpa using hbonus q (List.mem_of_find?_eq_some hr)
      nlinarith [hrs, hb]

/-- The SET_SELECTION eventless transition preserves the score
invariants. -/
theorem staySetSelection_scores {s s1 : GameState}
    (h : staySetSelection s = some s1) (hinv : ScoreInv s) :
    ScoreInv s1 ∧ CumLe s.players s1.players := by
  unfold staySetSelection at h
  split_ifs at h with hg
  · cases hp : processSetSelection s with
    | none => rw [hp] at h; simp at h
    | some s2 =>
      rw [hp] at h
      simp only [Option.map_some', Option.some.injEq] at h
      subst h
      have hres := processSetSelection_scores hinv hp
      exact hres
  · simp only [Option.some.injEq] at h
    subst h
    exact ⟨hinv, cumLe_refl _⟩

/-- Entering SET_SELECTION preserves the score invariants. -/
theorem enterSetSelection_scores {s s1 : GameState}
    (h : enterSetSelection s = some s1) (hinv : ScoreInv s) :
    ScoreInv s1 ∧ CumLe s.players s1.players := by
  unfold enterSetSelection at h
  have hres := staySetSelection_scores h hinv
  exact hres

/-- The PREDICTION eventless transition preserves the score invariants. -/
theorem stayPrediction_scores {s s1 : GameState}
    (h : stayPrediction s = some s1) (hinv : ScoreInv s) :
    ScoreInv s1 ∧ CumLe s.players s1.players := by
  unfold stayPrediction at h
  split_ifs at h with hg
  · have hres := enterSetSelection_scores h hinv
    exact hres
  · simp only [Option.some.injEq] at h
    subst h
    exact ⟨hinv, cumLe_refl _⟩

/-- Entering PREDICTION preserves the score invariants. -/
theorem enterPrediction_scores {s s1 : GameState}
    (h : enterPrediction s = some s1) (hinv : ScoreInv s) :
    ScoreInv s1 ∧ CumLe s.players s1.players := by
  unfold enterPrediction at h
  have hres := stayPrediction_scores h hinv
  exact hres

/-- Entering ROUND_SUMMARY preserves the score invariants. -/
theorem enterRoundSummary_scores {s s1 : GameState}
    (h : enterRoundSummary s = some s1) (hinv : ScoreInv s) :
    ScoreInv s1 ∧ CumLe s.players s1.players := by
  unfold enterRoundSummary at h
  have hres := processPredictions_scores
    (s := { s with phase := GamePhase.ROUND_SUMMARY }) hinv h
  exact hres

/-- `setTurnOrder` does not touch the player list. -/
theorem setTurnOrder_players (s : GameState) :
    (setTurnOrder s).players = s.players := by
  unfold setTurnOrder
  dsimp only
  split <;> rfl

/-- Re-rolling every player's dice preserves the score invariants. -/
theorem rollAllDice_scores (s : GameState) (g : Gen) (hinv : ScoreInv s) :
    ScoreInv (rollAllDice s g).1 ∧ CumLe s.players ((rollAllDice s g).1).players := by
  unfold rollAllDice
  dsimp only
  constructor
  · intro q hq
    obtain ⟨p, hp, g1, rfl⟩ := mapGen_mem _ s.players g q hq
    exact hinv p hp
  · exact cumLe_mapGen _ (fun p g => le_refl _) s.players g

/-- The roll-dice-then-enter-PREDICTION chain of INITIAL_ROLL preserves
the score invariants. -/
theorem initRollChain_scores (s0 sB : GameState) (g2 : Gen) (s1 : GameState)
    (hB : sB.players = s0.players) (hinv : ScoreInv s0)
    (hep : enterPrediction (rollAllDice sB g2).1 = some s1) :
    ScoreInv s1 ∧ CumLe s0.players s1.players := by
  have hinvB : ScoreInv sB := fun p hp => hinv p (hB ▸ hp)
  have hC := rollAllDice_scores sB g2 hinvB
  have hD := enterPrediction_scores hep hC.1
  exact ⟨hD.1, cumLe_trans (hB ▸ hC.2) hD.2⟩

/-- Entering INITIAL_ROLL (and the cascade through PREDICTION) preserves
the score invariants. -/
theorem enterInitialRoll_scores {s : GameState} {g : Gen}
    {s1 : GameState} {g1 : Gen}
    (h : enterInitialRoll s g = some (s1, g1)) (hinv : ScoreInv s) :
    ScoreInv s1 ∧ CumLe s.players s1.players := by
  unfold enterInitialRoll at h
  dsimp only at h
  split_ifs at h with hr
  · cases hep : enterPrediction (rollAllDice
        (setTurnOrder (rollInitialTurnOrder
          { s with phase := .INITIAL_ROLL } g).1)
        (rollInitialTurnOrder { s with phase := .INITIAL_ROLL } g).2).1 with
    | none => rw [hep] at h; simp at h
    | some s3 =>
      rw [hep] at h
      simp only [Option.map_some', Option.some.injEq, Prod.mk.injEq] at h
      obtain ⟨h1, _⟩ := h
      subst h1
      exact initRollChain_scores s _ _ s3 (by rw [setTurnOrder_players]; rfl) hinv hep
  · simp only [Option.some.injEq] at h
    rw [Prod.ext_iff] at h
    obtain ⟨h1, _⟩ := h
    subst h1
    exact ⟨fun p hp => hinv p hp, cumLe_refl s.players⟩

/-- `storePrediction` preserves the score invariants. -/
theorem storePrediction_scores (s : GameState) (pid : Nat)
    (pred : PredictionType) (hinv : ScoreInv s) :
    ScoreInv (storePrediction s pid pred) ∧
      CumLe s.players (storePrediction s pid pred).players := by
  unfold storePrediction
  constructor
  · intro q hq
    simp only [List.mem_map] at hq
    obtain ⟨p, hp, rfl⟩ := hq
    by_cases hid : p.id = pid
    · rw [if_pos hid]; exact hinv p hp
    · rw [if_neg hid]; exact hinv p hp
  · apply cumLe_map
    intro p hp
    by_cases hid : p.id = pid
    · rw [if_pos hid]
    · rw [if_neg hid]

/-- `autoSubmitPredictions` preserves the score invariants. -/
theorem autoSubmitPredictions_scores (s : GameState) (g : Gen)
    (hinv : ScoreInv s) :
    ScoreInv (autoSubmitPredictions s g).1 ∧
      CumLe s.players ((autoSubmitPredictions s g).1).players := by
  unfold autoSubmitPredictions
  dsimp only
  constructor
  · intro q hq
    obtain ⟨p, hp, g1, rfl⟩ := mapGen_mem _ s.players g q hq
    cases hpp : p.prediction <;> exact hinv p hp
  · apply cumLe_mapGen
    intro p g2
    cases hpp : p.prediction <;> exact le_refl _

/-- `confirmSelection` does not touch the player list. -/
theorem confirmSelection_players (s : GameState) (pid : Nat) :
    (confirmSelection s pid).players = s.players := by
  unfold confirmSelection
  dsimp only
  split
  all_goals first | rfl | (split <;> rfl)

/-- `autoSelectDice` does not touch the player list. -/
theorem autoSelectDice_players (s : GameState) :
    (autoSelectDice s).players = s.players := by
  unfold autoSelectDice
  split
  · rfl
  · split <;> rfl

/-- `advanceRound` preserves the score invariants (it only re-rolls the
dice). -/
theorem advanceRound_scores (s : GameState) (g : Gen) (hinv : ScoreInv s) :
    ScoreInv (advanceRound s g).1 ∧
      CumLe s.players ((advanceRound s g).1).players := by
  unfold advanceRound
  dsimp only
  constructor
  · intro q hq
    obtain ⟨p, hp, g1, rfl⟩ := mapGen_mem _ s.players g q hq
    exact hinv p hp
  · exact cumLe_mapGen _ (fun p g => le_refl _) s.players g

/-- `resetPlayerRoundState` establishes the score invariants and keeps the
cumulative scores. -/
theorem resetPlayerRoundState_scores (s : GameState) :
    ScoreInv (resetPlayerRoundState s) ∧
      CumLe s.players (resetPlayerRoundState s).players := by
  unfold resetPlayerRoundState
  constructor
  · intro q hq
    simp only [List.mem_map] at hq
    obtain ⟨p, hp, rfl⟩ := hq
    refine ⟨le_refl 0, le_refl 0, le_refl 0⟩
  · exact cumLe_map _ _ fun p hp => le_refl _

/-- Every machine step preserves the non-negativity of per-round scores and
never decreases any player's cumulative score. -/
theorem step_scores {s : GameState} {g : Gen} {e : GameEvent}
    {s1 : GameState} {g1 : Gen}
    (h : step s g e = some (s1, g1)) (hinv : ScoreInv s) :
    ScoreInv s1 ∧ CumLe s.players s1.players := by
  unfold step at h
  cases hph : s.phase <;> rw [hph] at h <;> cases e <;> dsimp only at h
  case LOBBY.START_GAME =>
    have hres := enterInitialRoll_scores h (fun p hp => hinv p hp)
    exact hres
  case PREDICTION.SUBMIT_PREDICTION pid pred =>
    cases hsp : stayPrediction (storePrediction s pid pred) with
    | none => rw [hsp] at h; simp at h
    | some s2 =>
      rw [hsp] at h
      simp only [Option.map_some', Option.some.injEq, Prod.mk.injEq] at h
      obtain ⟨h1, _⟩ := h
      subst h1
      have h0 := storePrediction_scores s pid pred hinv
      have h2 := stayPrediction_scores hsp h0.1
      exact ⟨h2.1, cumLe_trans h0.2 h2.2⟩
  case PREDICTION.PREDICTION_TIMEOUT =>
    cases hsp : stayPrediction (autoSubmitPredictions s g).1 with
    | none => rw [hsp] at h; simp at h
    | some s2 =>
      rw [hsp] at h
      simp only [Option.map_some', Option.some.injEq, Prod.mk.injEq] at h
      obtain ⟨h1, _⟩ := h
      subst h1
      have h0 := autoSubmitPredictions_scores s g hinv
      have h2 := stayPrediction_scores hsp h0.1
      exact ⟨h2.1, cumLe_trans h0.2 h2.2⟩
  case SET_SELECTION.SELECT_DICE pid dieIds =>
    cases hss : staySetSelection (storeDiceSelection s pid dieIds) with
    | none => rw [hss] at h; simp at h
    | some s2 =>
      rw [hss] at h
      simp only [Option.map_some', Option.some.injEq, Prod.mk.injEq] at h
      obtain ⟨h1, _⟩ := h
      subst h1
      have h2 := staySetSelection_scores hss (fun p hp => hinv p hp)
      exact h2
  case SET_SELECTION.CONFIRM_SELECTION pid =>
    cases hss : staySetSelection (confirmSelection s pid) with
    | none => rw [hss] at h; simp at h
    | some s2 =>
      rw [hss] at h
      simp only [Option.map_some', Option.some.injEq, Prod.mk.injEq] at h
      obtain ⟨h1, _⟩ := h
      subst h1
      have hpl := confirmSelection_players s pid
      have h2 := staySetSelection_scores hss (fun p hp => hinv p (hpl ▸ hp))
      exact ⟨h2.1, hpl ▸ h2.2⟩
  case SET_SELECTION.TURN_TIMEOUT =>
    cases hss : staySetSelection (autoSelectDice s) with
    | none => rw [hss] at h; simp at h
    | some s2 =>
      rw [hss] at h
      simp only [Option.map_some', Option.some.injEq, Prod.mk.injEq] at h
      obtain ⟨h1, _⟩ := h
      subst h1
      have hpl := autoSelectDice_players s
      have h2 := staySetSelection_scores hss (fun p hp => hinv p (hpl ▸ hp))
      exact ⟨h2.1, hpl ▸ h2.2⟩
  case SET_REVEAL.NEXT_SET =>
    split_ifs at h with h1 h2
    · cases hes : enterSetSelection (advanceSet s) with
      | none => rw [hes] at h; simp at h
      | some s2 =>
        rw [hes] at h
        simp only [Option.map_some', Option.some.injEq, Prod.mk.injEq] at h
        obtain ⟨hq, _⟩ := h
        subst hq
        have h2 := enterSetSelection_scores hes (fun p hp => hinv p hp)
        exact h2
    · cases hrs : enterRoundSummary s with
      | none => rw [hrs] at h; simp at h
      | some s2 =>
        rw [hrs] at h
        simp only [Option.map_some', Option.some.injEq, Prod.mk.injEq] at h
        obtain ⟨hq, _⟩ := h
        subst hq
        exact enterRoundSummary_scores hrs hinv
    · simp only [Option.some.injEq, Prod.mk.injEq] at h
      obtain ⟨hq, _⟩ := h
      subst hq
      exact ⟨hinv, cumLe_refl _⟩
  case ROUND_SUMMARY.NEXT_ROUND =>
    split_ifs at h with h1 h2
    · cases hep : enterPrediction (setTurnOrder
          (resetPlayerRoundState (advanceRound s g).1)) with
      | none => rw [hep] at h; simp at h
      | some s2 =>
        rw [hep] at h
        simp only [Option.map_some', Option.some.injEq, Prod.mk.injEq] at h
        obtain ⟨hq, _⟩ := h
        subst hq
        have hA := advanceRound_scores s g hinv
        have hB := resetPlayerRoundState_scores (advanceRound s g).1
        have hpl := setTurnOrder_players
          (resetPlayerRoundState (advanceRound s g).1)
        have hC := enterPrediction_scores hep (fun p hp => hB.1 p (hpl ▸ hp))
        exact ⟨hC.1, cumLe_trans hA.2 (cumLe_trans hB.2 (hpl ▸ hC.2))⟩
    · simp only [Option.some.injEq, Prod.mk.injEq] at h
      obtain ⟨hq, _⟩ := h
      subst hq
      exact ⟨fun p hp => hinv p hp, cumLe_refl _⟩
    · simp only [Option.some.injEq, Prod.mk.injEq] at h
      obtain ⟨hq, _⟩ := h
      subst hq
      exact ⟨hinv, cumLe_refl _⟩
  case ROUND_SUMMARY.END_GAME =>
    simp only [Option.some.injEq, Prod.mk.injEq] at h
    obtain ⟨hq, _⟩ := h
    subst hq
    exact ⟨fun p hp => hinv p hp, cumLe_refl _⟩
  all_goals
    simp only [Option.some.injEq, Prod.mk.injEq] at h
  all_goals
    obtain ⟨hq, _⟩ := h
  all_goals
    subst hq
  all_goals
    exact ⟨hinv, cumLe_refl _⟩

/-- Every reachable state satisfies the score invariant. -/
theorem reachable_scoreInv {s : GameState} (h : Reachable s) : ScoreInv s := by
  induction h with
  | init s hph hz =>
    intro p hp
    obtain ⟨h1, h2, h3⟩ := hz p hp
    exact ⟨le_of_eq h1.symm, le_of_eq h2.symm, le_of_eq h3.symm⟩
  | step s g e s1 g1 hr hst ih => exact (step_scores hst ih).1

/-- C7: every engine operation preserves the monotonicity of
`cumulativeScore`: for any event applied to a reachable state, each
player's cumulative score after the step is at least its value before
(pointwise along the unchanged player order). -/
theorem claim_C7_cumulative_monotone {s : GameState} {g : Gen}
    {e : GameEvent} {s1 : GameState} {g1 : Gen}
    (hr : Reachable s) (h : step s g e = some (s1, g1)) :
    CumLe s.players s1.players :=
  (step_scores h (reachable_scoreInv hr)).2

theorem claim_C7_cumulative_monotone_witness :
    step (mkLobbyState [mkLobbyPlayer 0 true true] 0) gen0 GameEvent.NEXT_SET =
      some (mkLobbyState [mkLobbyPlayer 0 true true] 0, gen0) ∧
    CumLe (mkLobbyState [mkLobbyPlayer 0 true true] 0).players
      (mkLobbyState [mkLobbyPlayer 0 true true] 0).players :=
  ⟨rfl, claim_C7_cumulative_monotone (g := gen0) (e := GameEvent.NEXT_SET)
    (Reachable.init _ rfl (by decide)) rfl⟩

/-- With a player present, an empty `pendingSelections` never passes
`allSelectionsConfirmed`. -/
theorem allSelectionsConfirmed_empty (s : GameState)
    (hps : s.pendingSelections = PendingSelections.empty)
    (hne : s.players ≠ []) : allSelectionsConfirmed s = false := by
  unfold allSelectionsConfirmed
  cases hp : s.players with
  | nil => exact absurd hp hne
  | cons p l =>
    rw [hps]
    simp only [List.all_cons]
    have hget : PendingSelections.empty.get p.id = none := rfl
    rw [hget]
    rfl

/-- C5 (amended): in SET_REVEAL with `currentSet = 1` and at least one
player, NEXT_SET moves to SET_SELECTION with `currentSet := 2`, the turn
index and the pending selections reset and the set results cleared; the
just-computed set-1 results are stored in the *last existing* round-history
entry (the previous round's) when one exists, and are dropped when the
history is empty (round 1). -/
theorem claim_C5_next_set (s : GameState) (g : Gen)
    (hph : s.phase = GamePhase.SET_REVEAL) (hset : s.currentSet = 1)
    (hne : s.players ≠ []) :
    ∃ s1, step s g GameEvent.NEXT_SET = some (s1, g) ∧
      s1.phase = GamePhase.SET_SELECTION ∧
      s1.currentSet = 2 ∧ s1.currentTurnIndex = 0 ∧
      s1.pendingSelections = PendingSelections.empty ∧
      s1.setResults = [] ∧
      (s.roundHistory = [] → s1.roundHistory = []) ∧
      (∀ lastRound, s.roundHistory.getLast? = some lastRound →
        s1.roundHistory = s.roundHistory.dropLast ++
          [{ lastRound with set1Results := s.setResults }]) := by
  have hconf : allSelectionsConfirmed
      { advanceSet s with phase := GamePhase.SET_SELECTION } = false :=
    allSelectionsConfirmed_empty _ rfl hne
  refine ⟨{ advanceSet s with phase := GamePhase.SET_SELECTION },
    ?_, rfl, rfl, rfl, rfl, rfl, ?_, ?_⟩
  · unfold step
    rw [hph]
    dsimp only
    rw [if_pos hset]
    unfold enterSetSelection staySetSelection
    rw [if_neg (by simp [hconf])]
    rfl
  · intro hrh
    show (advanceSet s).roundHistory = []
    unfold advanceSet
    dsimp only
    rw [hrh]
    rfl
  · intro lastRound hlast
    show (advanceSet s).roundHistory = _
    unfold advanceSet
    dsimp only
    rw [hlast]

theorem claim_C5_next_set_witness :
    c5CexState.phase = GamePhase.SET_REVEAL ∧ c5CexState.currentSet = 1 ∧
    c5CexState.players ≠ [] ∧
    (∃ s1, step c5CexState gen0 GameEvent.NEXT_SET = some (s1, gen0) ∧
      s1.phase = GamePhase.SET_SELECTION ∧
      s1.currentSet = 2 ∧ s1.currentTurnIndex = 0 ∧
      s1.pendingSelections = PendingSelections.empty ∧
      s1.setResults = [] ∧
      (c5CexState.roundHistory = [] → s1.roundHistory = []) ∧
      (∀ lastRound, c5CexState.roundHistory.getLast? = some lastRound →
        s1.roundHistory = c5CexState.roundHistory.dropLast ++
          [{ lastRound with set1Results := c5CexState.setResults }])) :=
  ⟨rfl, rfl, List.cons_ne_nil _ _,
    claim_C5_next_set c5CexState gen0 rfl rfl (List.cons_ne_nil _ _)⟩

/-- C5 (counterexample to the stated claim): in round 1 the round history
is still empty, so NEXT_SET does not store the set-1 results into any
round-history entry - the claim's \"last entry of roundHistory\" does not
exist and the results are dropped. -/
theorem claim_C5_counterexample : ¬ claimC5Stated c5CexState := by
  intro hcl
  obtain ⟨s1, g1, hstep, ⟨lastEntry, hlast, _⟩, _⟩ :=
    hcl gen0 rfl rfl (List.cons_ne_nil _ _)
  have h2 : (step c5CexState gen0 GameEvent.NEXT_SET).map
      (fun x => x.1.roundHistory) = some [] := rfl
  rw [hstep] at h2
  simp only [Option.map_some', Option.some.injEq] at h2
  rw [h2] at hlast
  simp at hlast

/-- `processSetSelection` changes only the players and set results. -/
theorem processSetSelection_frame {s s2 : GameState}
    (h : processSetSelection s = some s2) :
    s2.pendingSelections = s.pendingSelections ∧
      s2.currentTurnIndex = s.currentTurnIndex ∧ s2.phase = s.phase := by
  unfold processSetSelection at h
  cases hbs : buildSelections s with
  | error e => rw [hbs] at h; simp at h
  | ok sels =>
    rw [hbs] at h
    dsimp only at h
    simp only [Option.some.injEq] at h
    subst h
    exact ⟨rfl, rfl, rfl⟩

/-- C6: a TURN_TIMEOUT in SET_SELECTION whose turn-holder exists and has at
least 3 unspent dice advances `currentTurnIndex` by exactly 1 and leaves
the turn-holder with a confirmed selection of the ids of the first 3
unspent dice in dice order (also when the auto-confirm completes the set
and the machine moves on to SET_REVEAL). -/
theorem claim_C6_turn_timeout (s : GameState) (g : Gen)
    (hph : s.phase = GamePhase.SET_SELECTION)
    (pid : Nat) (hturn : s.turnOrder[s.currentTurnIndex]? = some pid)
    (player : Player)
    (hfind : s.players.find? (fun p => p.id == pid) = some player)
    (h3 : 3 ≤ (player.dice.filter fun d => !d.isSpent).length)
    (s1 : GameState) (g1 : Gen)
    (hstep : step s g GameEvent.TURN_TIMEOUT = some (s1, g1)) :
    s1.currentTurnIndex = s.currentTurnIndex + 1 ∧
    s1.pendingSelections.get pid =
      some (((player.dice.filter fun d => !d.isSpent).take 3).map Die.id) ∧
    (((player.dice.filter fun d => !d.isSpent).take 3).map Die.id).length = 3 ∧
    s1.pendingSelections.isConfirmed pid = true := by
  have hlen :
      (((player.dice.filter fun d => !d.isSpent).take 3).map Die.id).length = 3 := by
    simp only [List.length_map, List.length_take]
    omega
  have hget : ((s.pendingSelections.setSel pid
      (((player.dice.filter fun d => !d.isSpent).take 3).map Die.id)).setConfirmed
        pid).get pid =
      some (((player.dice.filter fun d => !d.isSpent).take 3).map Die.id) := by
    simp [PendingSelections.get, PendingSelections.setSel,
      PendingSelections.setConfirmed, List.lookup]
  have hcf : ((s.pendingSelections.setSel pid
      (((player.dice.filter fun d => !d.isSpent).take 3).map Die.id)).setConfirmed
        pid).isConfirmed pid = true := by
    simp [PendingSelections.isConfirmed, PendingSelections.setConfirmed,
      PendingSelections.setSel]
  have hauto : autoSelectDice s =
      { s with
        pendingSelections :=
          (s.pendingSelections.setSel pid
            (((player.dice.filter fun d => !d.isSpent).take 3).map
              Die.id)).setConfirmed pid
        currentTurnIndex := s.currentTurnIndex + 1 } := by
    unfold autoSelectDice
    rw [hturn]
    dsimp only
    rw [hfind]
  unfold step at hstep
  rw [hph] at hstep
  dsimp only at hstep
  rw [hauto] at hstep
  unfold staySetSelection at hstep
  split_ifs at hstep with hall
  · cases hps : processSetSelection
        { s with
          pendingSelections :=
            (s.pendingSelections.setSel pid
              (((player.dice.filter fun d => !d.isSpent).take 3).map
                Die.id)).setConfirmed pid
          currentTurnIndex := s.currentTurnIndex + 1 } with
    | none => rw [hps] at hstep; simp at hstep
    | some s2 =>
      rw [hps] at hstep
      simp only [Option.map_some', Option.some.injEq, Prod.mk.injEq] at hstep
      obtain ⟨h1, _⟩ := hstep
      subst h1
      have hfr := processSetSelection_frame hps
      refine ⟨?_, ?_, hlen, ?_⟩
      · show s2.currentTurnIndex = s.currentTurnIndex + 1
        rw [hfr.2.1]
      · show s2.pendingSelections.get pid = _
        rw [hfr.1]
        exact hget
      · show s2.pendingSelections.isConfirmed pid = true
        rw [hfr.1]
        exact hcf
  · simp only [Option.map_some', Option.some.injEq, Prod.mk.injEq] at hstep
    obtain ⟨h1, _⟩ := hstep
    subst h1
    exact ⟨rfl, hget, hlen, hcf⟩

theorem claim_C6_turn_timeout_witness :
    c6WitnessState.phase = GamePhase.SET_SELECTION ∧
    c6WitnessState.turnOrder[c6WitnessState.currentTurnIndex]? = some 0 ∧
    c6WitnessState.players.find? (fun p => p.id == 0) = some c6WitnessPlayer ∧
    3 ≤ (c6WitnessPlayer.dice.filter fun d => !d.isSpent).length ∧
    step c6WitnessState gen0 GameEvent.TURN_TIMEOUT =
      some (c6StepState, gen0) ∧
    (c6StepState.currentTurnIndex = c6WitnessState.currentTurnIndex + 1 ∧
     c6StepState.pendingSelections.get 0 =
       some (((c6WitnessPlayer.dice.filter fun d => !d.isSpent).take 3).map
         Die.id) ∧
     (((c6WitnessPlayer.dice.filter fun d => !d.isSpent).take 3).map
       Die.id).length = 3 ∧
     c6StepState.pendingSelections.isConfirmed 0 = true) :=
  ⟨rfl, rfl, rfl, by decide, rfl,
    claim_C6_turn_timeout c6WitnessState gen0 rfl 0 rfl c6WitnessPlayer rfl
      (by decide) c6StepState gen0 rfl⟩

/-- `runEvents` on the empty list. -/
theorem runEvents_nil (s : GameState) (g : Gen) :
    runEvents s g [] = some (s, g) := rfl

/-- `runEvents` steps through the head event. -/
theorem runEvents_cons {s : GameState} {g : Gen} {e : GameEvent}
    {s1 : GameState} {g1 : Gen} (es : List GameEvent)
    (h : step s g e = some (s1, g1)) :
    runEvents s g (e :: es) = runEvents s1 g1 es := by
  simp [runEvents, h]

/-- `mapGen` preserves the length. -/
theorem mapGen_length {α β : Type} (f : α → Gen → β × Gen) :
    ∀ (l : List α) (g : Gen), (mapGen f l g).1.length = l.length := by
  intro l
  induction l with
  | nil => intro g; rfl
  | cons a t ih => intro g; simp only [mapGen, List.length_cons, ih]

/-- Mapping a projection over a `mapGen` result that determines it. -/
theorem mapGen_map {α β γ : Type} (f : α → Gen → β × Gen) (h : β → γ)
    (k : α → γ) (hk : ∀ a g, h (f a g).1 = k a) :
    ∀ (l : List α) (g : Gen), ((mapGen f l g).1).map h = l.map k := by
  intro l
  induction l with
  | nil => intro g; rfl
  | cons a t ih => intro g; simp only [mapGen, List.map_cons, hk, ih]

/-- A `filterMap` whose function never fails keeps the length. -/
theorem length_filterMap_of_isSome {α β : Type} (f : α → Option β) :
    ∀ (l : List α), (∀ a ∈ l, (f a).isSome) →
      (l.filterMap f).length = l.length := by
  intro l
  induction l with
  | nil => intro hall; rfl
  | cons a t ih =>
    intro hall
    have ha := hall a (List.mem_cons_self _ _)
    cases hfa : f a with
    | none => rw [hfa] at ha; simp at ha
    | some b =>
      rw [List.filterMap_cons, hfa]
      simp only [List.length_cons]
      rw [ih fun x hx => hall x (List.mem_cons_of_mem _ hx)]

/-- `mapExcept` succeeds when every element does. -/
theorem mapExcept_ok {α β ε : Type} (f : α → Except ε β) :
    ∀ (l : List α), (∀ a ∈ l, ∃ b, f a = .ok b) →
      ∃ bs, mapExcept f l = .ok bs := by
  intro l
  induction l with
  | nil => intro hall; exact ⟨[], rfl⟩
  | cons a t ih =>
    intro hall
    obtain ⟨b, hb⟩ := hall a (List.mem_cons_self _ _)
    obtain ⟨bs, hbs⟩ := ih fun x hx => hall x (List.mem_cons_of_mem _ hx)
    refine ⟨b :: bs, ?_⟩
    simp only [mapExcept, hb, hbs]
    rfl

/-- `mapOption` succeeds when every element does. -/
theorem mapOption_isSome {α β : Type} (f : α → Option β) :
    ∀ (l : List α), (∀ a ∈ l, (f a).isSome) →
      ∃ bs, mapOption f l = some bs := by
  intro l
  induction l with
  | nil => intro hall; exact ⟨[], rfl⟩
  | cons a t ih =>
    intro hall
    have ha := hall a (List.mem_cons_self _ _)
    cases hfa : f a with
    | none => rw [hfa] at ha; simp at ha
    | some b =>
      obtain ⟨bs, hbs⟩ := ih fun x hx => hall x (List.mem_cons_of_mem _ hx)
      refine ⟨b :: bs, ?_⟩
      simp [mapOption, hfa, hbs]

/-- With duplicate-free player ids, `find?` by a member's id returns that
member. -/
theorem find?_self_of_nodup :
    ∀ (l : List Player), (l.map Player.id).Nodup →
      ∀ p ∈ l, l.find? (fun q => q.id == p.id) = some p := by
  intro l
  induction l with
  | nil => intro hnd p hp; simp at hp
  | cons a t ih =>
    intro hnd p hp
    simp only [List.map_cons, List.nodup_cons] at hnd
    rcases List.mem_cons.mp hp with rfl | hpt
    · rw [List.find?_cons_of_pos _ (by simp)]
    · have hne : (a.id == p.id) = false := by
        simp only [beq_eq_false_iff_ne, ne_eq]
        intro hc
        exact hnd.1 (hc ▸ List.mem_map_of_mem Player.id hpt)
      rw [List.find?_cons_of_neg _ (by simp [hne])]
      exact ih hnd.2 p hpt

/-- Mapping a field-preserving function preserves the projected list. -/
theorem map_proj_of_preserve {α γ : Type} (f : α → α) (h : α → γ)
    (hp : ∀ a, h (f a) = h a) (l : List α) :
    (l.map f).map h = l.map h := by
  induction l with
  | nil => rfl
  | cons a t ih => simp only [List.map_cons, hp, ih]

/-- The ids, fresh counter and spent flags of `genDiceN`. -/
theorem genDiceN_facts (c : DieColor) :
    ∀ (n : Nat) (g : Gen),
      ((genDiceN c n g).1).map Die.id = List.range' g.fresh n ∧
      ((genDiceN c n g).2).fresh = g.fresh + n ∧
      (∀ d ∈ (genDiceN c n g).1, d.isSpent = false) := by
  intro n
  induction n with
  | zero =>
    intro g
    refine ⟨rfl, rfl, ?_⟩
    intro d hd
    simp [genDiceN] at hd
  | succ n ih =>
    intro g
    obtain ⟨h1, h2, h3⟩ := ih (createDie c g).2
    refine ⟨?_, ?_, ?_⟩
    · show ((createDie c g).1 :: (genDiceN c n (createDie c g).2).1).map Die.id =
        List.range' g.fresh (n + 1)
      rw [List.map_cons, h1]
      have hf : ((createDie c g).2).fresh = g.fresh + 1 := rfl
      rw [hf, List.range'_succ]
      rfl
    · show ((genDiceN c n (createDie c g).2).2).fresh = g.fresh + (n + 1)
      rw [h2]
      have hf : ((createDie c g).2).fresh = g.fresh + 1 := rfl
      rw [hf]
      omega
    · intro d hd
      rcases List.mem_cons.mp hd with rfl | hdt
      · rfl
      · exact h3 d hdt

/-- A freshly generated 11-dice set: duplicate-free ids, all unspent. -/
theorem generatePlayerDice_facts (g : Gen) :
    (((generatePlayerDice g).1).map Die.id).Nodup ∧
    (∀ d ∈ (generatePlayerDice g).1, d.isSpent = false) ∧
    ((generatePlayerDice g).1).length = 11 := by
  obtain ⟨h1, h2, h3⟩ := genDiceN_facts DieColor.white 9 g
  have hr : (createDie DieColor.red (genDiceN DieColor.white 9 g).2).1.id =
      g.fresh + 9 := h2
  have hr2 : (createDie DieColor.red (genDiceN DieColor.white 9 g).2).2.fresh =
      g.fresh + 10 := by
    show (genDiceN DieColor.white 9 g).2.fresh + 1 = g.fresh + 10
    rw [h2]
  have hids : ((generatePlayerDice g).1).map Die.id =
      List.range' g.fresh 11 := by
    show ((genDiceN DieColor.white 9 g).1 ++
      [(createDie DieColor.red (genDiceN DieColor.white 9 g).2).1,
       (createDie DieColor.blue
         (createDie DieColor.red (genDiceN DieColor.white 9 g).2).2).1]).map
      Die.id = List.range' g.fresh 11
    rw [List.map_append, h1]
    have hb : (createDie DieColor.blue
        (createDie DieColor.red (genDiceN DieColor.white 9 g).2).2).1.id =
        g.fresh + 10 := hr2
    have : [(createDie DieColor.red (genDiceN DieColor.white 9 g).2).1,
        (createDie DieColor.blue
          (createDie DieColor.red (genDiceN DieColor.white 9 g).2).2).1].map
        Die.id = List.range' (g.fresh + 9) 2 := by
      simp only [List.map_cons, List.map_nil, hr, hb]
      rfl
    rw [this, List.range'_append]
  refine ⟨?_, ?_, ?_⟩
  · rw [hids]
    exact List.nodup_range' _ _
  · intro d hd
    rcases List.mem_append.mp hd with hw | hrb
    · exact h3 d hw
    · rcases List.mem_cons.mp hrb with rfl | hrb2
      · rfl
      · rcases List.mem_cons.mp hrb2 with rfl | hrb3
        · rfl
        · simp at hrb3
  · have := congrArg List.length hids
    simpa using this

/-- Filtering out a prefix's ids from a duplicate-free-id list keeps
exactly the remainder. -/
theorem filter_remove_prefix (v w : List Die)
    (hnd : ((v ++ w).map Die.id).Nodup) :
    ((v ++ w).filter fun d => !((v.map Die.id).contains d.id)).length =
      w.length := by
  rw [List.map_append, List.nodup_append] at hnd
  rw [List.filter_append]
  have h1 : (v.filter fun d => !((v.map Die.id).contains d.id)) = [] := by
    rw [List.filter_eq_nil_iff]
    intro d hd
    simp only [Bool.not_eq_true, Bool.not_eq_true']
    simpa using ⟨d, hd, rfl⟩
  have h2 : (w.filter fun d => !((v.map Die.id).contains d.id)) = w := by
    rw [List.filter_eq_self]
    intro d hd
    simp only [Bool.not_eq_true', ← Bool.not_eq_true]
    intro hc
    have hmem : d.id ∈ v.map Die.id := by simpa using hc
    exact hnd.2.2 hmem (List.mem_map_of_mem Die.id hd)
  rw [h1, h2, List.length_append, List.length_nil, Nat.zero_add]

/-- Marking dice by id and filtering unspent commutes with removing the
marked ids among the unspent dice. -/
theorem filter_unspent_map_update (ids : List Nat) :
    ∀ (dice : List Die),
      ((dice.map fun die =>
        ({ die with
            isSpent := die.isSpent || ids.contains die.id
            isRevealed := die.isRevealed || ids.contains die.id } : Die)).filter
        fun d => !d.isSpent).length =
      ((dice.filter fun d => !d.isSpent).filter
        fun d => !ids.contains d.id).length := by
  intro dice
  induction dice with
  | nil => rfl
  | cons d t ih =>
    simp only [List.map_cons]
    cases hs : d.isSpent <;> cases hc : ids.contains d.id
    · rw [List.filter_cons_of_pos (by simp [hs, hc]),
        List.filter_cons_of_pos (by simp [hs]),
        List.filter_cons_of_pos (by simpa using hc)]
      simp only [List.length_cons, ih]
    · rw [List.filter_cons_of_neg (by simp [hs, hc]),
        List.filter_cons_of_pos (by simp [hs]),
        List.filter_cons_of_neg (by simpa using hc)]
      exact ih
    · rw [List.filter_cons_of_neg (by simp [hs]),
        List.filter_cons_of_neg (by simp [hs])]
      exact ih
    · rw [List.filter_cons_of_neg (by simp [hs]),
        List.filter_cons_of_neg (by simp [hs])]
      exact ih

/-- Marking the first three unspent dice spent leaves exactly three fewer
unspent dice. -/
theorem unspent_after_update (dice : List Die)
    (hnd : (dice.map Die.id).Nodup)
    (h3 : 3 ≤ (dice.filter fun d => !d.isSpent).length) :
    ((dice.map fun die =>
      { die with
        isSpent := die.isSpent ||
          ((((dice.filter fun (d : Die) => !d.isSpent).take 3).map
            Die.id).contains die.id)
        isRevealed := die.isRevealed ||
          ((((dice.filter fun (d : Die) => !d.isSpent).take 3).map
            Die.id).contains die.id) }).filter fun d => !d.isSpent).length =
    (dice.filter fun d => !d.isSpent).length - 3 := by
  have hund : ((dice.filter fun d => !d.isSpent).map Die.id).Nodup :=
    hnd.sublist (List.Sublist.map Die.id (List.filter_sublist dice))
  rw [filter_unspent_map_update
    ((((dice.filter fun d => !d.isSpent).take 3).map Die.id)) dice]
  have hsplit :
      (dice.filter fun d => !d.isSpent).take 3 ++
        (dice.filter fun d => !d.isSpent).drop 3 =
        dice.filter fun d => !d.isSpent :=
    List.take_append_drop 3 _
  have hres := filter_remove_prefix
    ((dice.filter fun d => !d.isSpent).take 3)
    ((dice.filter fun d => !d.isSpent).drop 3)
    (by rw [hsplit]; exact hund)
  rw [hsplit] at hres
  rw [hres, List.length_drop]

/-- `allPredictionsSubmitted` holds iff every player has predicted. -/
theorem allPredictionsSubmitted_iff (s : GameState) :
    allPredictionsSubmitted s = true ↔
      ∀ p ∈ s.players, p.prediction.isSome := by
  simp [allPredictionsSubmitted, List.all_eq_true]

/-- A player without a prediction falsifies `allPredictionsSubmitted`. -/
theorem allPredictionsSubmitted_false {s : GameState} {p : Player}
    (hp : p ∈ s.players) (hnone : p.prediction = none) :
    allPredictionsSubmitted s = false := by
  rw [Bool.eq_false_iff]
  intro hc
  have := (allPredictionsSubmitted_iff s).mp hc p hp
  rw [hnone] at this
  simp at this

/-- A player with a missing or unconfirmed selection falsifies
`allSelectionsConfirmed`. -/
theorem allSelectionsConfirmed_false_of {s : GameState} {p : Player}
    (hp : p ∈ s.players)
    (h : s.pendingSelections.get p.id = none ∨
      s.pendingSelections.isConfirmed p.id = false) :
    allSelectionsConfirmed s = false := by
  rw [Bool.eq_false_iff]
  intro hc
  rw [allSelectionsConfirmed, List.all_eq_true] at hc
  have := hc p hp
  rcases h with hnone | hconf
  · rw [hnone] at this
    simp at this
  · cases hget : s.pendingSelections.get p.id with
    | none => rw [hget] at this; simp at this
    | some ids =>
      rw [hget, hconf] at this
      simp at this

/-- Three-die confirmed selections for every player satisfy
`allSelectionsConfirmed`. -/
theorem allSelectionsConfirmed_true_of {s : GameState}
    (h : ∀ p ∈ s.players, ∃ ids, s.pendingSelections.get p.id = some ids ∧
      ids.length = 3 ∧ s.pendingSelections.isConfirmed p.id = true) :
    allSelectionsConfirmed s = true := by
  rw [allSelectionsConfirmed, List.all_eq_true]
  intro p hp
  obtain ⟨ids, hget, hlen, hconf⟩ := h p hp
  rw [hget, hconf]
  simp [hlen]

/-- Any 3 dice evaluate to a hand. -/
theorem evaluateHand_ok_of_length (dice : List Die) (h : dice.length = 3) :
    ∃ eh, evaluateHand dice = .ok eh := by
  unfold evaluateHand
  rw [if_neg (by omega)]
  have hlen : (List.insertionSort (fun a b => a ≤ b)
      (dice.map Die.value)).length = 3 := by
    rw [(List.perm_insertionSort _ _).length_eq, List.length_map, h]
  rcases hs : List.insertionSort (fun a b => a ≤ b) (dice.map Die.value) with
      _ | ⟨a, _ | ⟨b, _ | ⟨c, rest⟩⟩⟩
  · rw [hs] at hlen; simp at hlen
  · rw [hs] at hlen; simp at hlen
  · rw [hs] at hlen; simp at hlen
  · have hrest : rest = [] := by
      rw [hs] at hlen
      simp only [List.length_cons] at hlen
      exact List.eq_nil_of_length_eq_zero (by omega)
    subst hrest
    dsimp only
    split_ifs <;> exact ⟨_, rfl⟩

/-- With duplicate-free player ids, `autoPickDieIds` picks the first three
unspent dice of the named player. -/
theorem autoPickDieIds_spec (s : GameState) (p : Player)
    (hp : p ∈ s.players) (hnd : (s.players.map Player.id).Nodup) :
    autoPickDieIds s p.id =
      ((p.dice.filter fun d => !d.isSpent).take 3).map Die.id := by
  unfold autoPickDieIds
  rw [find?_self_of_nodup s.players hnd p hp]

/-- `buildSelections` succeeds when every player's stored selection
resolves to 3 dice. -/
theorem buildSelections_ok (s : GameState)
    (h : ∀ p ∈ s.players,
      ((((s.pendingSelections.get p.id).getD []).filterMap
        (fun i => p.dice.find? (fun d => d.id == i))).length) = 3) :
    ∃ sels, buildSelections s = .ok sels := by
  unfold buildSelections
  apply mapExcept_ok
  intro p hp
  obtain ⟨eh, heh⟩ := evaluateHand_ok_of_length
    (((s.pendingSelections.get p.id).getD []).filterMap
      (fun i => p.dice.find? (fun d => d.id == i))) (h p hp)
  refine ⟨⟨p.id,
    eh,
    (s.pendingSelections.get p.id).getD [],
    ((((s.pendingSelections.get p.id).getD []).filterMap
      (fun i => p.dice.find? (fun d => d.id == i))).map
      (fun d => { d with isRevealed := true }))⟩, ?_⟩
  simp only [heh]
  rfl

/-- Everything `processSetSelection` leaves intact, and the exact shape of
the updated players. -/
theorem processSetSelection_facts {s s2 : GameState}
    (h : processSetSelection s = some s2) :
    s2.pendingSelections = s.pendingSelections ∧
    s2.currentTurnIndex = s.currentTurnIndex ∧
    s2.phase = s.phase ∧
    s2.turnOrder = s.turnOrder ∧
    s2.currentRound = s.currentRound ∧
    s2.currentSet = s.currentSet ∧
    s2.config = s.config ∧
    s2.roundHistory = s.roundHistory ∧
    s2.players.map Player.id = s.players.map Player.id ∧
    (∀ q ∈ s2.players, ∃ p ∈ s.players, q.id = p.id ∧
      q.prediction = p.prediction ∧
      q.dice = p.dice.map fun die =>
        { die with
          isSpent := die.isSpent ||
            ((((s.pendingSelections.get p.id).getD [] : List Nat)).contains
              die.id)
          isRevealed := die.isRevealed ||
            ((((s.pendingSelections.get p.id).getD [] : List Nat)).contains
              die.id) }) := by
  unfold processSetSelection at h
  cases hbs : buildSelections s with
  | error e => rw [hbs] at h; simp at h
  | ok sels =>
    rw [hbs] at h
    dsimp only at h
    simp only [Option.some.injEq] at h
    subst h
    refine ⟨rfl, rfl, rfl, rfl, rfl, rfl, rfl, rfl, ?_, ?_⟩
    · dsimp only
      rw [List.map_map]
      exact List.map_congr_left fun p hp => rfl
    · intro q hq
      obtain ⟨p, hp, rfl⟩ := List.mem_map.mp hq
      exact ⟨p, hp, rfl, rfl, rfl⟩

/-- `processPredictions` succeeds when every player has predicted, and
changes neither the phase data nor the player ids. -/
theorem processPredictions_ok {s : GameState}
    (h : ∀ p ∈ s.players, p.prediction.isSome) :
    ∃ s2, processPredictions s = some s2 ∧
      s2.phase = s.phase ∧ s2.currentRound = s.currentRound ∧
      s2.currentSet = s.currentSet ∧ s2.config = s.config ∧
      s2.turnOrder = s.turnOrder ∧ s2.currentTurnIndex = s.currentTurnIndex ∧
      s2.players.map Player.id = s.players.map Player.id := by
  unfold processPredictions
  dsimp only
  obtain ⟨outs, houts⟩ := mapOption_isSome
    (fun p => Option.map (fun pred =>
      ({ playerId := p.id, type := pred,
         correct := decide ((0 : ℚ) < calculatePredictionBonus pred
           p.currentRoundScore s.players.length),
         bonus := calculatePredictionBonus pred p.currentRoundScore
           s.players.length } : PredictionOutcome)) p.prediction)
    s.players (fun p hp => by
      have hps := h p hp
      cases hpp : p.prediction with
      | none => rw [hpp] at hps; simp at hps
      | some pr => simp [hpp])
  rw [houts]
  refine ⟨_, rfl, rfl, rfl, rfl, rfl, rfl, rfl, ?_⟩
  dsimp only
  rw [List.map_map]
  exact List.map_congr_left fun p hp => rfl

/-- The frame of `advanceRound`: next round, set 1, cleared selections,
re-rolled dice. -/
theorem advanceRound_facts (s : GameState) (g : Gen) :
    (advanceRound s g).1.currentRound = s.currentRound + 1 ∧
    (advanceRound s g).1.currentSet = 1 ∧
    (advanceRound s g).1.currentTurnIndex = 0 ∧
    (advanceRound s g).1.pendingSelections = PendingSelections.empty ∧
    (advanceRound s g).1.config = s.config ∧
    (advanceRound s g).1.phase = s.phase ∧
    (advanceRound s g).1.initialRollResults = s.initialRollResults ∧
    (advanceRound s g).1.players.map Player.id = s.players.map Player.id ∧
    (∀ q ∈ (advanceRound s g).1.players, ∃ p ∈ s.players,
      q.id = p.id ∧ q.prediction = p.prediction ∧
      (q.dice.map Die.id).Nodup ∧
      (∀ d ∈ q.dice, d.isSpent = false) ∧ q.dice.length = 11) := by
  refine ⟨rfl, rfl, rfl, rfl, rfl, rfl, rfl, ?_, ?_⟩
  · exact mapGen_map _ Player.id Player.id (fun p g => rfl) s.players g
  · intro q hq
    obtain ⟨p, hp, g1, rfl⟩ := mapGen_mem _ s.players g q hq
    obtain ⟨hn, hs, hl⟩ := generatePlayerDice_facts g1
    exact ⟨p, hp, rfl, rfl, hn, hs, hl⟩

/-- The frame of `rollAllDice`: fresh dice only. -/
theorem rollAllDice_facts (s : GameState) (g : Gen) :
    (rollAllDice s g).1.currentRound = s.currentRound ∧
    (rollAllDice s g).1.currentSet = s.currentSet ∧
    (rollAllDice s g).1.currentTurnIndex = s.currentTurnIndex ∧
    (rollAllDice s g).1.pendingSelections = s.pendingSelections ∧
    (rollAllDice s g).1.config = s.config ∧
    (rollAllDice s g).1.phase = s.phase ∧
    (rollAllDice s g).1.turnOrder = s.turnOrder ∧
    (rollAllDice s g).1.players.map Player.id = s.players.map Player.id ∧
    (∀ q ∈ (rollAllDice s g).1.players, ∃ p ∈ s.players,
      q.id = p.id ∧ q.prediction = p.prediction ∧
      (q.dice.map Die.id).Nodup ∧
      (∀ d ∈ q.dice, d.isSpent = false) ∧ q.dice.length = 11) := by
  refine ⟨rfl, rfl, rfl, rfl, rfl, rfl, rfl, ?_, ?_⟩
  · exact mapGen_map _ Player.id Player.id (fun p g => rfl) s.players g
  · intro q hq
    obtain ⟨p, hp, g1, rfl⟩ := mapGen_mem _ s.players g q hq
    obtain ⟨hn, hs, hl⟩ := generatePlayerDice_facts g1
    exact ⟨p, hp, rfl, rfl, hn, hs, hl⟩

/-- The frame of `rollInitialTurnOrder`: one roll per player, player order
preserved in the results. -/
theorem rollInitialTurnOrder_facts (s : GameState) (g : Gen) :
    (rollInitialTurnOrder s g).1.players = s.players ∧
    (rollInitialTurnOrder s g).1.phase = s.phase ∧
    (rollInitialTurnOrder s g).1.currentRound = s.currentRound ∧
    (rollInitialTurnOrder s g).1.currentSet = s.currentSet ∧
    (rollInitialTurnOrder s g).1.currentTurnIndex = s.currentTurnIndex ∧
    (rollInitialTurnOrder s g).1.config = s.config ∧
    ((rollInitialTurnOrder s g).1.initialRollResults).map RollResult.playerId =
      s.players.map Player.id ∧
    ((rollInitialTurnOrder s g).1.initialRollResults).length =
      s.players.length := by
  refine ⟨rfl, rfl, rfl, rfl, rfl, rfl, ?_, ?_⟩
  · exact mapGen_map _ RollResult.playerId Player.id (fun p g => rfl)
      s.players g
  · exact mapGen_length _ s.players g

/-- The frame of `setTurnOrder`. -/
theorem setTurnOrder_facts (s : GameState) :
    (setTurnOrder s).currentTurnIndex = 0 ∧
    (setTurnOrder s).phase = s.phase ∧
    (setTurnOrder s).players = s.players ∧
    (setTurnOrder s).currentRound = s.currentRound ∧
    (setTurnOrder s).currentSet = s.currentSet ∧
    (setTurnOrder s).config = s.config ∧
    (setTurnOrder s).pendingSelections = s.pendingSelections ∧
    (setTurnOrder s).initialRollResults = s.initialRollResults := by
  unfold setTurnOrder
  dsimp only
  split <;> exact ⟨rfl, rfl, rfl, rfl, rfl, rfl, rfl, rfl⟩

/-- Past round 1, `setTurnOrder` orders by cumulative score. -/
theorem setTurnOrder_of_ne_one (s : GameState) (h : s.currentRound ≠ 1) :
    (setTurnOrder s).turnOrder =
      calculateTurnOrder s.players
        (calculateInitialTurnOrder s.initialRollResults) := by
  unfold setTurnOrder
  dsimp only
  rw [if_neg (fun hc => h hc.1)]

/-- In round 1 with rolls present, `setTurnOrder` uses the initial order. -/
theorem setTurnOrder_of_one (s : GameState) (h1 : s.currentRound = 1)
    (h2 : 0 < s.initialRollResults.length) :
    (setTurnOrder s).turnOrder =
      calculateInitialTurnOrder s.initialRollResults := by
  unfold setTurnOrder
  dsimp only
  rw [if_pos ⟨h1, h2⟩]

/-- `calculateTurnOrder` permutes the player ids. -/
theorem calculateTurnOrder_perm (players : List Player) (ord : List Nat) :
    (calculateTurnOrder players ord).Perm (players.map Player.id) :=
  (List.perm_insertionSort _ players).map Player.id

/-- `calculateInitialTurnOrder` permutes the rolled player ids. -/
theorem calculateInitialTurnOrder_perm (rolls : List RollResult) :
    (calculateInitialTurnOrder rolls).Perm (rolls.map RollResult.playerId) :=
  (List.perm_insertionSort _ rolls).map RollResult.playerId

/-- Submitting a prediction for each outstanding player id, in order,
drives the machine from PREDICTION to SET_SELECTION with empty pending
selections, all predictions in and everything else unchanged. -/
theorem runEvents_submit :
    ∀ (todo : List Nat) (s : GameState) (g : Gen),
    s.phase = GamePhase.PREDICTION →
    s.players ≠ [] →
    (∀ p ∈ s.players, p.prediction = none ↔ p.id ∈ todo) →
    (∀ pid ∈ todo, ∃ p ∈ s.players, p.id = pid) →
    todo.Nodup →
    todo ≠ [] →
    ∃ s2, runEvents s g (todo.map fun pid =>
        GameEvent.SUBMIT_PREDICTION pid PredictionType.ZERO) = some (s2, g) ∧
      s2.phase = GamePhase.SET_SELECTION ∧
      s2.pendingSelections = PendingSelections.empty ∧
      s2.players.map Player.id = s.players.map Player.id ∧
      (∀ q ∈ s2.players, (∃ p ∈ s.players, q.dice = p.dice) ∧
        q.prediction.isSome) ∧
      s2.currentRound = s.currentRound ∧ s2.currentSet = s.currentSet ∧
      s2.currentTurnIndex = s.currentTurnIndex ∧ s2.turnOrder = s.turnOrder ∧
      s2.config = s.config ∧ s2.roundHistory = s.roundHistory ∧
      s2.setResults = s.setResults := by
  intro todo
  induction todo with
  | nil => intro s g _ _ _ _ _ hne0; exact absurd rfl hne0
  | cons pid rest ih =>
    intro s g hph hne hinv hex hnd _
    obtain ⟨hpidrest, hndrest⟩ := List.nodup_cons.mp hnd
    have hid : ∀ p : Player,
        (if p.id = pid then { p with prediction := some PredictionType.ZERO }
          else p).id = p.id := by
      intro p
      by_cases hc : p.id = pid
      · rw [if_pos hc]
      · rw [if_neg hc]
    have hdice : ∀ p : Player,
        (if p.id = pid then { p with prediction := some PredictionType.ZERO }
          else p).dice = p.dice := by
      intro p
      by_cases hc : p.id = pid
      · rw [if_pos hc]
      · rw [if_neg hc]
    have hstep0 : step s g (GameEvent.SUBMIT_PREDICTION pid
        PredictionType.ZERO) =
        (stayPrediction (storePrediction s pid PredictionType.ZERO)).map
          fun x => (x, g) := by
      unfold step
      rw [hph]
    have hplA : (storePrediction s pid PredictionType.ZERO).players =
        s.players.map fun p =>
          if p.id = pid then { p with prediction := some PredictionType.ZERO }
          else p := rfl
    have hmapidA : (storePrediction s pid PredictionType.ZERO).players.map
        Player.id = s.players.map Player.id := by
      rw [hplA, List.map_map]
      exact List.map_congr_left fun p hp => hid p
    have hneA : (storePrediction s pid PredictionType.ZERO).players ≠ [] := by
      rw [hplA]
      intro hc
      exact hne (List.map_eq_nil_iff.mp hc)
    cases rest with
    | nil =>
      have hall : allPredictionsSubmitted
          (storePrediction s pid PredictionType.ZERO) = true := by
        rw [allPredictionsSubmitted_iff]
        intro q hq
        rw [hplA] at hq
        obtain ⟨p, hp, rfl⟩ := List.mem_map.mp hq
        by_cases hc : p.id = pid
        · rw [if_pos hc]
          rfl
        · rw [if_neg hc]
          have hmem : p.id ∉ [pid] := by simpa using hc
          have hnn : p.prediction ≠ none := fun hc2 => hmem ((hinv p hp).mp hc2)
          exact Option.ne_none_iff_isSome.mp hnn
      obtain ⟨p0, hp0⟩ := List.exists_mem_of_ne_nil _ hne
      have hfalse : allSelectionsConfirmed
          { clearPendingSelections (storePrediction s pid PredictionType.ZERO)
            with phase := GamePhase.SET_SELECTION } = false := by
        apply allSelectionsConfirmed_false_of
          (p := if p0.id = pid then
            { p0 with prediction := some PredictionType.ZERO } else p0)
        · show _ ∈ (storePrediction s pid PredictionType.ZERO).players
          rw [hplA]
          exact List.mem_map_of_mem _ hp0
        · exact Or.inl rfl
      refine ⟨{ clearPendingSelections
          (storePrediction s pid PredictionType.ZERO)
          with phase := GamePhase.SET_SELECTION }, ?_, rfl, rfl, ?_, ?_,
        rfl, rfl, rfl, rfl, rfl, rfl, rfl⟩
      · rw [List.map_cons, runEvents_cons _ (by
          rw [hstep0]
          unfold stayPrediction
          rw [if_pos hall]
          unfold enterSetSelection staySetSelection
          rw [if_neg (by simp [hfalse])]
          rfl)]
        rfl
      · exact hmapidA
      · intro q hq
        have hq2 : q ∈ (storePrediction s pid PredictionType.ZERO).players :=
          hq
        rw [hplA] at hq2
        obtain ⟨p, hp, rfl⟩ := List.mem_map.mp hq2
        refine ⟨⟨p, hp, hdice p⟩, ?_⟩
        by_cases hc : p.id = pid
        · rw [if_pos hc]
          rfl
        · rw [if_neg hc]
          have hmem : p.id ∉ [pid] := by simpa using hc
          have hnn : p.prediction ≠ none := fun hc2 => hmem ((hinv p hp).mp hc2)
          exact Option.ne_none_iff_isSome.mp hnn
    | cons r0 rest2 =>
      have hr0 : r0 ∈ pid :: r0 :: rest2 :=
        List.mem_cons_of_mem _ (List.mem_cons_self _ _)
      obtain ⟨p0, hp0, hp0id⟩ := hex r0 hr0
      have hp0ne : p0.id ≠ pid := by
        rw [hp0id]
        intro hc
        exact hpidrest (hc ▸ List.mem_cons_self _ _)
      have hfalseA : allPredictionsSubmitted
          (storePrediction s pid PredictionType.ZERO) = false := by
        apply allPredictionsSubmitted_false
          (p := if p0.id = pid then
            { p0 with prediction := some PredictionType.ZERO } else p0)
        · show _ ∈ (storePrediction s pid PredictionType.ZERO).players
          rw [hplA]
          exact List.mem_map_of_mem _ hp0
        · rw [if_neg hp0ne]
          exact (hinv p0 hp0).mpr (hp0id ▸ hr0)
      have hstep1 : step s g (GameEvent.SUBMIT_PREDICTION pid
          PredictionType.ZERO) =
          some (storePrediction s pid PredictionType.ZERO, g) := by
        rw [hstep0]
        unfold stayPrediction
        rw [if_neg (by simp [hfalseA])]
        rfl
      obtain ⟨s2, hrun, hph2, hpend2, hmap2, hplayers2, hcr2, hcs2, hti2,
        hto2, hcf2, hrh2, hsr2⟩ :=
        ih (storePrediction s pid PredictionType.ZERO) g hph hneA
          (by
            intro q hq
            rw [hplA] at hq
            obtain ⟨p, hp, rfl⟩ := List.mem_map.mp hq
            by_cases hc : p.id = pid
            · rw [if_pos hc]
              constructor
              · intro hfoo
                exact absurd hfoo (by simp)
              · intro hmem
                have hmem2 : p.id ∈ r0 :: rest2 := hmem
                rw [hc] at hmem2
                exact absurd hmem2 hpidrest
            · rw [if_neg hc]
              rw [hinv p hp]
              simp [hc]
          )
          (by
            intro pid2 hpid2
            obtain ⟨p, hp, hpideq⟩ := hex pid2 (List.mem_cons_of_mem _ hpid2)
            refine ⟨if p.id = pid then
              { p with prediction := some PredictionType.ZERO } else p, ?_, ?_⟩
            · rw [hplA]
              exact List.mem_map_of_mem _ hp
            · rw [hid p, hpideq]
          )
          hndrest (by simp)
      refine ⟨s2, ?_, hph2, hpend2, ?_, ?_, hcr2, hcs2, hti2, hto2, hcf2,
        hrh2, hsr2⟩
      · rw [List.map_cons, runEvents_cons _ hstep1]
        exact hrun
      · rw [hmap2]
        exact hmapidA
      · intro q hq
        obtain ⟨⟨p1, hp1, hdice1⟩, hsome⟩ := hplayers2 q hq
        rw [hplA] at hp1
        obtain ⟨p, hp, rfl⟩ := List.mem_map.mp hp1
        exact ⟨⟨p, hp, hdice1.trans (hdice p)⟩, hsome⟩

/-- `get` after `setSel`: last write wins, others unchanged. -/
theorem PendingSelections.get_setSel (ps : PendingSelections)
    (pid pid' : Nat) (ids : List Nat) :
    (ps.setSel pid ids).get pid' =
      if pid' = pid then some ids else ps.get pid' := by
  unfold PendingSelections.get PendingSelections.setSel
  by_cases hc : pid' = pid
  · rw [if_pos hc]
    subst hc
    simp [List.lookup]
  · rw [if_neg hc]
    simp only [List.lookup]
    rw [show (pid' == pid) = false from beq_eq_false_iff_ne.mpr hc]

/-- `setSel` does not touch the confirmation keys. -/
theorem PendingSelections.isConfirmed_setSel (ps : PendingSelections)
    (pid pid' : Nat) (ids : List Nat) :
    (ps.setSel pid ids).isConfirmed pid' = ps.isConfirmed pid' := rfl

/-- `setConfirmed` does not touch the stored selections. -/
theorem PendingSelections.get_setConfirmed (ps : PendingSelections)
    (pid pid' : Nat) :
    (ps.setConfirmed pid).get pid' = ps.get pid' := rfl

/-- `isConfirmed` after `setConfirmed`. -/
theorem PendingSelections.isConfirmed_setConfirmed (ps : PendingSelections)
    (pid pid' : Nat) :
    (ps.setConfirmed pid).isConfirmed pid' =
      if pid' = pid then true else ps.isConfirmed pid' := by
  unfold PendingSelections.isConfirmed PendingSelections.setConfirmed
  by_cases hc : pid' = pid
  · rw [if_pos hc]
    subst hc
    simp
  · rw [if_neg hc]
    simp [hc]

/-- `get` on the empty selections. -/
theorem PendingSelections.get_empty (pid : Nat) :
    PendingSelections.empty.get pid = none := rfl

/-- `isConfirmed` on the empty selections. -/
theorem PendingSelections.isConfirmed_empty (pid : Nat) :
    PendingSelections.empty.isConfirmed pid = false := rfl

/-- Indexing the concatenation at the boundary. -/
theorem getElem?_append_cons (done : List Nat) (pid : Nat) (rest : List Nat) :
    (done ++ pid :: rest)[done.length]? = some pid := by
  rw [List.getElem?_append_right (le_refl done.length)]
  simp

/-- Running SELECT_DICE + CONFIRM_SELECTION for every remaining turn-order
id drives SET_SELECTION to SET_REVEAL, spending 3 dice per player. -/
theorem runEvents_setLoop (s3 : GameState)
    (hndids : (s3.players.map Player.id).Nodup)
    (hperm : s3.turnOrder.Perm (s3.players.map Player.id))
    (hdice : ∀ p ∈ s3.players, (p.dice.map Die.id).Nodup ∧
      3 ≤ (p.dice.filter fun d => !d.isSpent).length) :
    ∀ (todo done : List Nat) (sk : GameState) (g : Gen),
    s3.turnOrder = done ++ todo →
    todo ≠ [] →
    sk.phase = GamePhase.SET_SELECTION →
    sk.players = s3.players →
    sk.turnOrder = s3.turnOrder →
    sk.currentTurnIndex = done.length →
    (∀ pid', sk.pendingSelections.get pid' =
      if pid' ∈ done then some (autoPickDieIds s3 pid') else none) →
    (∀ pid', sk.pendingSelections.isConfirmed pid' = decide (pid' ∈ done)) →
    sk.currentRound = s3.currentRound →
    sk.currentSet = s3.currentSet →
    sk.config = s3.config →
    sk.roundHistory = s3.roundHistory →
    ∃ s5, runEvents sk g (todo.flatMap fun pid =>
        [GameEvent.SELECT_DICE pid (autoPickDieIds s3 pid),
         GameEvent.CONFIRM_SELECTION pid]) = some (s5, g) ∧
      s5.phase = GamePhase.SET_REVEAL ∧
      s5.players.map Player.id = s3.players.map Player.id ∧
      (∀ q ∈ s5.players, ∃ p ∈ s3.players, q.id = p.id ∧
        q.prediction = p.prediction ∧
        (q.dice.map Die.id).Nodup ∧
        (q.dice.filter fun d => !d.isSpent).length =
          (p.dice.filter fun d => !d.isSpent).length - 3) ∧
      s5.currentRound = s3.currentRound ∧
      s5.currentSet = s3.currentSet ∧
      s5.config = s3.config ∧
      s5.turnOrder = s3.turnOrder ∧
      s5.roundHistory = s3.roundHistory := by
  intro todo
  induction todo with
  | nil => intro done sk g _ hne0; exact absurd rfl hne0
  | cons pid rest ih =>
    intro done sk g hsplit _ hphk hpl hto hidx hget hconf hcr hcs hcf hrh
    have hndto : s3.turnOrder.Nodup := (hperm.nodup_iff).mpr hndids
    have hndsplit : (done ++ pid :: rest).Nodup := hsplit ▸ hndto
    obtain ⟨hnd_done, hnd_tail, hdisj⟩ := List.nodup_append.mp hndsplit
    obtain ⟨hpid_rest, hnd_rest⟩ := List.nodup_cons.mp hnd_tail
    have hpid_notdone : pid ∉ done :=
      fun hc => hdisj hc (List.mem_cons_self _ _)
    have hpid_to : pid ∈ s3.turnOrder := by
      rw [hsplit]
      exact List.mem_append_right _ (List.mem_cons_self _ _)
    obtain ⟨pp, hpp, hppid⟩ := List.mem_map.mp (hperm.mem_iff.mp hpid_to)
    -- Event 1: SELECT_DICE leaves SET_SELECTION (pid is unconfirmed).
    have hfalse1 : allSelectionsConfirmed
        (storeDiceSelection sk pid (autoPickDieIds s3 pid)) = false := by
      apply allSelectionsConfirmed_false_of (p := pp)
      · show pp ∈ sk.players
        rw [hpl]
        exact hpp
      · right
        show (sk.pendingSelections.setSel pid
          (autoPickDieIds s3 pid)).isConfirmed pp.id = false
        rw [PendingSelections.isConfirmed_setSel, hconf pp.id, hppid]
        simp [hpid_notdone]
    have hstep1 : step sk g (GameEvent.SELECT_DICE pid
        (autoPickDieIds s3 pid)) =
        some (storeDiceSelection sk pid (autoPickDieIds s3 pid), g) := by
      unfold step
      rw [hphk]
      dsimp only
      unfold staySetSelection
      rw [if_neg (by simp [hfalse1])]
      rfl
    -- Event 2: CONFIRM_SELECTION advances the index.
    have hscrut : sk.turnOrder[sk.currentTurnIndex]? = some pid := by
      rw [hto, hsplit, hidx]
      exact getElem?_append_cons done pid rest
    have hconfeq : confirmSelection
        (storeDiceSelection sk pid (autoPickDieIds s3 pid)) pid =
        { sk with
          pendingSelections := (sk.pendingSelections.setSel pid
            (autoPickDieIds s3 pid)).setConfirmed pid
          currentTurnIndex := sk.currentTurnIndex + 1 } := by
      unfold confirmSelection storeDiceSelection
      dsimp only
      rw [hscrut]
      dsimp only
      rw [if_pos rfl]
    have hgetB : ∀ pid', ((sk.pendingSelections.setSel pid
        (autoPickDieIds s3 pid)).setConfirmed pid).get pid' =
        if pid' ∈ done ++ [pid] then some (autoPickDieIds s3 pid')
        else none := by
      intro pid'
      rw [PendingSelections.get_setConfirmed, PendingSelections.get_setSel,
        hget pid']
      by_cases hc : pid' = pid
      · subst hc
        rw [if_pos rfl, if_pos (by simp)]
      · rw [if_neg hc]
        by_cases hd : pid' ∈ done
        · rw [if_pos hd, if_pos (by simp [hd])]
        · rw [if_neg hd, if_neg (by simp [hd, hc])]
    have hconfB : ∀ pid', ((sk.pendingSelections.setSel pid
        (autoPickDieIds s3 pid)).setConfirmed pid).isConfirmed pid' =
        decide (pid' ∈ done ++ [pid]) := by
      intro pid'
      rw [PendingSelections.isConfirmed_setConfirmed,
        PendingSelections.isConfirmed_setSel, hconf pid']
      by_cases hc : pid' = pid
      · subst hc
        rw [if_pos rfl]
        simp
      · rw [if_neg hc]
        by_cases hd : pid' ∈ done
        · simp [hd, hc]
        · simp [hd, hc]
    cases rest with
    | cons r1 rest2 =>
      have hr1_tail : r1 ∈ pid :: r1 :: rest2 :=
        List.mem_cons_of_mem _ (List.mem_cons_self _ _)
      have hr1ne : r1 ≠ pid := by
        intro hc
        exact hpid_rest (hc ▸ List.mem_cons_self _ _)
      have hr1_notdone : r1 ∉ done := by
        intro hc
        exact hdisj hc hr1_tail
      have hr1_to : r1 ∈ s3.turnOrder := by
        rw [hsplit]
        exact List.mem_append_right _ hr1_tail
      obtain ⟨q1, hq1, hq1id⟩ := List.mem_map.mp (hperm.mem_iff.mp hr1_to)
      have hfalse2 : allSelectionsConfirmed
          { sk with
            pendingSelections := (sk.pendingSelections.setSel pid
              (autoPickDieIds s3 pid)).setConfirmed pid
            currentTurnIndex := sk.currentTurnIndex + 1 } = false := by
        apply allSelectionsConfirmed_false_of (p := q1)
        · show q1 ∈ sk.players
          rw [hpl]
          exact hq1
        · left
          show ((sk.pendingSelections.setSel pid
            (autoPickDieIds s3 pid)).setConfirmed pid).get q1.id = none
          rw [hgetB q1.id, if_neg (by rw [hq1id]; simp [hr1_notdone, hr1ne])]
      have hstep2 : step (storeDiceSelection sk pid (autoPickDieIds s3 pid))
          g (GameEvent.CONFIRM_SELECTION pid) =
          some ({ sk with
            pendingSelections := (sk.pendingSelections.setSel pid
              (autoPickDieIds s3 pid)).setConfirmed pid
            currentTurnIndex := sk.currentTurnIndex + 1 }, g) := by
        unfold step
        rw [show (storeDiceSelection sk pid
          (autoPickDieIds s3 pid)).phase = GamePhase.SET_SELECTION from hphk]
        dsimp only
        rw [hconfeq]
        unfold staySetSelection
        rw [if_neg (by simp [hfalse2])]
        rfl
      obtain ⟨s5, hrun5, hf1, hf2, hf3, hf4, hf5, hf6, hf7, hf8⟩ :=
        ih (done ++ [pid])
          { sk with
            pendingSelections := (sk.pendingSelections.setSel pid
              (autoPickDieIds s3 pid)).setConfirmed pid
            currentTurnIndex := sk.currentTurnIndex + 1 } g
          (by rw [hsplit]; simp)
          (by simp)
          hphk hpl hto
          (by show sk.currentTurnIndex + 1 = (done ++ [pid]).length
              rw [hidx]
              simp)
          hgetB hconfB hcr hcs hcf hrh
      refine ⟨s5, ?_, hf1, hf2, hf3, hf4, hf5, hf6, hf7, hf8⟩
      simp only [List.flatMap_cons, List.cons_append, List.nil_append]
      rw [runEvents_cons _ hstep1, runEvents_cons _ hstep2]
      exact hrun5
    | nil =>
      have hto_eq : s3.turnOrder = done ++ [pid] := hsplit
      have hmem_all : ∀ p ∈ s3.players, p.id ∈ done ++ [pid] := by
        intro p hp
        have : p.id ∈ s3.turnOrder :=
          hperm.mem_iff.mpr (List.mem_map_of_mem Player.id hp)
        rw [hto_eq] at this
        exact this
      have htrue : allSelectionsConfirmed
          { sk with
            pendingSelections := (sk.pendingSelections.setSel pid
              (autoPickDieIds s3 pid)).setConfirmed pid
            currentTurnIndex := sk.currentTurnIndex + 1 } = true := by
        apply allSelectionsConfirmed_true_of
        intro p hp
        have hp3 : p ∈ s3.players := hpl ▸ hp
        refine ⟨autoPickDieIds s3 p.id, ?_, ?_, ?_⟩
        · show ((sk.pendingSelections.setSel pid
            (autoPickDieIds s3 pid)).setConfirmed pid).get p.id = _
          rw [hgetB p.id, if_pos (hmem_all p hp3)]
        · rw [autoPickDieIds_spec s3 p hp3 hndids]
          have := (hdice p hp3).2
          simp only [List.length_map, List.length_take]
          omega
        · show ((sk.pendingSelections.setSel pid
            (autoPickDieIds s3 pid)).setConfirmed pid).isConfirmed p.id = true
          rw [hconfB p.id]
          simp [hmem_all p hp3]
      have hres : ∀ p ∈ ({ sk with
          pendingSelections := (sk.pendingSelections.setSel pid
            (autoPickDieIds s3 pid)).setConfirmed pid
          currentTurnIndex := sk.currentTurnIndex + 1 } :
            GameState).players,
          ((((((sk.pendingSelections.setSel pid
              (autoPickDieIds s3 pid)).setConfirmed pid).get p.id).getD
            []) : List Nat).filterMap (fun i => p.dice.find?
              (fun d => d.id == i))).length = 3 := by
        intro p hp
        have hp3 : p ∈ s3.players := hpl ▸ hp
        rw [hgetB p.id, if_pos (hmem_all p hp3)]
        rw [Option.getD_some, autoPickDieIds_spec s3 p hp3 hndids]
        rw [length_filterMap_of_isSome]
        · have := (hdice p hp3).2
          simp only [List.length_map, List.length_take]
          omega
        · intro i hi
          obtain ⟨e, he3, rfl⟩ := List.mem_map.mp hi
          have hedice : e ∈ p.dice :=
            List.mem_of_mem_filter (List.mem_of_mem_take he3)
          rw [List.find?_isSome]
          exact ⟨e, hedice, by simp⟩
      obtain ⟨sels, hsels⟩ := buildSelections_ok _ hres
      have hpsome : ∃ s4, processSetSelection { sk with
          pendingSelections := (sk.pendingSelections.setSel pid
            (autoPickDieIds s3 pid)).setConfirmed pid
          currentTurnIndex := sk.currentTurnIndex + 1 } = some s4 := by
        unfold processSetSelection
        rw [hsels]
        exact ⟨_, rfl⟩
      obtain ⟨s4, hps⟩ := hpsome
      obtain ⟨hfp, hfti, hfph, hfto, hfcr, hfcs, hfcf, hfrh, hfmap, hfpl⟩ :=
        processSetSelection_facts hps
      have hstep2 : step (storeDiceSelection sk pid (autoPickDieIds s3 pid))
          g (GameEvent.CONFIRM_SELECTION pid) =
          some (enterSetReveal s4, g) := by
        unfold step
        rw [show (storeDiceSelection sk pid
          (autoPickDieIds s3 pid)).phase = GamePhase.SET_SELECTION from hphk]
        dsimp only
        rw [hconfeq]
        unfold staySetSelection
        rw [if_pos htrue, hps]
        rfl
      refine ⟨enterSetReveal s4, ?_, rfl, ?_, ?_, ?_, ?_, ?_, ?_, ?_⟩
      · simp only [List.flatMap_cons, List.flatMap_nil, List.append_nil,
          List.cons_append, List.nil_append]
        rw [runEvents_cons _ hstep1, runEvents_cons _ hstep2]
        rfl
      · show s4.players.map Player.id = s3.players.map Player.id
        refine hfmap.trans ?_
        show sk.players.map Player.id = s3.players.map Player.id
        rw [hpl]
      · intro q hq
        obtain ⟨p, hpmem, hqid, hqpred, hqdice⟩ := hfpl q hq
        have hp3 : p ∈ s3.players := hpl ▸ hpmem
        dsimp only at hqdice
        rw [hgetB p.id, if_pos (hmem_all p hp3), Option.getD_some,
          autoPickDieIds_spec s3 p hp3 hndids] at hqdice
        have hmapid : q.dice.map Die.id = p.dice.map Die.id := by
          rw [hqdice, List.map_map]
          exact List.map_congr_left fun d _ => rfl
        refine ⟨p, hp3, hqid, hqpred, ?_, ?_⟩
        · rw [hmapid]
          exact (hdice p hp3).1
        · rw [hqdice]
          exact unspent_after_update p.dice (hdice p hp3).1 (hdice p hp3).2
      · exact hfcr.trans hcr
      · exact hfcs.trans hcs
      · exact hfcf.trans hcf
      · exact hfto.trans hto
      · exact hfrh.trans hrh

/-- The frame of `advanceSet`. -/
theorem advanceSet_facts (s : GameState) :
    (advanceSet s).currentSet = 2 ∧
    (advanceSet s).currentTurnIndex = 0 ∧
    (advanceSet s).pendingSelections = PendingSelections.empty ∧
    (advanceSet s).setResults = [] ∧
    (advanceSet s).players = s.players ∧
    (advanceSet s).turnOrder = s.turnOrder ∧
    (advanceSet s).currentRound = s.currentRound ∧
    (advanceSet s).config = s.config ∧
    (advanceSet s).phase = s.phase :=
  ⟨rfl, rfl, rfl, rfl, rfl, rfl, rfl, rfl, rfl⟩

/-- The frame of `resetPlayerRoundState`. -/
theorem resetPlayerRoundState_facts (s : GameState) :
    (resetPlayerRoundState s).phase = s.phase ∧
    (resetPlayerRoundState s).currentRound = s.currentRound ∧
    (resetPlayerRoundState s).currentSet = s.currentSet ∧
    (resetPlayerRoundState s).currentTurnIndex = s.currentTurnIndex ∧
    (resetPlayerRoundState s).config = s.config ∧
    (resetPlayerRoundState s).pendingSelections = s.pendingSelections ∧
    (resetPlayerRoundState s).initialRollResults = s.initialRollResults ∧
    (resetPlayerRoundState s).players.map Player.id =
      s.players.map Player.id ∧
    (∀ q ∈ (resetPlayerRoundState s).players, ∃ p ∈ s.players,
      q.id = p.id ∧ q.dice = p.dice ∧ q.prediction = none) := by
  refine ⟨rfl, rfl, rfl, rfl, rfl, rfl, rfl, ?_, ?_⟩
  · unfold resetPlayerRoundState
    dsimp only
    rw [List.map_map]
    exact List.map_congr_left fun p _ => rfl
  · intro q hq
    obtain ⟨p, hp, rfl⟩ := List.mem_map.mp hq
    exact ⟨p, hp, rfl, rfl, rfl⟩

/-- NEXT_SET in SET_REVEAL during set 1: advance to set 2. -/
theorem step_nextSet_set1 (s : GameState) (g : Gen)
    (hph : s.phase = GamePhase.SET_REVEAL) (hset : s.currentSet = 1)
    (hne : s.players ≠ []) :
    step s g GameEvent.NEXT_SET =
      some ({ advanceSet s with phase := GamePhase.SET_SELECTION }, g) := by
  have hconf : allSelectionsConfirmed
      { advanceSet s with phase := GamePhase.SET_SELECTION } = false :=
    allSelectionsConfirmed_empty _ rfl hne
  unfold step
  rw [hph]
  dsimp only
  rw [if_pos hset]
  unfold enterSetSelection staySetSelection
  rw [if_neg (by simp [hconf])]
  rfl

/-- NEXT_SET in SET_REVEAL during set 2: round summary. -/
theorem step_nextSet_set2 (s : GameState) (g : Gen)
    (hph : s.phase = GamePhase.SET_REVEAL) (hset : s.currentSet = 2)
    (hpred : ∀ p ∈ s.players, p.prediction.isSome) :
    ∃ s2, step s g GameEvent.NEXT_SET = some (s2, g) ∧
      s2.phase = GamePhase.ROUND_SUMMARY ∧
      s2.currentRound = s.currentRound ∧
      s2.config = s.config ∧
      s2.players.map Player.id = s.players.map Player.id := by
  obtain ⟨s2, hps, hph2, hcr2, hcs2, hcf2, hto2, hti2, hmap2⟩ :=
    processPredictions_ok (s := { s with phase := GamePhase.ROUND_SUMMARY })
      (fun p hp => hpred p hp)
  refine ⟨s2, ?_, hph2, hcr2, hcf2, hmap2⟩
  unfold step
  rw [hph]
  dsimp only
  rw [if_neg (by rw [hset]; omega), if_pos hset]
  unfold enterRoundSummary
  rw [hps]
  rfl

/-- NEXT_ROUND with rounds remaining: the next round is ready. -/
theorem step_nextRound_more (s : GameState) (g : Gen)
    (hph : s.phase = GamePhase.ROUND_SUMMARY)
    (hmore : s.currentRound < s.config.totalRounds)
    (hne : s.players ≠ [])
    (hnodup : (s.players.map Player.id).Nodup)
    (hr1 : 1 ≤ s.currentRound) :
    ∃ s2 g2, step s g GameEvent.NEXT_ROUND = some (s2, g2) ∧
      RoundReady s.config.totalRounds (s.currentRound + 1) s2 := by
  obtain ⟨hAcr, hAcs, hAti, hAps, hAcf, hAph, hAir, hAmap, hApl⟩ :=
    advanceRound_facts s g
  obtain ⟨hBph, hBcr, hBcs, hBti, hBcf, hBps, hBir, hBmap, hBpl⟩ :=
    resetPlayerRoundState_facts (advanceRound s g).1
  obtain ⟨hCti, hCph, hCpl, hCcr, hCcs, hCcf, hCps, hCir⟩ :=
    setTurnOrder_facts (resetPlayerRoundState (advanceRound s g).1)
  have hBcr2 : (resetPlayerRoundState (advanceRound s g).1).currentRound =
      s.currentRound + 1 := hBcr.trans hAcr
  have hCto : (setTurnOrder (resetPlayerRoundState
      (advanceRound s g).1)).turnOrder =
      calculateTurnOrder (resetPlayerRoundState (advanceRound s g).1).players
        (calculateInitialTurnOrder (resetPlayerRoundState
          (advanceRound s g).1).initialRollResults) :=
    setTurnOrder_of_ne_one _ (by rw [hBcr2]; omega)
  have hmapchain : (setTurnOrder (resetPlayerRoundState
      (advanceRound s g).1)).players.map Player.id =
      s.players.map Player.id := by
    rw [hCpl, hBmap, hAmap]
  have hneC : (setTurnOrder (resetPlayerRoundState
      (advanceRound s g).1)).players ≠ [] := by
    intro hc
    apply hne
    have := hmapchain
    rw [hc] at this
    exact List.map_eq_nil_iff.mp this.symm
  obtain ⟨q0, hq0⟩ := List.exists_mem_of_ne_nil _ hneC
  have hq0B : q0 ∈ (resetPlayerRoundState (advanceRound s g).1).players := by
    rw [← hCpl]
    exact hq0
  obtain ⟨p0, hp0, hq0id, hq0dice, hq0pred⟩ := hBpl q0 hq0B
  have hfalsepred : allPredictionsSubmitted
      { setTurnOrder (resetPlayerRoundState (advanceRound s g).1) with
        phase := GamePhase.PREDICTION } = false := by
    apply allPredictionsSubmitted_false (p := q0)
    · exact hq0
    · exact hq0pred
  have henter : enterPrediction (setTurnOrder (resetPlayerRoundState
      (advanceRound s g).1)) =
      some { setTurnOrder (resetPlayerRoundState (advanceRound s g).1) with
        phase := GamePhase.PREDICTION } := by
    unfold enterPrediction stayPrediction
    rw [if_neg (by simp [hfalsepred])]
  refine ⟨{ setTurnOrder (resetPlayerRoundState (advanceRound s g).1) with
      phase := GamePhase.PREDICTION }, (advanceRound s g).2, ?_, ?_⟩
  · unfold step
    rw [hph]
    dsimp only
    rw [if_pos (by simp [hasMoreRounds]; omega)]
    rw [henter]
    rfl
  · refine ⟨rfl, ?_, ?_, ?_, ?_, ?_, ?_, ?_, ?_, ?_⟩
    · show (setTurnOrder (resetPlayerRoundState
        (advanceRound s g).1)).currentRound = s.currentRound + 1
      rw [hCcr, hBcr2]
    · show (setTurnOrder (resetPlayerRoundState
        (advanceRound s g).1)).currentSet = 1
      rw [hCcs, hBcs, hAcs]
    · exact hCti
    · show (setTurnOrder (resetPlayerRoundState
        (advanceRound s g).1)).config.totalRounds = s.config.totalRounds
      rw [hCcf, hBcf, hAcf]
    · exact hneC
    · show ((setTurnOrder (resetPlayerRoundState
        (advanceRound s g).1)).players.map Player.id).Nodup
      rw [hmapchain]
      exact hnodup
    · show (setTurnOrder (resetPlayerRoundState
        (advanceRound s g).1)).turnOrder.Perm
        ((setTurnOrder (resetPlayerRoundState
          (advanceRound s g).1)).players.map Player.id)
      rw [hCto, hCpl]
      exact calculateTurnOrder_perm _ _
    · intro p hp
      have hpB : p ∈ (resetPlayerRoundState (advanceRound s g).1).players := by
        rw [← hCpl]
        exact hp
      obtain ⟨p1, hp1, hid1, hdice1, hpred1⟩ := hBpl p hpB
      exact hpred1
    · intro p hp
      have hpB : p ∈ (resetPlayerRoundState (advanceRound s g).1).players := by
        rw [← hCpl]
        exact hp
      obtain ⟨p1, hp1, hid1, hdice1, hpred1⟩ := hBpl p hpB
      obtain ⟨p2, hp2, hid2, hpred2, hnd2, hsp2, hlen2⟩ := hApl p1 hp1
      have hfull : (p.dice.filter fun d => !d.isSpent) = p.dice := by
        rw [List.filter_eq_self]
        intro d hd
        rw [hdice1] at hd
        rw [hsp2 d hd]
        rfl
      constructor
      · rw [hdice1]
        exact hnd2
      · rw [hfull, hdice1, hlen2]
        omega

/-- NEXT_ROUND after the last round: game over. -/
theorem step_nextRound_done (s : GameState) (g : Gen)
    (hph : s.phase = GamePhase.ROUND_SUMMARY)
    (hdone : s.config.totalRounds ≤ s.currentRound) :
    step s g GameEvent.NEXT_ROUND = some (enterGameOver s, g) := by
  unfold step
  rw [hph]
  dsimp only
  rw [if_neg (by simp [hasMoreRounds]; omega), if_pos (by simp [isGameOver]; omega)]

/-- One scripted round: from a ready round state, the script either reaches
the next ready round (more rounds left) or GAME_OVER (last round). -/
theorem runRound_sound (s : GameState) (g : Gen) (r T : Nat)
    (h : RoundReady T r s) (hr1 : 1 ≤ r) (hrT : r ≤ T) :
    ∃ s6 g6, runRound s g = some (s6, g6) ∧
      (r < T → RoundReady T (r + 1) s6) ∧
      (r = T → s6.phase = GamePhase.GAME_OVER ∧ s6.currentRound = T) := by
  obtain ⟨hph, hcr, hcs, hti, hcfT, hne, hnodup, hperm, hprednone, hdice⟩ := h
  have hmapne : s.players.map Player.id ≠ [] := by
    intro hc
    exact hne (List.map_eq_nil_iff.mp hc)
  obtain ⟨s1, hrun1, h1ph, h1pend, h1map, h1pl, h1cr, h1cs, h1ti, h1to,
    h1cf, h1rh, h1sr⟩ :=
    runEvents_submit (s.players.map Player.id) s g hph hne
      (fun p hp => ⟨fun _ => List.mem_map_of_mem Player.id hp,
        fun _ => hprednone p hp⟩)
      (fun pid hpid => by
        obtain ⟨p, hp, hpid2⟩ := List.mem_map.mp hpid
        exact ⟨p, hp, hpid2⟩)
      hnodup hmapne
  have hrun1' : runEvents s g (predictionScript s) = some (s1, g) := by
    have hev : (s.players.map Player.id).map
        (fun pid => GameEvent.SUBMIT_PREDICTION pid PredictionType.ZERO) =
        predictionScript s := by
      unfold predictionScript
      rw [List.map_map]
      rfl
    rw [← hev]
    exact hrun1
  have hndids1 : (s1.players.map Player.id).Nodup := by
    rw [h1map]
    exact hnodup
  have hperm1 : s1.turnOrder.Perm (s1.players.map Player.id) := by
    rw [h1to, h1map]
    exact hperm
  have hne1 : s1.turnOrder ≠ [] := by
    intro hc
    have h0 : (s1.players.map Player.id) = [] :=
      List.Perm.eq_nil (hc ▸ hperm1).symm
    rw [h1map] at h0
    exact hmapne h0
  have hdice1 : ∀ p ∈ s1.players, (p.dice.map Die.id).Nodup ∧
      3 ≤ (p.dice.filter fun d => !d.isSpent).length := by
    intro p hp
    obtain ⟨⟨p0, hp0, hdeq⟩, _⟩ := h1pl p hp
    obtain ⟨hnd0, hcnt0⟩ := hdice p0 hp0
    rw [hdeq]
    exact ⟨hnd0, by omega⟩
  obtain ⟨sX, hrunX, hXph, hXmap, hXpl, hXcr, hXcs, hXcf, hXto, hXrh⟩ :=
    runEvents_setLoop s1 hndids1 hperm1 hdice1 s1.turnOrder [] s1 g
      (by simp) hne1 h1ph rfl rfl (by simp [h1ti, hti])
      (fun pid' => by rw [h1pend]; simp [PendingSelections.get_empty])
      (fun pid' => by
        rw [h1pend]
        simp [PendingSelections.isConfirmed_empty])
      rfl rfl rfl rfl
  have hrunX' : runEvents s1 g (setScript s1) = some (sX, g) := by
    unfold setScript
    exact hrunX
  have hXne : sX.players ≠ [] := by
    intro hc
    apply hmapne
    rw [← h1map, ← hXmap, hc]
    rfl
  have hXset1 : sX.currentSet = 1 := by
    rw [hXcs, h1cs, hcs]
  have hstepNS1 := step_nextSet_set1 sX g hXph hXset1 hXne
  obtain ⟨hYcs, hYti, hYps, hYsr, hYpl, hYto, hYcr, hYcf, hYph0⟩ :=
    advanceSet_facts sX
  have hndidsY : (({ advanceSet sX with phase := GamePhase.SET_SELECTION } :
      GameState).players.map Player.id).Nodup := by
    show ((advanceSet sX).players.map Player.id).Nodup
    rw [hYpl, hXmap, h1map]
    exact hnodup
  have hpermY : ({ advanceSet sX with phase := GamePhase.SET_SELECTION } :
      GameState).turnOrder.Perm
      (({ advanceSet sX with phase := GamePhase.SET_SELECTION } :
        GameState).players.map Player.id) := by
    show (advanceSet sX).turnOrder.Perm
      ((advanceSet sX).players.map Player.id)
    rw [hYto, hXto, hYpl, hXmap]
    exact hperm1
  have hdiceY : ∀ p ∈ ({ advanceSet sX with
      phase := GamePhase.SET_SELECTION } : GameState).players,
      (p.dice.map Die.id).Nodup ∧
      3 ≤ (p.dice.filter fun d => !d.isSpent).length := by
    intro p hp
    have hpX : p ∈ sX.players := by
      have hp2 : p ∈ (advanceSet sX).players := hp
      rw [hYpl] at hp2
      exact hp2
    obtain ⟨p1, hp1, hid1, hpred1, hnd1, hlen1⟩ := hXpl p hpX
    obtain ⟨⟨p0, hp0, hdeq0⟩, _⟩ := h1pl p1 hp1
    have h6 := (hdice p0 hp0).2
    rw [hdeq0] at hlen1
    exact ⟨hnd1, by omega⟩
  obtain ⟨sZ, hrunZ, hZph, hZmap, hZpl, hZcr, hZcs, hZcf, hZto, hZrh⟩ :=
    runEvents_setLoop { advanceSet sX with phase := GamePhase.SET_SELECTION }
      hndidsY hpermY hdiceY
      ({ advanceSet sX with phase := GamePhase.SET_SELECTION } :
        GameState).turnOrder [] _ g
      (by simp)
      (by
        show (advanceSet sX).turnOrder ≠ []
        rw [hYto, hXto]
        exact hne1)
      rfl rfl rfl
      (by
        show (advanceSet sX).currentTurnIndex = ([] : List Nat).length
        rw [hYti]
        rfl)
      (fun pid' => by
        show (advanceSet sX).pendingSelections.get pid' = _
        rw [hYps]
        simp [PendingSelections.get_empty])
      (fun pid' => by
        show (advanceSet sX).pendingSelections.isConfirmed pid' = _
        rw [hYps]
        simp [PendingSelections.isConfirmed_empty])
      rfl rfl rfl rfl
  have hrunZ' : runEvents
      { advanceSet sX with phase := GamePhase.SET_SELECTION } g
      (setScript { advanceSet sX with phase := GamePhase.SET_SELECTION }) =
      some (sZ, g) := by
    unfold setScript
    exact hrunZ
  have hZset2 : sZ.currentSet = 2 := by
    rw [hZcs]
    exact hYcs
  have hpredZ : ∀ p ∈ sZ.players, p.prediction.isSome := by
    intro p hp
    obtain ⟨pY, hpY, _, hpredEq, _, _⟩ := hZpl p hp
    have hpYX : pY ∈ sX.players := by
      have h2 : pY ∈ (advanceSet sX).players := hpY
      rw [hYpl] at h2
      exact h2
    obtain ⟨p1, hp1, _, hpredEq1, _, _⟩ := hXpl pY hpYX
    obtain ⟨_, hsome1⟩ := h1pl p1 hp1
    rw [hpredEq, hpredEq1]
    exact hsome1
  obtain ⟨sW, hstepNS2, hWph, hWcr, hWcf, hWmap⟩ :=
    step_nextSet_set2 sZ g hZph hZset2 hpredZ
  have hWr : sW.currentRound = r := by
    rw [hWcr, hZcr]
    show (advanceSet sX).currentRound = r
    rw [hYcr, hXcr, h1cr, hcr]
  have hWT : sW.config.totalRounds = T := by
    rw [hWcf, hZcf]
    show (advanceSet sX).config.totalRounds = T
    rw [hYcf, hXcf, h1cf, hcfT]
  have hWmapS : sW.players.map Player.id = s.players.map Player.id := by
    rw [hWmap, hZmap]
    show (advanceSet sX).players.map Player.id = s.players.map Player.id
    rw [hYpl, hXmap, h1map]
  have hWne : sW.players ≠ [] := by
    intro hc
    apply hmapne
    rw [← hWmapS, hc]
    rfl
  have hWnodup : (sW.players.map Player.id).Nodup := by
    rw [hWmapS]
    exact hnodup
  by_cases hlt : r < T
  · obtain ⟨s6, g6, hstepNR, hready⟩ := step_nextRound_more sW g hWph
      (by rw [hWr, hWT]; exact hlt) hWne hWnodup (by rw [hWr]; exact hr1)
    rw [hWT, hWr] at hready
    refine ⟨s6, g6, ?_, fun _ => hready, fun heq => absurd hlt (by omega)⟩
    unfold runRound
    rw [hrun1']
    simp only [Option.bind_eq_bind, Option.some_bind]
    rw [hrunX']
    simp only [Option.bind_eq_bind, Option.some_bind]
    rw [hstepNS1]
    simp only [Option.bind_eq_bind, Option.some_bind]
    rw [hrunZ']
    simp only [Option.bind_eq_bind, Option.some_bind]
    rw [hstepNS2]
    simp only [Option.bind_eq_bind, Option.some_bind]
    exact hstepNR
  · have heqT : r = T := by omega
    have hstepNR := step_nextRound_done sW g hWph (by rw [hWr, hWT]; omega)
    refine ⟨enterGameOver sW, g, ?_, fun hlt2 => absurd hlt2 hlt,
      fun _ => ⟨rfl, ?_⟩⟩
    · unfold runRound
      rw [hrun1']
      simp only [Option.bind_eq_bind, Option.some_bind]
      rw [hrunX']
      simp only [Option.bind_eq_bind, Option.some_bind]
      rw [hstepNS1]
      simp only [Option.bind_eq_bind, Option.some_bind]
      rw [hrunZ']
      simp only [Option.bind_eq_bind, Option.some_bind]
      rw [hstepNS2]
      simp only [Option.bind_eq_bind, Option.some_bind]
      exact hstepNR
    · show sW.currentRound = T
      rw [hWr, heqT]

/-- `runRounds` steps through one round. -/
theorem runRounds_succ (n : Nat) (s : GameState) (g : Gen) (s1 : GameState)
    (g1 : Gen) (h : runRound s g = some (s1, g1)) :
    runRounds (n + 1) s g = runRounds n s1 g1 := by
  simp [runRounds, h]

/-- Iterating the scripted round from round `r` with `n` rounds to play
finishes the game at round `T`. -/
theorem runRounds_sound (T : Nat) :
    ∀ (n r : Nat) (s : GameState) (g : Gen),
    RoundReady T r s → 1 ≤ r → 1 ≤ n → r + n = T + 1 →
    ∃ sf gf, runRounds n s g = some (sf, gf) ∧
      sf.phase = GamePhase.GAME_OVER ∧ sf.currentRound = T := by
  intro n
  induction n with
  | zero => intro r s g _ _ hn1 _; omega
  | succ n ih =>
    intro r s g hready hr1 _ hsum
    have hrT : r ≤ T := by omega
    obtain ⟨s6, g6, hrun, hmore, hlast⟩ := runRound_sound s g r T hready hr1 hrT
    cases Nat.eq_zero_or_pos n with
    | inl h0 =>
      subst h0
      have hrT2 : r = T := by omega
      obtain ⟨hph6, hcr6⟩ := hlast hrT2
      refine ⟨s6, g6, ?_, hph6, by rw [hcr6]⟩
      rw [runRounds_succ 0 s g s6 g6 hrun]
      rfl
    | inr hpos =>
      have hlt : r < T := by omega
      obtain ⟨sf, gf, hrunrest, hphf, hcrf⟩ :=
        ih (r + 1) s6 g6 (hmore hlt) (by omega) hpos (by omega)
      refine ⟨sf, gf, ?_, hphf, hcrf⟩
      rw [runRounds_succ n s g s6 g6 hrun]
      exact hrunrest

/-- START_GAME from a well-formed lobby reaches the round-1 ready state. -/
theorem startGame_sound (s : GameState) (g : Gen)
    (hph : s.phase = GamePhase.LOBBY)
    (hset1 : s.currentSet = 1)
    (hne : s.players ≠ [])
    (hnodup : (s.players.map Player.id).Nodup)
    (hpred : ∀ p ∈ s.players, p.prediction = none) :
    ∃ s1 g1, step s g GameEvent.START_GAME = some (s1, g1) ∧
      RoundReady s.config.totalRounds 1 s1 := by
  have hplen : 0 < s.players.length := List.length_pos.mpr hne
  have hmapne : s.players.map Player.id ≠ [] := by
    intro hc
    exact hne (List.map_eq_nil_iff.mp hc)
  obtain ⟨hRpl, hRph, hRcr, hRcs, hRti, hRcf, hRmap, hRlen⟩ :=
    rollInitialTurnOrder_facts { initializeRound1 s with phase := GamePhase.INITIAL_ROLL } g
  have hallrolled : allPlayersRolled (rollInitialTurnOrder { initializeRound1 s with phase := GamePhase.INITIAL_ROLL } g).1 = true := by
    unfold allPlayersRolled
    rw [hRpl, hRlen]
    have hlen2 : ({ initializeRound1 s with phase := GamePhase.INITIAL_ROLL } :
        GameState).players.length = s.players.length := rfl
    rw [hlen2]
    simp [hplen]
  have hRcr1 : ((rollInitialTurnOrder { initializeRound1 s with phase := GamePhase.INITIAL_ROLL } g).1).currentRound = 1 := by
    rw [hRcr]
    rfl
  have hRirlen : 0 < ((rollInitialTurnOrder { initializeRound1 s with phase := GamePhase.INITIAL_ROLL } g).1).initialRollResults.length := by
    rw [hRlen]
    exact hplen
  have hSTto := setTurnOrder_of_one (rollInitialTurnOrder { initializeRound1 s with phase := GamePhase.INITIAL_ROLL } g).1 hRcr1 hRirlen
  obtain ⟨hSti, hSph, hSpl, hScr, hScs, hScf, hSps, hSir⟩ :=
    setTurnOrder_facts (rollInitialTurnOrder { initializeRound1 s with phase := GamePhase.INITIAL_ROLL } g).1
  obtain ⟨hDcr, hDcs, hDti, hDps, hDcf, hDph, hDto, hDmap, hDpl⟩ :=
    rollAllDice_facts (setTurnOrder (rollInitialTurnOrder { initializeRound1 s with phase := GamePhase.INITIAL_ROLL } g).1) (rollInitialTurnOrder { initializeRound1 s with phase := GamePhase.INITIAL_ROLL } g).2
  have hDmapS : ((rollAllDice (setTurnOrder (rollInitialTurnOrder { initializeRound1 s with phase := GamePhase.INITIAL_ROLL } g).1) (rollInitialTurnOrder { initializeRound1 s with phase := GamePhase.INITIAL_ROLL } g).2).1).players.map Player.id = s.players.map Player.id := by
    rw [hDmap, hSpl, hRpl]
    rfl
  have hDne : ((rollAllDice (setTurnOrder (rollInitialTurnOrder { initializeRound1 s with phase := GamePhase.INITIAL_ROLL } g).1) (rollInitialTurnOrder { initializeRound1 s with phase := GamePhase.INITIAL_ROLL } g).2).1).players ≠ [] := by
    intro hc
    apply hmapne
    rw [← hDmapS, hc]
    rfl
  have hDprednone : ∀ q ∈ ((rollAllDice (setTurnOrder (rollInitialTurnOrder { initializeRound1 s with phase := GamePhase.INITIAL_ROLL } g).1) (rollInitialTurnOrder { initializeRound1 s with phase := GamePhase.INITIAL_ROLL } g).2).1).players, q.prediction = none := by
    intro q hq
    obtain ⟨p, hp, _, hpredEq, _, _, _⟩ := hDpl q hq
    have hpS : p ∈ s.players := by
      rw [hSpl, hRpl] at hp
      exact hp
    rw [hpredEq]
    exact hpred p hpS
  obtain ⟨q0, hq0⟩ := List.exists_mem_of_ne_nil _ hDne
  have hfalsep : allPredictionsSubmitted
      { (rollAllDice (setTurnOrder (rollInitialTurnOrder { initializeRound1 s with phase := GamePhase.INITIAL_ROLL } g).1) (rollInitialTurnOrder { initializeRound1 s with phase := GamePhase.INITIAL_ROLL } g).2).1 with phase := GamePhase.PREDICTION } = false :=
    allPredictionsSubmitted_false (p := q0) hq0 (hDprednone q0 hq0)
  have henter : enterPrediction (rollAllDice (setTurnOrder (rollInitialTurnOrder { initializeRound1 s with phase := GamePhase.INITIAL_ROLL } g).1) (rollInitialTurnOrder { initializeRound1 s with phase := GamePhase.INITIAL_ROLL } g).2).1 =
      some { (rollAllDice (setTurnOrder (rollInitialTurnOrder { initializeRound1 s with phase := GamePhase.INITIAL_ROLL } g).1) (rollInitialTurnOrder { initializeRound1 s with phase := GamePhase.INITIAL_ROLL } g).2).1 with phase := GamePhase.PREDICTION } := by
    unfold enterPrediction stayPrediction
    rw [if_neg (by simp [hfalsep])]
  refine ⟨{ (rollAllDice (setTurnOrder (rollInitialTurnOrder { initializeRound1 s with phase := GamePhase.INITIAL_ROLL } g).1) (rollInitialTurnOrder { initializeRound1 s with phase := GamePhase.INITIAL_ROLL } g).2).1 with phase := GamePhase.PREDICTION }, (rollAllDice (setTurnOrder (rollInitialTurnOrder { initializeRound1 s with phase := GamePhase.INITIAL_ROLL } g).1) (rollInitialTurnOrder { initializeRound1 s with phase := GamePhase.INITIAL_ROLL } g).2).2, ?_, ?_⟩
  · unfold step
    rw [hph]
    dsimp only
    unfold enterInitialRoll
    dsimp only
    rw [if_pos hallrolled, henter]
    rfl
  · refine ⟨rfl, ?_, ?_, ?_, ?_, hDne, ?_, ?_, ?_, ?_⟩
    · show ((rollAllDice (setTurnOrder (rollInitialTurnOrder { initializeRound1 s with phase := GamePhase.INITIAL_ROLL } g).1) (rollInitialTurnOrder { initializeRound1 s with phase := GamePhase.INITIAL_ROLL } g).2).1).currentRound = 1
      rw [hDcr, hScr, hRcr1]
    · show ((rollAllDice (setTurnOrder (rollInitialTurnOrder { initializeRound1 s with phase := GamePhase.INITIAL_ROLL } g).1) (rollInitialTurnOrder { initializeRound1 s with phase := GamePhase.INITIAL_ROLL } g).2).1).currentSet = 1
      rw [hDcs, hScs, hRcs]
      exact hset1
    · show ((rollAllDice (setTurnOrder (rollInitialTurnOrder { initializeRound1 s with phase := GamePhase.INITIAL_ROLL } g).1) (rollInitialTurnOrder { initializeRound1 s with phase := GamePhase.INITIAL_ROLL } g).2).1).currentTurnIndex = 0
      rw [hDti]
      exact hSti
    · show ((rollAllDice (setTurnOrder (rollInitialTurnOrder { initializeRound1 s with phase := GamePhase.INITIAL_ROLL } g).1) (rollInitialTurnOrder { initializeRound1 s with phase := GamePhase.INITIAL_ROLL } g).2).1).config.totalRounds = s.config.totalRounds
      rw [hDcf, hScf, hRcf]
      rfl
    · show (((rollAllDice (setTurnOrder (rollInitialTurnOrder { initializeRound1 s with phase := GamePhase.INITIAL_ROLL } g).1) (rollInitialTurnOrder { initializeRound1 s with phase := GamePhase.INITIAL_ROLL } g).2).1).players.map Player.id).Nodup
      rw [hDmapS]
      exact hnodup
    · show ((rollAllDice (setTurnOrder (rollInitialTurnOrder { initializeRound1 s with phase := GamePhase.INITIAL_ROLL } g).1) (rollInitialTurnOrder { initializeRound1 s with phase := GamePhase.INITIAL_ROLL } g).2).1).turnOrder.Perm (((rollAllDice (setTurnOrder (rollInitialTurnOrder { initializeRound1 s with phase := GamePhase.INITIAL_ROLL } g).1) (rollInitialTurnOrder { initializeRound1 s with phase := GamePhase.INITIAL_ROLL } g).2).1).players.map Player.id)
      rw [hDto, hSTto, hDmapS]
      refine (calculateInitialTurnOrder_perm _).trans ?_
      rw [hRmap]
      exact List.Perm.refl _
    · intro p hp
      exact hDprednone p hp
    · intro p hp
      obtain ⟨p0, hp0, _, _, hnd, hsp, hlen⟩ := hDpl p hp
      have hfull : (p.dice.filter fun d => !d.isSpent) = p.dice := by
        rw [List.filter_eq_self]
        intro d hd
        rw [hsp d hd]
        rfl
      refine ⟨hnd, ?_⟩
      rw [hfull, hlen]
      omega

/-- C1: starting from a LOBBY with 2-6 ready players (duplicate-free ids,
no predictions yet, set counter 1) and a valid config (3-10 rounds),
the scripted event sequence - START_GAME; every player SUBMIT_PREDICTION;
for each set every player SELECT_DICE then CONFIRM_SELECTION in turn
order; NEXT_SET after each set; NEXT_ROUND after each round summary -
iterated round after round ends in the GAME_OVER phase after exactly
`totalRounds` rounds. -/
theorem claim_C1_scripted_game (s : GameState) (g : Gen)
    (hph : s.phase = GamePhase.LOBBY)
    (hset1 : s.currentSet = 1)
    (hn2 : 2 ≤ s.players.length) (hn6 : s.players.length ≤ 6)
    (hnodup : (s.players.map Player.id).Nodup)
    (hallready : ∀ p ∈ s.players, p.isReady = true)
    (hpred : ∀ p ∈ s.players, p.prediction = none)
    (hT3 : 3 ≤ s.config.totalRounds) (hT10 : s.config.totalRounds ≤ 10) :
    ∃ sf gf, playGame s g = some (sf, gf) ∧
      sf.phase = GamePhase.GAME_OVER ∧
      sf.currentRound = s.config.totalRounds := by
  have hne : s.players ≠ [] := by
    intro hc
    rw [hc] at hn2
    simp at hn2
  obtain ⟨s1, g1, hstep, hready1⟩ :=
    startGame_sound s g hph hset1 hne hnodup hpred
  have hcfg : s1.config.totalRounds = s.config.totalRounds :=
    hready1.2.2.2.2.1
  obtain ⟨sf, gf, hruns, hphf, hcrf⟩ :=
    runRounds_sound s.config.totalRounds s1.config.totalRounds 1 s1 g1
      hready1 (le_refl 1) (by rw [hcfg]; omega) (by rw [hcfg]; omega)
  refine ⟨sf, gf, ?_, hphf, hcrf⟩
  unfold playGame
  rw [hstep]
  simp only [Option.bind_eq_bind, Option.some_bind]
  exact hruns

theorem claim_C1_scripted_game_witness :
    (mkLobbyState [mkLobbyPlayer 0 true true, mkLobbyPlayer 1 true false]
      0).phase = GamePhase.LOBBY ∧
    (mkLobbyState [mkLobbyPlayer 0 true true, mkLobbyPlayer 1 true false]
      0).currentSet = 1 ∧
    2 ≤ (mkLobbyState [mkLobbyPlayer 0 true true, mkLobbyPlayer 1 true false]
      0).players.length ∧
    (mkLobbyState [mkLobbyPlayer 0 true true, mkLobbyPlayer 1 true false]
      0).players.length ≤ 6 ∧
    ((mkLobbyState [mkLobbyPlayer 0 true true, mkLobbyPlayer 1 true false]
      0).players.map Player.id).Nodup ∧
    (∀ p ∈ (mkLobbyState [mkLobbyPlayer 0 true true,
      mkLobbyPlayer 1 true false] 0).players, p.isReady = true) ∧
    (∀ p ∈ (mkLobbyState [mkLobbyPlayer 0 true true,
      mkLobbyPlayer 1 true false] 0).players, p.prediction = none) ∧
    3 ≤ (mkLobbyState [mkLobbyPlayer 0 true true, mkLobbyPlayer 1 true false]
      0).config.totalRounds ∧
    (mkLobbyState [mkLobbyPlayer 0 true true, mkLobbyPlayer 1 true false]
      0).config.totalRounds ≤ 10 ∧
    (∃ sf gf, playGame (mkLobbyState [mkLobbyPlayer 0 true true,
        mkLobbyPlayer 1 true false] 0) gen0 = some (sf, gf) ∧
      sf.phase = GamePhase.GAME_OVER ∧
      sf.currentRound = (mkLobbyState [mkLobbyPlayer 0 true true,
        mkLobbyPlayer 1 true false] 0).config.totalRounds) :=
  ⟨rfl, rfl, by decide, by decide, by decide, by decide, by decide,
    by decide, by decide,
    claim_C1_scripted_game _ gen0 rfl rfl (by decide) (by decide)
      (by decide) (by decide) (by decide) (by decide) (by decide)⟩

end DevilsDice
